import Mathlib

/-!
# go-gremlin: the wire-protocol client

A shallow embedding of `connection.go`, `request.go` and `response.go`.

* Go `string` and `[]byte` values are lists of bytes; a byte is a natural number below 256.
* A Go slice that may be `nil` is an `Option (List α)`: `none` is the nil slice.
* The websocket connection is a script: the results the successive `ReadMessage` and
  `WriteMessage` calls will give, and the messages written so far.
* A call either returns its Go result pair, panics (nil pointer dereference), or blocks
  for ever on a read or write for which the script holds no result.
* The status-code constants and the `ErrorMsg` table are declared in a file of the package
  that is not part of the sources at hand; they are a parameter (`StatusTable`).
* `encoding/json`, `encoding/base64` and `os.LookupEnv` are library code; the parts the
  package calls are modelled in the first sections.
-/

namespace Gremlin

/-! ## Bytes, strings, slices, errors -/

/-- A Go byte slice `[]byte`, by content; a byte is a natural number below 256. -/
abbrev GoBytes := List Nat

/-- A Go `string`: a sequence of bytes, not necessarily valid UTF-8. -/
abbrev GoString := List Nat

/-- A Go slice that may be nil: `none` is the nil slice, `some []` an empty non-nil slice. -/
abbrev GoSlice (α : Type) := Option (List α)

/-- Go's `append(s, xs...)`: appending no element gives back `s` itself, so a nil slice
stays nil; appending at least one element gives a non-nil slice. -/
def GoSlice.append {α : Type} (s : GoSlice α) (xs : GoSlice α) : GoSlice α :=
  match xs.getD [] with
  | [] => s
  | x :: rest => some (s.getD [] ++ x :: rest)

/-- The bytes of a string literal of the source (UTF-8). -/
def goStr (s : String) : GoString :=
  s.toList.flatMap fun c => (String.utf8EncodeChar c).map UInt8.toNat

/-- Every element is a byte. -/
def IsBytes (s : List Nat) : Prop := ∀ b ∈ s, (b : Nat) < 256

instance (s : List Nat) : Decidable (IsBytes s) := by
  unfold IsBytes; infer_instance

/-- What went wrong inside `encoding/json`. -/
inductive JsonFailure
  /-- The text is not valid JSON (`*json.SyntaxError`). -/
  | invalidText
  /-- A JSON value does not fit the Go type it is decoded into (`*json.UnmarshalTypeError`). -/
  | typeMismatch
  /-- A value cannot be encoded (`*json.UnsupportedTypeError`, `*json.MarshalerError`). -/
  | unsupported
  deriving DecidableEq, Repr

/-- Go `error` values, by what built them. -/
inductive GoError
  /-- The value of `errors.New(msg)`. -/
  | new (msg : GoString)
  /-- The value of `errors.Wrapf(cause, msg)`. -/
  | wrapf (cause : GoError) (msg : GoString)
  /-- An error returned by the websocket connection. -/
  | transport (desc : GoString)
  /-- An error returned by `encoding/json`. -/
  | json (failure : JsonFailure)
  /-- An error returned by a caller-supplied credential option. -/
  | custom (desc : GoString)
  deriving DecidableEq, Repr

deriving instance DecidableEq for Except

/-! ## encoding/base64: `StdEncoding` -/

namespace StdEncoding

/-- The character of a 6-bit value in the standard alphabet `A-Z a-z 0-9 + /`. -/
def encodeSextet (n : Nat) : Nat :=
  if n < 26 then 65 + n
  else if n < 52 then 97 + (n - 26)
  else if n < 62 then 48 + (n - 52)
  else if n = 62 then 43
  else 47

/-- The 6-bit value of a character of the standard alphabet. -/
def decodeSextet (c : Nat) : Option Nat :=
  if 65 ≤ c ∧ c ≤ 90 then some (c - 65)
  else if 97 ≤ c ∧ c ≤ 122 then some (c - 97 + 26)
  else if 48 ≤ c ∧ c ≤ 57 then some (c - 48 + 52)
  else if c = 43 then some 62
  else if c = 47 then some 63
  else none

/-- The function `base64.StdEncoding.EncodeToString`: three bytes give four characters, a
last group of one or two bytes is padded with `=`. -/
def EncodeToString : GoBytes → GoString
  | a :: b :: c :: rest =>
      encodeSextet (a / 4) :: encodeSextet (a % 4 * 16 + b / 16) ::
      encodeSextet (b % 16 * 4 + c / 64) :: encodeSextet (c % 64) :: EncodeToString rest
  | [a, b] =>
      [encodeSextet (a / 4), encodeSextet (a % 4 * 16 + b / 16), encodeSextet (b % 16 * 4), 61]
  | [a] => [encodeSextet (a / 4), encodeSextet (a % 4 * 16), 61, 61]
  | [] => []

/-- Decoding of the four-character groups, after the line breaks were removed. Padding
`=` may only end the last group, in its fourth place or its third and fourth places. -/
def decodeQuanta : GoString → Option GoBytes
  | [] => some []
  | c0 :: c1 :: c2 :: c3 :: rest =>
    if c3 = 61 then
      if rest = [] then
        if c2 = 61 then
          match decodeSextet c0, decodeSextet c1 with
          | some s0, some s1 => some [s0 * 4 + s1 / 16]
          | _, _ => none
        else
          match decodeSextet c0, decodeSextet c1, decodeSextet c2 with
          | some s0, some s1, some s2 => some [s0 * 4 + s1 / 16, s1 % 16 * 16 + s2 / 4]
          | _, _, _ => none
      else none
    else
      match decodeSextet c0, decodeSextet c1, decodeSextet c2, decodeSextet c3,
        decodeQuanta rest with
      | some s0, some s1, some s2, some s3, some tl =>
          some ((s0 * 4 + s1 / 16) :: (s1 % 16 * 16 + s2 / 4) :: (s2 % 4 * 64 + s3) :: tl)
      | _, _, _, _, _ => none
  | _ => none

/-- The function `base64.StdEncoding.DecodeString`: carriage returns and line feeds are
skipped, then the groups are decoded; `none` is a `CorruptInputError`. -/
def DecodeString (s : GoString) : Option GoBytes :=
  decodeQuanta (s.filter fun c => c != 13 && c != 10)

end StdEncoding

/-! ## unicode/utf8 -/

namespace Utf8

/-- The rune `utf8.RuneError`, U+FFFD. -/
def RuneError : Nat := 65533

/-- A continuation byte `10xxxxxx`. -/
def isCont (b : Nat) : Bool := 128 ≤ b && b ≤ 191

/-- The function `utf8.DecodeRune`: the first rune of the bytes and its width; an invalid
or truncated encoding gives `(RuneError, 1)`, no byte at all `(RuneError, 0)`. -/
def DecodeRune : GoBytes → Nat × Nat
  | [] => (RuneError, 0)
  | b0 :: rest =>
    if b0 < 128 then (b0, 1)
    else if 194 ≤ b0 ∧ b0 ≤ 223 then
      match rest with
      | b1 :: _ => if isCont b1 then ((b0 - 192) * 64 + (b1 - 128), 2) else (RuneError, 1)
      | _ => (RuneError, 1)
    else if 224 ≤ b0 ∧ b0 ≤ 239 then
      match rest with
      | b1 :: b2 :: _ =>
        if (if b0 = 224 then 160 else 128) ≤ b1 ∧ b1 ≤ (if b0 = 237 then 159 else 191)
            ∧ isCont b2 then
          ((b0 - 224) * 4096 + (b1 - 128) * 64 + (b2 - 128), 3)
        else (RuneError, 1)
      | _ => (RuneError, 1)
    else if 240 ≤ b0 ∧ b0 ≤ 244 then
      match rest with
      | b1 :: b2 :: b3 :: _ =>
        if (if b0 = 240 then 144 else 128) ≤ b1 ∧ b1 ≤ (if b0 = 244 then 143 else 191)
            ∧ isCont b2 ∧ isCont b3 then
          ((b0 - 240) * 262144 + (b1 - 128) * 4096 + (b2 - 128) * 64 + (b3 - 128), 4)
        else (RuneError, 1)
      | _ => (RuneError, 1)
    else (RuneError, 1)

/-- The function `utf8.EncodeRune` (`utf8.AppendRune`): a surrogate or a value above
U+10FFFF is written as U+FFFD. -/
def EncodeRune (r : Nat) : GoBytes :=
  if r < 128 then [r]
  else if r < 2048 then [192 + r / 64, 128 + r % 64]
  else if (55296 ≤ r ∧ r ≤ 57343) ∨ 1114111 < r then [239, 191, 189]
  else if r < 65536 then [224 + r / 4096, 128 + r / 64 % 64, 128 + r % 64]
  else [240 + r / 262144, 128 + r / 4096 % 64, 128 + r / 64 % 64, 128 + r % 64]

end Utf8

/-! ## encoding/json: the scanner -/

namespace Json

/-- JSON white space: space, tab, carriage return, line feed. -/
def isSpace (c : Nat) : Bool := c == 32 || c == 9 || c == 13 || c == 10

/-- A decimal digit. -/
def isDigit (c : Nat) : Bool := 48 ≤ c && c ≤ 57

/-- A hexadecimal digit. -/
def isHex (c : Nat) : Bool :=
  (48 ≤ c && c ≤ 57) || (97 ≤ c && c ≤ 102) || (65 ≤ c && c ≤ 70)

/-- Drops the leading white space. -/
def skipSpace : GoBytes → GoBytes
  | [] => []
  | c :: cs => if isSpace c then skipSpace cs else c :: cs

/-- Drops the leading decimal digits. -/
def skipDigits : GoBytes → GoBytes
  | [] => []
  | c :: cs => if isDigit c then skipDigits cs else c :: cs

/-- The bytes of `s` that precede its suffix `rest`. -/
def consumed (s rest : GoBytes) : GoBytes := s.take (s.length - rest.length)

/-- Scans a string literal whose opening quote has been read; the result is the text
after the closing quote. A control character or a bad escape is an error. -/
def scanString : GoBytes → Option GoBytes
  | [] => none
  | c :: cs =>
    if c = 34 then some cs
    else if c = 92 then
      match cs with
      | [] => none
      | e :: cs1 =>
        if e = 117 then
          match cs1 with
          | h1 :: h2 :: h3 :: h4 :: cs2 =>
            if isHex h1 && isHex h2 && isHex h3 && isHex h4 then scanString cs2 else none
          | _ => none
        else if e = 98 ∨ e = 102 ∨ e = 110 ∨ e = 114 ∨ e = 116 ∨ e = 92 ∨ e = 47 ∨ e = 34 then
          scanString cs1
        else none
    else if c < 32 then none
    else scanString cs

/-- The exponent part of a number, if any. -/
def scanExponent (s : GoBytes) : Option GoBytes :=
  match s with
  | e :: r =>
    if e = 101 ∨ e = 69 then
      match (match r with
        | sgn :: r1 => if sgn = 43 ∨ sgn = 45 then r1 else r
        | [] => r) with
      | d :: r2 => if isDigit d then some (skipDigits r2) else none
      | [] => none
    else some s
  | [] => some s

/-- The fraction part of a number, if any, then the exponent. -/
def scanFraction (s : GoBytes) : Option GoBytes :=
  match s with
  | 46 :: r =>
    match r with
    | d :: r1 => if isDigit d then scanExponent (skipDigits r1) else none
    | [] => none
  | _ => scanExponent s

/-- Scans a number literal `-?(0|[1-9][0-9]*)(\.[0-9]+)?([eE][+-]?[0-9]+)?`; the result is
the text after it. -/
def scanNumber (s : GoBytes) : Option GoBytes :=
  match (match s with
    | 45 :: r => r
    | _ => s) with
  | d :: r =>
    if d = 48 then scanFraction r
    else if 49 ≤ d ∧ d ≤ 57 then scanFraction (skipDigits r)
    else none
  | [] => none

/-- Reads the given bytes off the front of the text. -/
def scanLiteral : GoBytes → GoBytes → Option GoBytes
  | [], s => some s
  | _ :: _, [] => none
  | l :: ls, c :: cs => if c = l then scanLiteral ls cs else none

/-- The scanner's `maxNestingDepth`: arrays and objects nest at most this deep. -/
def maxNestingDepth : Nat := 10000

mutual
/-- Scans one JSON value that starts at the first byte of the text; the result is the text
after the value. `depth` counts the arrays and objects the value lies in. -/
def scanValue : Nat → Nat → GoBytes → Option GoBytes
  | 0, _, _ => none
  | _ + 1, _, [] => none
  | fuel + 1, depth, c :: cs =>
    if c = 34 then scanString cs
    else if c = 91 then
      if maxNestingDepth ≤ depth then none
      else match skipSpace cs with
        | 93 :: r => some r
        | r => scanElements fuel (depth + 1) r
    else if c = 123 then
      if maxNestingDepth ≤ depth then none
      else match skipSpace cs with
        | 125 :: r => some r
        | r => scanMembers fuel (depth + 1) r
    else if c = 116 then scanLiteral [114, 117, 101] cs
    else if c = 102 then scanLiteral [97, 108, 115, 101] cs
    else if c = 110 then scanLiteral [117, 108, 108] cs
    else if c = 45 ∨ isDigit c then scanNumber (c :: cs)
    else none
/-- Scans the elements of an array from the start of an element to the closing bracket. -/
def scanElements : Nat → Nat → GoBytes → Option GoBytes
  | 0, _, _ => none
  | fuel + 1, depth, s =>
    match scanValue fuel depth s with
    | none => none
    | some r =>
      match skipSpace r with
      | 44 :: r1 => scanElements fuel depth (skipSpace r1)
      | 93 :: r1 => some r1
      | _ => none
/-- Scans the members of an object from the start of a key to the closing brace. -/
def scanMembers : Nat → Nat → GoBytes → Option GoBytes
  | 0, _, _ => none
  | _ + 1, _, [] => none
  | fuel + 1, depth, q :: s =>
    if q = 34 then
      match scanString s with
      | none => none
      | some r =>
        match skipSpace r with
        | 58 :: r1 =>
          match scanValue fuel depth (skipSpace r1) with
          | none => none
          | some r2 =>
            match skipSpace r2 with
            | 44 :: r3 => scanMembers fuel depth (skipSpace r3)
            | 125 :: r3 => some r3
            | _ => none
        | _ => none
    else none
end

/-- Recursion budget that suffices for a text: no chain of nested scanner calls is longer
than twice the number of bytes. -/
def fuelFor (s : GoBytes) : Nat := 2 * s.length + 2

/-- The function `json.Valid`, the check `checkValid` that `Unmarshal` runs first and
`compact` runs along the way: the text is one JSON value within optional white space. -/
def Valid (data : GoBytes) : Bool :=
  match scanValue (fuelFor data) 0 (skipSpace data) with
  | some r => skipSpace r == []
  | none => false

/-! ### Decoding of scalars -/

/-- The value of a hexadecimal digit. -/
def hexValue (c : Nat) : Nat :=
  if 48 ≤ c ∧ c ≤ 57 then c - 48
  else if 97 ≤ c ∧ c ≤ 102 then c - 87
  else c - 55

/-- The decoder's `unquoteBytes`, on the text between the quotes: escapes are resolved, a
`\u` surrogate pair gives one rune, a lone surrogate and every byte that is not valid
UTF-8 give U+FFFD. -/
def unquote : Nat → GoBytes → Option GoString
  | _, [] => some []
  | 0, _ :: _ => none
  | fuel + 1, c :: cs =>
    if c = 92 then
      match cs with
      | [] => none
      | e :: cs1 =>
        if e = 117 then
          match cs1 with
          | h1 :: h2 :: h3 :: h4 :: cs2 =>
            if isHex h1 && isHex h2 && isHex h3 && isHex h4 then
              let rr := hexValue h1 * 4096 + hexValue h2 * 256 + hexValue h3 * 16 + hexValue h4
              if 55296 ≤ rr ∧ rr ≤ 57343 then
                match cs2 with
                | 92 :: 117 :: l1 :: l2 :: l3 :: l4 :: cs3 =>
                  let r1 := hexValue l1 * 4096 + hexValue l2 * 256 + hexValue l3 * 16
                    + hexValue l4
                  if isHex l1 && isHex l2 && isHex l3 && isHex l4 && decide (rr < 56320)
                      && decide (56320 ≤ r1) && decide (r1 ≤ 57343) then
                    (unquote fuel cs3).map
                      (Utf8.EncodeRune ((rr - 55296) * 1024 + (r1 - 56320) + 65536) ++ ·)
                  else (unquote fuel cs2).map (Utf8.EncodeRune Utf8.RuneError ++ ·)
                | _ => (unquote fuel cs2).map (Utf8.EncodeRune Utf8.RuneError ++ ·)
              else (unquote fuel cs2).map (Utf8.EncodeRune rr ++ ·)
            else none
          | _ => none
        else if e = 34 ∨ e = 92 ∨ e = 47 ∨ e = 39 then (unquote fuel cs1).map (e :: ·)
        else if e = 98 then (unquote fuel cs1).map (8 :: ·)
        else if e = 102 then (unquote fuel cs1).map (12 :: ·)
        else if e = 110 then (unquote fuel cs1).map (10 :: ·)
        else if e = 114 then (unquote fuel cs1).map (13 :: ·)
        else if e = 116 then (unquote fuel cs1).map (9 :: ·)
        else none
    else if c = 34 ∨ c < 32 then none
    else if c < 128 then (unquote fuel cs).map (c :: ·)
    else
      let (rr, size) := Utf8.DecodeRune (c :: cs)
      (unquote fuel (cs.drop (size - 1))).map (Utf8.EncodeRune rr ++ ·)

/-- The Go string of a JSON string literal given with its quotes. -/
def unquoteLiteral (raw : GoBytes) : Option GoString :=
  match raw with
  | 34 :: rest => unquote rest.length rest.dropLast
  | _ => none

/-- The number a run of decimal digits denotes, after the digits already read. -/
def digitsValue (acc : Nat) : GoBytes → Nat
  | [] => acc
  | c :: cs => digitsValue (acc * 10 + (c - 48)) cs

/-- The function `strconv.ParseInt(s, 10, 64)` on a JSON number literal: an optional sign and
digits only, within the range of `int64`. -/
def parseInt64 (lit : GoBytes) : Option Int :=
  let neg := lit.head? == some 45
  let digits := if neg then lit.tail else lit
  if digits != [] && digits.all isDigit then
    let n := digitsValue 0 digits
    if neg then (if n ≤ 9223372036854775808 then some (-(n : Int)) else none)
    else (if n ≤ 9223372036854775807 then some (n : Int) else none)
  else none

/-- Whether `strconv.ParseFloat(s, 64)` reports a range error on a JSON number literal: the
value rounds to infinity, that is, it reaches `(2^54 - 1) * 2^970`, half-way between the
largest `float64` and `2^1024`. -/
def floatOverflows (lit : GoBytes) : Bool :=
  let body := if lit.head? == some 45 then lit.tail else lit
  let intDigits := body.takeWhile isDigit
  let afterInt := body.dropWhile isDigit
  let fracDigits := if afterInt.head? == some 46 then afterInt.tail.takeWhile isDigit else []
  let afterFrac := if afterInt.head? == some 46 then afterInt.tail.dropWhile isDigit
    else afterInt
  let expText := afterFrac.tail
  let expNeg := expText.head? == some 45
  let expDigits := if expText.head? == some 45 || expText.head? == some 43 then expText.tail
    else expText
  let mantissa := digitsValue 0 (intDigits ++ fracDigits)
  let exponent : Int :=
    (if expNeg then -(digitsValue 0 expDigits : Int) else (digitsValue 0 expDigits : Int))
      - fracDigits.length
  let limit := (2 ^ 54 - 1) * 2 ^ 970
  if mantissa = 0 then false
  else if 0 ≤ exponent then decide (limit ≤ mantissa * 10 ^ exponent.toNat)
  else decide (limit * 10 ^ (-exponent).toNat ≤ mantissa)

/-- Whether every number literal of a valid JSON text can be stored in a `float64`, as
decoding into `interface{}` needs. -/
def numbersFit : Nat → GoBytes → Bool
  | _, [] => true
  | 0, _ :: _ => false
  | fuel + 1, c :: cs =>
    if c = 34 then
      match scanString cs with
      | some r => numbersFit fuel r
      | none => false
    else if c = 45 ∨ isDigit c then
      match scanNumber (c :: cs) with
      | some r => !floatOverflows (consumed (c :: cs) r) && numbersFit fuel r
      | none => false
    else numbersFit fuel cs

/-- The decoder's `foldName`: the key with every rune replaced by the smallest rune of its
case-folding class; `a-z` become `A-Z`, U+017F becomes `S` and U+212A becomes `K`. No other
rune folds to an ASCII letter. -/
def foldName : GoString → GoString
  | 197 :: 191 :: r => 83 :: foldName r
  | 226 :: 132 :: 170 :: r => 75 :: foldName r
  | c :: r => (if 97 ≤ c ∧ c ≤ 122 then c - 32 else c) :: foldName r
  | [] => []

/-- Whether an object key selects the struct field with the given JSON name: the same
text, or the same text up to case folding. -/
def keyMatches (name : String) (key : GoString) : Bool :=
  key == goStr name || foldName key == foldName (goStr name)

/-! ### Arrays and objects -/

/-- The texts of the elements of an array, from the start of the first element. -/
def arrayElements : Nat → GoBytes → Option (List GoBytes)
  | 0, _ => none
  | fuel + 1, s =>
    match scanValue (fuelFor s) 0 s with
    | none => none
    | some r =>
      match skipSpace r with
      | 44 :: r1 => (arrayElements fuel (skipSpace r1)).map (consumed s r :: ·)
      | 93 :: _ => some [consumed s r]
      | _ => none

/-- The members of an object, from the start of the first key: each decoded key with the
text of its value, in the order of the text. -/
def objectMembers : Nat → GoBytes → Option (List (GoString × GoBytes))
  | 0, _ => none
  | _ + 1, [] => none
  | fuel + 1, q :: s =>
    if q = 34 then
      match scanString s with
      | none => none
      | some r =>
        match unquote s.length (consumed s r).dropLast, skipSpace r with
        | some key, 58 :: r1 =>
          match scanValue (fuelFor r1) 0 (skipSpace r1) with
          | none => none
          | some r2 =>
            match skipSpace r2 with
            | 44 :: r3 =>
              (objectMembers fuel (skipSpace r3)).map
                ((key, consumed (skipSpace r1) r2) :: ·)
            | 125 :: _ => some [(key, consumed (skipSpace r1) r2)]
            | _ => none
        | _, _ => none
    else none

/-- The elements of the array whose text is given (it starts with `[`). -/
def elementsOf (raw : GoBytes) : Option (List GoBytes) :=
  match skipSpace raw.tail with
  | 93 :: _ => some []
  | s => arrayElements raw.length s

/-- The members of the object whose text is given (it starts with `{`). -/
def membersOf (raw : GoBytes) : Option (List (GoString × GoBytes)) :=
  match skipSpace raw.tail with
  | 125 :: _ => some []
  | s => objectMembers raw.length s

/-! ### Encoding -/

/-- A lower-case hexadecimal digit. -/
def hexDigit (n : Nat) : Nat := if n < 10 then 48 + n else 87 + n

/-- The body of the encoder's `appendString` with HTML escaping on, as `json.Marshal` sets
it: quote, backslash and control characters are escaped, so are `<`, `>`, `&`, U+2028 and
U+2029, and a byte that is not valid UTF-8 is written `\ufffd`. An encoder built on
`encoding/json/v2` writes the three bytes `EF BF BD` of U+FFFD there instead of the escape;
the decoder reads U+FFFD from either, and the difference concerns only strings that are not
valid UTF-8. -/
def escapeString : Nat → GoString → GoBytes
  | _, [] => []
  | 0, _ :: _ => []
  | fuel + 1, b :: bs =>
    if b < 128 then
      if b = 92 ∨ b = 34 then 92 :: b :: escapeString fuel bs
      else if b = 8 then 92 :: 98 :: escapeString fuel bs
      else if b = 12 then 92 :: 102 :: escapeString fuel bs
      else if b = 10 then 92 :: 110 :: escapeString fuel bs
      else if b = 13 then 92 :: 114 :: escapeString fuel bs
      else if b = 9 then 92 :: 116 :: escapeString fuel bs
      else if b < 32 ∨ b = 60 ∨ b = 62 ∨ b = 38 then
        92 :: 117 :: 48 :: 48 :: hexDigit (b / 16) :: hexDigit (b % 16) :: escapeString fuel bs
      else b :: escapeString fuel bs
    else
      let (r, size) := Utf8.DecodeRune (b :: bs)
      if r = Utf8.RuneError ∧ size = 1 then
        92 :: 117 :: 102 :: 102 :: 102 :: 100 :: escapeString fuel bs
      else if r = 8232 ∨ r = 8233 then
        92 :: 117 :: 50 :: 48 :: 50 :: hexDigit (r % 16) :: escapeString fuel (bs.drop (size - 1))
      else (b :: bs).take size ++ escapeString fuel (bs.drop (size - 1))

/-- The JSON string literal of a Go string. -/
def appendString (s : GoString) : GoBytes := 34 :: escapeString s.length s ++ [34]

/-- The decimal text of a Go `int`. -/
def appendInt (n : Int) : GoBytes :=
  match n with
  | .ofNat k => (Nat.toDigits 10 k).map Char.toNat
  | .negSucc k => 45 :: (Nat.toDigits 10 (k + 1)).map Char.toNat

/-- What `appendCompact` writes for a valid text: white space outside strings is dropped,
and `<`, `>`, `&`, U+2028 and U+2029 are escaped. The flags tell whether the position is
inside a string and whether it follows a backslash. -/
def compactBytes : Bool → Bool → GoBytes → GoBytes
  | _, _, [] => []
  | inString, _, 226 :: 128 :: 168 :: cs =>
    92 :: 117 :: 50 :: 48 :: 50 :: 56 :: compactBytes inString false cs
  | inString, _, 226 :: 128 :: 169 :: cs =>
    92 :: 117 :: 50 :: 48 :: 50 :: 57 :: compactBytes inString false cs
  | inString, escaped, c :: cs =>
    if c = 60 ∨ c = 62 ∨ c = 38 then
      92 :: 117 :: 48 :: 48 :: hexDigit (c / 16) :: hexDigit (c % 16)
        :: compactBytes inString false cs
    else if inString then
      if escaped then c :: compactBytes true false cs
      else if c = 92 then c :: compactBytes true true cs
      else if c = 34 then c :: compactBytes false false cs
      else c :: compactBytes true false cs
    else if isSpace c then compactBytes false false cs
    else if c = 34 then c :: compactBytes true false cs
    else c :: compactBytes false false cs

/-- The encoder's `appendCompact` with HTML escaping on: fails on a text that is not valid
JSON. -/
def appendCompact (src : GoBytes) : Option GoBytes :=
  if Valid src then some (compactBytes false false src) else none

/-- The order `strings.Compare` gives: byte-wise lexicographic. -/
def stringLe : GoString → GoString → Bool
  | [], _ => true
  | _ :: _, [] => false
  | a :: as, b :: bs => a < b || (a == b && stringLe as bs)

/-- The encodings of the parts of a value, if every part could be encoded. -/
def collect {α : Type} : List (Option α) → Option (List α)
  | [] => some []
  | none :: _ => none
  | some x :: rest => (collect rest).map (x :: ·)

/-- The members of an encoded object or the elements of an encoded array, joined by commas. -/
def joinComma : List GoBytes → GoBytes
  | [] => []
  | [x] => x
  | x :: y :: rest => x ++ 44 :: joinComma (y :: rest)

end Json

/-! ## response.go -/

/-- The type `json.RawMessage`: the text of a JSON value, not decoded. A raw message of
length zero stands for the nil one. -/
abbrev RawMessage := GoBytes

/-- A `map[string]interface{}` filled by the JSON decoder: `none` is the nil map, otherwise
the keys with the JSON text of their values, a later entry for a key replacing an earlier
one. -/
abbrev DecodedMap := GoSlice (GoString × GoBytes)

/-- The struct `ResponseStatus`. -/
structure ResponseStatus where
  Code : Int := 0
  Attributes : DecodedMap := none
  Message : GoString := []
  deriving DecidableEq, Repr

/-- The struct `ResponseResult`. -/
structure ResponseResult where
  Data : RawMessage := []
  Meta : DecodedMap := none
  deriving DecidableEq, Repr

/-- The struct `Response`; the pointer fields `Status` and `Result` may be nil. -/
structure Response where
  RequestID : GoString := []
  Status : Option ResponseStatus := none
  Result : Option ResponseResult := none
  deriving DecidableEq, Repr

namespace Json

/-- Decoding of a JSON value into a Go `string` that holds `cur`: `null` leaves it as it
is, a string literal sets it, any other value is a type mismatch. -/
def decodeString (cur : GoString) (raw : GoBytes) : Except GoError GoString :=
  match raw with
  | 110 :: _ => .ok cur
  | 34 :: _ =>
    match unquoteLiteral raw with
    | some s => .ok s
    | none => .error (.json .invalidText)
  | _ => .error (.json .typeMismatch)

/-- Decoding of a JSON value into a Go `int` that holds `cur`: `null` leaves it as it is,
a number must be an integer literal within range, any other value is a type mismatch. -/
def decodeInt (cur : Int) (raw : GoBytes) : Except GoError Int :=
  match raw with
  | 110 :: _ => .ok cur
  | c :: _ =>
    if c = 45 ∨ isDigit c then
      match parseInt64 raw with
      | some n => .ok n
      | none => .error (.json .typeMismatch)
    else .error (.json .typeMismatch)
  | [] => .error (.json .invalidText)

/-- Decoding of a JSON value into a `map[string]interface{}` that holds `cur`: `null` sets
the nil map, an object adds its members to the map, any other value is a type mismatch; a
number inside that no `float64` can hold is one too. -/
def decodeMap (cur : DecodedMap) (raw : GoBytes) : Except GoError DecodedMap :=
  match raw with
  | 110 :: _ => .ok none
  | 123 :: _ =>
    if numbersFit raw.length raw then
      match membersOf raw with
      | some ms => .ok (some (cur.getD [] ++ ms))
      | none => .error (.json .invalidText)
    else .error (.json .typeMismatch)
  | _ => .error (.json .typeMismatch)

/-- Decoding of the members of an object into a `ResponseStatus`, in the order of the text;
a key that selects no field is skipped. -/
def decodeStatusFields : ResponseStatus → List (GoString × GoBytes) → Except GoError ResponseStatus
  | st, [] => .ok st
  | st, (key, raw) :: rest =>
    if keyMatches "code" key then
      match decodeInt st.Code raw with
      | .ok v => decodeStatusFields { st with Code := v } rest
      | .error e => .error e
    else if keyMatches "attributes" key then
      match decodeMap st.Attributes raw with
      | .ok v => decodeStatusFields { st with Attributes := v } rest
      | .error e => .error e
    else if keyMatches "message" key then
      match decodeString st.Message raw with
      | .ok v => decodeStatusFields { st with Message := v } rest
      | .error e => .error e
    else decodeStatusFields st rest

/-- Decoding of the members of an object into a `ResponseResult`. -/
def decodeResultFields : ResponseResult → List (GoString × GoBytes) → Except GoError ResponseResult
  | rs, [] => .ok rs
  | rs, (key, raw) :: rest =>
    if keyMatches "data" key then decodeResultFields { rs with Data := raw } rest
    else if keyMatches "meta" key then
      match decodeMap rs.Meta raw with
      | .ok v => decodeResultFields { rs with Meta := v } rest
      | .error e => .error e
    else decodeResultFields rs rest

/-- Decoding of a JSON value into a `*ResponseStatus` that holds `cur`: `null` sets the nil
pointer, an object is decoded into the struct pointed to (a fresh one if the pointer was
nil), any other value is a type mismatch. -/
def decodeStatus (cur : Option ResponseStatus) (raw : GoBytes) :
    Except GoError (Option ResponseStatus) :=
  match raw with
  | 110 :: _ => .ok none
  | 123 :: _ =>
    match membersOf raw with
    | some ms =>
      match decodeStatusFields (cur.getD {}) ms with
      | .ok st => .ok (some st)
      | .error e => .error e
    | none => .error (.json .invalidText)
  | _ => .error (.json .typeMismatch)

/-- Decoding of a JSON value into a `*ResponseResult` that holds `cur`. -/
def decodeResult (cur : Option ResponseResult) (raw : GoBytes) :
    Except GoError (Option ResponseResult) :=
  match raw with
  | 110 :: _ => .ok none
  | 123 :: _ =>
    match membersOf raw with
    | some ms =>
      match decodeResultFields (cur.getD {}) ms with
      | .ok rs => .ok (some rs)
      | .error e => .error e
    | none => .error (.json .invalidText)
  | _ => .error (.json .typeMismatch)

/-- Decoding of the members of an object into a `Response`. -/
def decodeResponseFields : Response → List (GoString × GoBytes) → Except GoError Response
  | res, [] => .ok res
  | res, (key, raw) :: rest =>
    if keyMatches "requestId" key then
      match decodeString res.RequestID raw with
      | .ok v => decodeResponseFields { res with RequestID := v } rest
      | .error e => .error e
    else if keyMatches "status" key then
      match decodeStatus res.Status raw with
      | .ok v => decodeResponseFields { res with Status := v } rest
      | .error e => .error e
    else if keyMatches "result" key then
      match decodeResult res.Result raw with
      | .ok v => decodeResponseFields { res with Result := v } rest
      | .error e => .error e
    else decodeResponseFields res rest

/-- The call `json.Unmarshal(message, &res)` for `var res *Response`: the new value of
`res` (`none` is the nil pointer) or the error. The text `null` leaves `res` nil. -/
def UnmarshalResponse (message : GoBytes) : Except GoError (Option Response) :=
  if Valid message then
    match skipSpace message with
    | 110 :: _ => .ok none
    | 123 :: cs =>
      match membersOf (123 :: cs) with
      | some ms =>
        match decodeResponseFields {} ms with
        | .ok res => .ok (some res)
        | .error e => .error e
      | none => .error (.json .invalidText)
    | _ => .error (.json .typeMismatch)
  else .error (.json .invalidText)

/-- The call `json.Unmarshal(data, &items)` for `var items []json.RawMessage`: the new
value of `items` or the error. The text `null` leaves the nil slice, `[]` gives an empty
slice that is not nil, an array gives the texts of its elements. -/
def UnmarshalRawMessages (data : GoBytes) : Except GoError (GoSlice RawMessage) :=
  if Valid data then
    match skipSpace data with
    | 110 :: _ => .ok none
    | 91 :: cs =>
      match elementsOf (91 :: cs) with
      | some es => .ok (some es)
      | none => .error (.json .invalidText)
    | _ => .error (.json .typeMismatch)
  else .error (.json .invalidText)

/-- The encoding of one `json.RawMessage`: `null` for the nil one, else its compacted
text, which must be valid JSON. -/
def marshalRawMessage (m : RawMessage) : Option GoBytes :=
  match m with
  | [] => some [110, 117, 108, 108]
  | _ => appendCompact m

/-- The call `json.Marshal(dataItems)` for a `[]json.RawMessage`: the nil slice is encoded
as `null`, any other slice as an array of the compacted elements. -/
def MarshalRawMessages (dataItems : GoSlice RawMessage) : Except GoError GoBytes :=
  match dataItems with
  | none => .ok [110, 117, 108, 108]
  | some items =>
    match collect (items.map marshalRawMessage) with
    | some texts => .ok (91 :: joinComma texts ++ [93])
    | none => .error (.json .unsupported)

end Json

/-! ## request.go -/

/-- A Go value held in an `interface{}`, by what `json.Marshal` makes of it: its JSON text,
or `none` for a value that cannot be encoded (a channel, a function). -/
structure AnyValue where
  encoding : Option GoBytes
  deriving DecidableEq, Repr

/-- A Go `map[string]T` by its entries; the keys are distinct. The nil map and the empty
map are both `[]`. -/
abbrev GoMap (α : Type) := List (GoString × α)

/-- The type `Bind`, a `map[string]interface{}`. -/
abbrev Bind := GoMap AnyValue

/-- The struct `RequestArgs`; every field carries the `omitempty` option. -/
structure RequestArgs where
  Gremlin : GoString := []
  Session : GoString := []
  Bindings : Bind := []
  Language : GoString := []
  Rebindings : Bind := []
  Sasl : GoString := []
  BatchSize : Int := 0
  ManageTransaction : Bool := false
  Aliases : GoMap GoString := []
  deriving DecidableEq, Repr

/-- The struct `Request`; `Args` is a pointer and may be nil. -/
structure Request where
  RequestID : GoString := []
  Op : GoString := []
  Processor : GoString := []
  Args : Option RequestArgs := none
  deriving DecidableEq, Repr

/-- The struct `FormattedReq`. Its `RequestID` has type `interface{}`; the one place that
builds a `FormattedReq` stores a `map[string]string` there, which is the type kept here. -/
structure FormattedReq where
  Op : GoString
  RequestID : GoMap GoString
  Args : Option RequestArgs
  Processor : GoString
  deriving DecidableEq, Repr

namespace Json

/-- The entries of a map in the order the encoder writes them: sorted by key. -/
def sortedEntries {α : Type} (m : GoMap α) : GoMap α :=
  m.insertionSort fun a b => stringLe a.1 b.1

/-- The encoding of a `map[string]string` that is not nil. -/
def marshalStringMap (m : GoMap GoString) : GoBytes :=
  123 :: joinComma ((sortedEntries m).map fun (kv : GoString × GoString) =>
    appendString kv.1 ++ 58 :: appendString kv.2) ++ [125]

/-- The encoding of a `map[string]interface{}` that is not nil; it fails when a value
cannot be encoded. -/
def marshalBind (m : Bind) : Option GoBytes :=
  (collect ((sortedEntries m).map fun (kv : GoString × AnyValue) =>
    kv.2.encoding.map fun v => appendString kv.1 ++ 58 :: v)).map
    fun members => 123 :: joinComma members ++ [125]

/-- One member `"name":value` of an encoded object. -/
def member (name : String) (value : GoBytes) : GoBytes :=
  appendString (goStr name) ++ 58 :: value

/-- The encoding of a `RequestArgs`: the fields in the order of the declaration, a field
that holds its zero value (an empty string, an empty map, `0`, `false`) left out. -/
def marshalRequestArgs (a : RequestArgs) : Option GoBytes :=
  match (if a.Bindings = [] then some [] else (marshalBind a.Bindings).map fun v =>
      [member "bindings" v]),
    (if a.Rebindings = [] then some [] else (marshalBind a.Rebindings).map fun v =>
      [member "rebindings" v]) with
  | some bindings, some rebindings =>
    some (123 :: joinComma (
      (if a.Gremlin = [] then [] else [member "gremlin" (appendString a.Gremlin)])
      ++ (if a.Session = [] then [] else [member "session" (appendString a.Session)])
      ++ bindings
      ++ (if a.Language = [] then [] else [member "language" (appendString a.Language)])
      ++ rebindings
      ++ (if a.Sasl = [] then [] else [member "sasl" (appendString a.Sasl)])
      ++ (if a.BatchSize = 0 then [] else [member "batchSize" (appendInt a.BatchSize)])
      ++ (if a.ManageTransaction then [member "manageTransaction" (goStr "true")] else [])
      ++ (if a.Aliases = [] then [] else [member "aliases" (marshalStringMap a.Aliases)]))
      ++ [125])
  | _, _ => none

/-- The encoding of a `*RequestArgs`: `null` for the nil pointer. -/
def marshalArgs (a : Option RequestArgs) : Option GoBytes :=
  match a with
  | none => some (goStr "null")
  | some args => marshalRequestArgs args

/-- The call `json.Marshal(form)` for a `FormattedReq`: an object with the members `op`,
`requestId`, `args` and `processor`, in the order of the declaration. -/
def MarshalFormattedReq (form : FormattedReq) : Except GoError GoBytes :=
  match marshalArgs form.Args with
  | some args =>
    .ok (123 :: joinComma [member "op" (appendString form.Op),
      member "requestId" (marshalStringMap form.RequestID),
      member "args" args,
      member "processor" (appendString form.Processor)] ++ [125])
  | none => .error (.json .unsupported)

end Json

/-- The function `NewFormattedReq`. -/
def NewFormattedReq (req : Request) : FormattedReq :=
  let rID : GoMap GoString := [(goStr "@type", goStr "g:UUID"), (goStr "@value", req.RequestID)]
  { RequestID := rID, Processor := req.Processor, Op := req.Op, Args := req.Args }

/-- The function `GraphSONSerializer`, called on a request that is not the nil pointer. -/
def GraphSONSerializer (req : Request) : Except GoError GoBytes :=
  let form := NewFormattedReq req
  match Json.MarshalFormattedReq form with
  | .error err => .error err
  | .ok msg =>
    let mimeType := goStr "application/vnd.gremlin-v2.0+json"
    let mimeLen : GoBytes := [0x21]
    let res := mimeLen ++ mimeType
    .ok (res ++ msg)

/-- The function `BuildQuery`; `uuid` is what `uuid.NewV4()` returns, with the identifier
already in its string form. -/
def BuildQuery (uuid : Except GoError GoString) (query : GoString) : Except GoError Request :=
  let args : RequestArgs := { Gremlin := query, Language := goStr "gremlin-groovy" }
  match uuid with
  | .error err => .error (.wrapf err (goStr "failed to create uuid version4"))
  | .ok uuidString =>
    .ok { RequestID := uuidString, Op := goStr "eval", Processor := [], Args := some args }

/-- The method `Request.Bindings`; `none` is the panic on a nil `Args`. -/
def Request.Bindings (req : Request) (bindings : Bind) : Option Request :=
  req.Args.map fun args => { req with Args := some { args with Bindings := bindings } }

/-- The method `Request.ManageTransaction`; `none` is the panic on a nil `Args`. -/
def Request.ManageTransaction (req : Request) (flag : Bool) : Option Request :=
  req.Args.map fun args => { req with Args := some { args with ManageTransaction := flag } }

/-- The method `Request.Aliases`; `none` is the panic on a nil `Args`. -/
def Request.Aliases (req : Request) (aliases : GoMap GoString) : Option Request :=
  req.Args.map fun args => { req with Args := some { args with Aliases := aliases } }

/-- The method `Request.Session`; `none` is the panic on a nil `Args`. -/
def Request.Session (req : Request) (session : GoString) : Option Request :=
  req.Args.map fun args => { req with Args := some { args with Session := session } }

/-- The method `Request.SetProcessor`. -/
def Request.SetProcessor (req : Request) (processor : GoString) : Request :=
  { req with Processor := processor }

/-! ## connection.go: credentials -/

/-- The struct `AuthInfo`. -/
structure AuthInfo where
  ChallengeID : GoString := []
  User : GoString := []
  Pass : GoString := []
  deriving DecidableEq, Repr

/-- The process environment as `os.LookupEnv` sees it: the value of a variable, or `none`
when it is not set. -/
abbrev Env := GoString → Option GoString

/-- The type `OptAuth`, `func(*AuthInfo) error`: from the environment and the `AuthInfo`
pointed to, the `AuthInfo` it leaves there and the error it returns. -/
abbrev OptAuth := Env → AuthInfo → AuthInfo × Option GoError

/-- The function `NewAuthInfo`, from the `AuthInfo` built so far: the options are applied
in turn, the first error ends the construction. -/
def NewAuthInfo.loop (env : Env) : AuthInfo → List OptAuth → Except GoError AuthInfo
  | auth, [] => .ok auth
  | auth, op :: options =>
    match op env auth with
    | (_, some err) => .error err
    | (auth1, none) => NewAuthInfo.loop env auth1 options

/-- The function `NewAuthInfo`: either the `AuthInfo` and no error, or nil and the error. -/
def NewAuthInfo (env : Env) (options : List OptAuth) : Except GoError AuthInfo :=
  NewAuthInfo.loop env {} options

/-- The function `OptAuthEnv`. -/
def OptAuthEnv : OptAuth := fun env auth =>
  match env (goStr "GREMLIN_USER") with
  | none => (auth, some (.new (goStr "Variable GREMLIN_USER is not set")))
  | some user =>
    match env (goStr "GREMLIN_PASS") with
    | none => (auth, some (.new (goStr "Variable GREMLIN_PASS is not set")))
    | some pass => ({ auth with User := user, Pass := pass }, none)

/-- The function `OptAuthUserPass`. -/
def OptAuthUserPass (user pass : GoString) : OptAuth := fun _ auth =>
  ({ auth with User := user, Pass := pass }, none)

/-! ## connection.go: the exchange -/

/-- The status-code constants and the `ErrorMsg` table of the package. Their declarations
are not among the sources at hand, so they are a parameter. The four constants label the
cases of one `switch`, which Go compiles only if they are pairwise different. -/
structure StatusTable where
  StatusSuccess : Int
  StatusNoContent : Int
  StatusPartialContent : Int
  StatusAuthenticate : Int
  /-- The entries of the map `ErrorMsg`. -/
  ErrorMsg : List (Int × GoString)
  distinct : [StatusNoContent, StatusAuthenticate, StatusPartialContent, StatusSuccess].Nodup

/-- What one call of `Ws.ReadMessage` gives: a message or an error. -/
inductive ReadEvent
  | message (data : GoBytes)
  | failure (err : GoError)
  deriving DecidableEq, Repr

/-- The websocket connection `Ws`: what the coming `ReadMessage` calls will give, what
the coming `WriteMessage` calls will return (`none` for success), and the messages written
so far, oldest first. -/
structure Conn where
  incoming : List ReadEvent := []
  writeResults : List (Option GoError) := []
  sent : List GoBytes := []
  deriving DecidableEq, Repr

/-- The call `Ws.WriteMessage(websocket.BinaryMessage, data)`: the error returned and the
connection afterwards; `none` when the script holds no result for the call. A message is
sent when the call succeeds. -/
def Conn.WriteMessage (conn : Conn) (data : GoBytes) : Option (Option GoError × Conn) :=
  match conn.writeResults with
  | [] => none
  | none :: rest => some (none, { conn with writeResults := rest, sent := conn.sent ++ [data] })
  | some err :: rest => some (some err, { conn with writeResults := rest })

/-- How a call on the client ends, with the connection as the call leaves it. -/
inductive Outcome
  /-- The call returned the pair `(data, err)`; `err = none` is the nil error. -/
  | returned (data : GoBytes) (err : Option GoError) (conn : Conn)
  /-- The call panicked on a nil pointer dereference. -/
  | panicked (conn : Conn)
  /-- The call waits for ever: the script of the connection is exhausted. -/
  | blocked (conn : Conn)
  deriving DecidableEq, Repr

/-- The struct `Client`, without the connection `Ws`, which is passed along on its own, and
without `Remote`, which no method reads. -/
structure Client where
  Auth : List OptAuth := []

/-- The body of `Client.Exec`; `readResponse` is the call `c.ReadResponse()` on the
connection as the write left it. -/
def Exec.body (readResponse : Conn → Outcome) (req : Request) (conn : Conn) : Outcome :=
  match GraphSONSerializer req with
  | .error err => .returned [] (some err) conn
  | .ok requestMessage =>
    match conn.WriteMessage requestMessage with
    | none => .blocked conn
    | some (some err, conn1) => .returned [] (some err) conn1
    | some (none, conn1) => readResponse conn1

/-- The request `authReq` that `Client.Authenticate` builds from the credentials. -/
def Authenticate.authReq (auth : AuthInfo) (requestID : GoString) : Request :=
  let sasl : GoBytes := [0] ++ auth.User ++ [0] ++ auth.Pass
  let saslEnc := StdEncoding.EncodeToString sasl
  let args : RequestArgs := { Sasl := saslEnc }
  { RequestID := requestID, Processor := goStr "trasversal", Op := goStr "authentication",
    Args := some args }

/-- The message `Client.Exec` writes for the request `authReq`. -/
def Authenticate.message (auth : AuthInfo) (requestID : GoString) : GoBytes :=
  match GraphSONSerializer (Authenticate.authReq auth requestID) with
  | .ok requestMessage => requestMessage
  | .error _ => []

/-- The body of `Client.Authenticate`; `readResponse` is the call `c.ReadResponse()` that
`c.Exec` ends with. -/
def Authenticate.body (env : Env) (readResponse : Conn → Outcome) (c : Client)
    (requestID : GoString) (conn : Conn) : Outcome :=
  match NewAuthInfo env c.Auth with
  | .error err => .returned [] (some err) conn
  | .ok auth => Exec.body readResponse (Authenticate.authReq auth requestID) conn

/-- The read loop of `Client.ReadResponse`, from the state `dataItems`, `inBatchMode`, on
the connection with the given coming reads, write results and sent messages. Each turn
takes one read off the script. On an `Authenticate` frame the loop calls
`Client.Authenticate`, which writes the authentication request and calls `ReadResponse`
afresh on the reads that remain. -/
def ReadResponse.loop (t : StatusTable) (env : Env) (c : Client) :
    List ReadEvent → List (Option GoError) → List GoBytes → GoSlice RawMessage → Bool → Outcome
  | [], writeResults, sent, _, _ => .blocked ⟨[], writeResults, sent⟩
  | .failure err :: rest, writeResults, sent, _, _ =>
    .returned [] (some (.wrapf err (goStr "failed to read message from websocket connection")))
      ⟨rest, writeResults, sent⟩
  | .message message :: rest, writeResults, sent, dataItems, inBatchMode =>
    match Json.UnmarshalResponse message with
    | .error err =>
      .returned [] (some (.wrapf err (goStr "failed to decode json"))) ⟨rest, writeResults, sent⟩
    | .ok none => .panicked ⟨rest, writeResults, sent⟩
    | .ok (some res) =>
      match res.Status with
      | none => .panicked ⟨rest, writeResults, sent⟩
      | some status =>
        if status.Code = t.StatusNoContent then .returned [] none ⟨rest, writeResults, sent⟩
        else if status.Code = t.StatusAuthenticate then
          Authenticate.body env
            (fun conn1 => ReadResponse.loop t env c rest conn1.writeResults conn1.sent none false)
            c res.RequestID ⟨rest, writeResults, sent⟩
        else if status.Code = t.StatusPartialContent then
          match res.Result with
          | none => .panicked ⟨rest, writeResults, sent⟩
          | some result =>
            match Json.UnmarshalRawMessages result.Data with
            | .error err =>
              .returned [] (some (.wrapf err (goStr "failed to decode json")))
                ⟨rest, writeResults, sent⟩
            | .ok items =>
              ReadResponse.loop t env c rest writeResults sent (dataItems.append items) true
        else if status.Code = t.StatusSuccess then
          match res.Result with
          | none => .panicked ⟨rest, writeResults, sent⟩
          | some result =>
            if inBatchMode then
              match Json.UnmarshalRawMessages result.Data with
              | .error err =>
                .returned [] (some (.wrapf err (goStr "failed to decode json")))
                  ⟨rest, writeResults, sent⟩
              | .ok items =>
                match Json.MarshalRawMessages (dataItems.append items) with
                | .error err =>
                  .returned [] (some (.wrapf err (goStr "failed to encode json")))
                    ⟨rest, writeResults, sent⟩
                | .ok data => .returned data none ⟨rest, writeResults, sent⟩
            else .returned result.Data none ⟨rest, writeResults, sent⟩
        else
          match t.ErrorMsg.lookup status.Code with
          | some msg => .returned [] (some (.new msg)) ⟨rest, writeResults, sent⟩
          | none =>
            .returned [] (some (.new (goStr "An unknown error occured")))
              ⟨rest, writeResults, sent⟩

/-- The method `Client.ReadResponse`: the loop from the empty buffer, not in batch mode. -/
def ReadResponse (t : StatusTable) (env : Env) (c : Client) (conn : Conn) : Outcome :=
  ReadResponse.loop t env c conn.incoming conn.writeResults conn.sent none false

/-- The method `Client.Exec`. -/
def Exec (t : StatusTable) (env : Env) (c : Client) (req : Request) (conn : Conn) : Outcome :=
  Exec.body (ReadResponse t env c) req conn

/-- The method `Client.Authenticate`. -/
def Authenticate (t : StatusTable) (env : Env) (c : Client) (requestID : GoString)
    (conn : Conn) : Outcome :=
  Authenticate.body env (ReadResponse t env c) c requestID conn

/-- The method `Client.ExecQuery`; `uuid` is what `uuid.NewV4()` gives to `BuildQuery`. -/
def ExecQuery (t : StatusTable) (env : Env) (c : Client) (uuid : Except GoError GoString)
    (query : GoString) (conn : Conn) : Outcome :=
  match BuildQuery uuid query with
  | .error err => .returned [] (some err) conn
  | .ok req => Exec t env c req conn

/-- A status table with the codes of the TinkerPop protocol, to run the definitions on. -/
def tinkerpop : StatusTable where
  StatusSuccess := 200
  StatusNoContent := 204
  StatusPartialContent := 206
  StatusAuthenticate := 407
  ErrorMsg := [(401, goStr "Unauthorized"), (407, goStr "Authenticate"),
    (498, goStr "Malformed Request"), (499, goStr "Invalid Request Arguments"),
    (500, goStr "Server Error"), (597, goStr "Script Evaluation Error"),
    (598, goStr "Server Timeout"), (599, goStr "Server Serialization Error")]
  distinct := by decide

/-- The text of a response frame with the given request identifier, status code and
`result.data`. -/
def frame (requestID : String) (code : Nat) (data : String) : GoBytes :=
  goStr "\x7b\"requestId\":\"" ++ goStr requestID ++ goStr "\",\"status\":\x7b\"code\":"
    ++ Json.appendInt code ++ goStr ",\"attributes\":\x7b\x7d,\"message\":\"\"\x7d,"
    ++ goStr "\"result\":\x7b\"data\":" ++ goStr data ++ goStr ",\"meta\":\x7b\x7d\x7d\x7d"

/-- The environment in which no variable is set. -/
def emptyEnv : Env := fun _ => none

/-- The message decodes to a frame that has a status with the given code. -/
def HasCode (message : GoBytes) (code : Int) : Prop :=
  match Json.UnmarshalResponse message with
  | .ok (some res) => res.Status.map (·.Code) = some code
  | _ => False

instance (message : GoBytes) (code : Int) : Decidable (HasCode message code) := by
  unfold HasCode; split <;> infer_instance

/-- The message decodes to a frame that has a status with the given code and the given
request identifier. -/
def IsChallenge (message : GoBytes) (code : Int) (requestID : GoString) : Prop :=
  match Json.UnmarshalResponse message with
  | .ok (some res) => res.Status.map (·.Code) = some code ∧ res.RequestID = requestID
  | _ => False

instance (message : GoBytes) (code : Int) (requestID : GoString) :
    Decidable (IsChallenge message code requestID) := by
  unfold IsChallenge; split <;> infer_instance

/-- The message decodes to a frame that has a status with the given code and a result
whose `data` is the given text. -/
def IsDataFrame (message : GoBytes) (code : Int) (data : RawMessage) : Prop :=
  match Json.UnmarshalResponse message with
  | .ok (some res) => res.Status.map (·.Code) = some code ∧ res.Result.map (·.Data) = some data
  | _ => False

instance (message : GoBytes) (code : Int) (data : RawMessage) :
    Decidable (IsDataFrame message code data) := by
  unfold IsDataFrame; split <;> infer_instance

/-- The message decodes to a frame that has a status with the given code and a result
whose `data` is a JSON array with the given element texts. -/
def IsArrayFrame (message : GoBytes) (code : Int) (elements : List RawMessage) : Prop :=
  match Json.UnmarshalResponse message with
  | .ok (some res) =>
    res.Status.map (·.Code) = some code ∧
      (res.Result.map fun result => Json.UnmarshalRawMessages result.Data)
        = some (.ok (some elements))
  | _ => False

instance (message : GoBytes) (code : Int) (elements : List RawMessage) :
    Decidable (IsArrayFrame message code elements) := by
  unfold IsArrayFrame; split <;> infer_instance

/-- The slice `dataItems` once the given elements were appended to the nil slice: still nil
when there is no element. -/
def accumulated (elements : List RawMessage) : GoSlice RawMessage :=
  if elements = [] then none else some elements

/-! ## encoding/json: locality of the scanner -/

namespace Json

/-- The text `r'` can stand for `r` behind a scanned value: it is empty or starts with the
byte that `r` starts with. -/
def Agree (r r' : GoBytes) : Prop := r' = [] ∨ r'.head? = r.head?

/-- A successful scan of a value is local: it read a non-empty prefix `pre` that starts with
no white space, and the same prefix is read again, with at least `2 * pre.length` fuel and
at no greater depth, in front of any text that agrees with the rest. -/
def ValueLocal (d : Nat) (s r : GoBytes) : Prop :=
  ∃ pre, s = pre ++ r ∧ pre ≠ [] ∧ (∀ c, pre.head? = some c → isSpace c = false)
    ∧ ∀ f' d' r', 2 * pre.length ≤ f' → d' ≤ d → Agree r r' →
      scanValue f' d' (pre ++ r') = some r'

/-- A successful scan of the elements of an array is local. -/
def ElementsLocal (d : Nat) (s r : GoBytes) : Prop :=
  ∃ pre, s = pre ++ r ∧ pre ≠ [] ∧ (∀ c, pre.head? = some c → isSpace c = false)
    ∧ ∀ f' d' r', 2 * pre.length + 1 ≤ f' → d' ≤ d →
      scanElements f' d' (pre ++ r') = some r'

/-- A successful scan of the members of an object is local. -/
def MembersLocal (d : Nat) (s r : GoBytes) : Prop :=
  ∃ pre, s = pre ++ r ∧ pre ≠ [] ∧ (∀ c, pre.head? = some c → isSpace c = false)
    ∧ ∀ f' d' r', 2 * pre.length + 1 ≤ f' → d' ≤ d →
      scanMembers f' d' (pre ++ r') = some r'

end Json

/-! ## strings, net/url, os.Getenv, net.DialTimeout -/

namespace Strings

/-- The function `strings.Split(s, sep)` for a separator `sep` of one byte: the pieces of
`s` between the separators, one more than there are separators; the empty string gives one
empty piece. -/
def Split : GoString → Nat → List GoString
  | [], _ => [[]]
  | c :: cs, sep =>
    if c = sep then [] :: Split cs sep
    else
      match Split cs sep with
      | p :: ps => (c :: p) :: ps
      | [] => [[c]]

/-- The pieces joined by the one-byte separator, as `strings.Join` does. -/
def Join : List GoString → Nat → GoString
  | [], _ => []
  | [p], _ => p
  | p :: q :: ps, sep => p ++ sep :: Join (q :: ps) sep

/-- The ASCII white space of `unicode.IsSpace`: tab, line feed, vertical tab, form feed,
carriage return, space. -/
def isAsciiSpace (c : Nat) : Bool :=
  c == 9 || c == 10 || c == 11 || c == 12 || c == 13 || c == 32

/-- The white-space runes of `unicode.IsSpace` that take two bytes in UTF-8: U+0085 and
U+00A0. -/
def isSpace2 (b0 b1 : Nat) : Bool := b0 == 194 && (b1 == 133 || b1 == 160)

/-- The white-space runes of `unicode.IsSpace` that take three bytes in UTF-8: U+1680,
U+2000 to U+200A, U+2028, U+2029, U+202F, U+205F and U+3000. -/
def isSpace3 (b0 b1 b2 : Nat) : Bool :=
  (b0 == 225 && b1 == 154 && b2 == 128)
    || (b0 == 226 && b1 == 128
      && ((decide (128 ≤ b2) && decide (b2 ≤ 138)) || b2 == 168 || b2 == 169 || b2 == 175))
    || (b0 == 226 && b1 == 129 && b2 == 159)
    || (b0 == 227 && b1 == 128 && b2 == 128)

/-- The function `strings.TrimLeftFunc(s, unicode.IsSpace)`: the leading white-space runes
are dropped. -/
def trimLeft : GoString → GoString
  | [] => []
  | c :: r =>
    if isAsciiSpace c then trimLeft r
    else
      match r with
      | [] => c :: r
      | b1 :: r1 =>
        if isSpace2 c b1 then trimLeft r1
        else
          match r1 with
          | [] => c :: r
          | b2 :: r2 => if isSpace3 c b1 b2 then trimLeft r2 else c :: r

/-- The function `strings.TrimRightFunc(s, unicode.IsSpace)` on the reversed string: the
trailing white-space runes are dropped. The head of the reversed string is the last byte of
the string. -/
def trimRightReversed : GoString → GoString
  | [] => []
  | c :: r =>
    if isAsciiSpace c then trimRightReversed r
    else
      match r with
      | [] => c :: r
      | b1 :: r1 =>
        if isSpace2 b1 c then trimRightReversed r1
        else
          match r1 with
          | [] => c :: r
          | b2 :: r2 => if isSpace3 b2 b1 c then trimRightReversed r2 else c :: r

/-- The function `strings.TrimSpace`: leading and trailing white space is dropped. -/
def TrimSpace (s : GoString) : GoString :=
  (trimRightReversed (trimLeft s).reverse).reverse

end Strings

namespace Url

/-- The fields of `url.URL` that `url.Parse` fills from the text. -/
structure URL where
  Scheme : GoString := []
  Opaque : GoString := []
  User : Option (GoString × Option GoString) := none
  Host : GoString := []
  Path : GoString := []
  RawQuery : GoString := []
  Fragment : GoString := []
  deriving DecidableEq, Repr

/-- The function `url.Parse` on a text that is not empty: library code outside this
repository, taken as a parameter. -/
abbrev TextParser := GoString → Except GoError URL

/-- The function `url.Parse`: the empty text is accepted and gives the URL with every field
empty (only a request URI must not be empty); every other text goes to the parser of the
library. -/
def Parse (parseText : TextParser) (rawURL : GoString) : Except GoError URL :=
  if rawURL = [] then .ok {} else parseText rawURL

end Url

/-- The function `os.Getenv`: the value of the variable, empty when it is unset. -/
def Getenv (env : Env) (key : GoString) : GoString :=
  (env key).getD []

/-! ## connection.go: the cluster -/

/-- The loop of `SplitServers` over the pieces of the connection string: every piece is
trimmed and parsed and appended to `servers`; the first piece that does not parse ends the
function with the endpoints appended so far and the error. -/
def SplitServers.loop (parseText : Url.TextParser) :
    List Url.URL → List GoString → List Url.URL × Option GoError
  | servers, [] => (servers, none)
  | servers, serverString :: rest =>
    match Url.Parse parseText (Strings.TrimSpace serverString) with
    | .error err => (servers, some err)
    | .ok u => SplitServers.loop parseText (servers ++ [u]) rest

/-- The function `SplitServers` of connection.go: the named results `servers` and `err`. -/
def SplitServers (parseText : Url.TextParser) (connString : GoString) :
    List Url.URL × Option GoError :=
  let serverStrings := Strings.Split connString 44
  if serverStrings.length < 1 then
    ([], some (.new (goStr ("Connection string is not in expected format. An example of the "
      ++ "expected format is \x27ws://server1:8182, ws://server2:8182\x27."))))
  else SplitServers.loop parseText [] serverStrings

/-- The loop of `NewCluster` over the supplied addresses, which are parsed untrimmed. -/
def NewCluster.loop (parseText : Url.TextParser) :
    List Url.URL → List GoString → List Url.URL × Option GoError
  | servers, [] => (servers, none)
  | servers, v :: rest =>
    match Url.Parse parseText v with
    | .error err => (servers, some err)
    | .ok u => NewCluster.loop parseText (servers ++ [u]) rest

/-- The function `NewCluster` of connection.go: the package variable `servers` as the call
leaves it, and the error returned. The variable is reset first, so its value before the call
does not matter. -/
def NewCluster (parseText : Url.TextParser) (env : Env) (s : List GoString) :
    List Url.URL × Option GoError :=
  if s.length = 0 then
    let connString := Strings.TrimSpace (Getenv env (goStr "GREMLIN_SERVERS"))
    if connString = [] then
      ([], some (.new (goStr ("No servers set. Configure servers to connect to using the "
        ++ "GREMLIN_SERVERS environment variable."))))
    else SplitServers parseText connString
  else NewCluster.loop parseText [] s

/-- A connection handed out by `net.DialTimeout`. -/
abbrev NetConn := Nat

/-- The outcome of `net.DialTimeout("tcp", host, 1*time.Second)` at the n-th attempt of a
call: the network, taken as a parameter. -/
abbrev Dialer := Nat → GoString → Except GoError NetConn

/-- What `CreateConnection` returns, with the hosts it dialled, in order. -/
structure Connection where
  conn : Option NetConn
  server : Option Url.URL
  err : Option GoError
  dialled : List GoString
  deriving DecidableEq

/-- The loop of `CreateConnection` over `servers`: a failed attempt continues with the next
server, the first success sets the results and breaks; `none` when the list ends without a
success. -/
def CreateConnection.loop (dial : Dialer) :
    List GoString → List Url.URL → Option (NetConn × Url.URL) × List GoString
  | dialled, [] => (none, dialled)
  | dialled, s :: rest =>
    match dial dialled.length s.Host with
    | .error _ => CreateConnection.loop dial (dialled ++ [s.Host]) rest
    | .ok c => (some (c, s), dialled ++ [s.Host])

/-- The function `CreateConnection` of connection.go over the package variable `servers`. -/
def CreateConnection (dial : Dialer) (servers : List Url.URL) : Connection :=
  match CreateConnection.loop dial [] servers with
  | (some (c, s), dialled) => ⟨some c, some s, none, dialled⟩
  | (none, dialled) =>
    ⟨none, none, some (.new (goStr ("Could not establish connection. Please check your "
      ++ "connection string and ensure at least one server is up."))), dialled⟩

/-- An environment in which `GREMLIN_SERVERS` has the given value and nothing else is
set. -/
def serversEnv (value : GoString) : Env :=
  fun key => if key = goStr "GREMLIN_SERVERS" then some value else none

/-- An outcome that carries no payload if it is a return with an error. -/
def NoPayloadOnError (o : Outcome) : Prop :=
  ∀ (data : GoBytes) (err : GoError) (conn : Conn), o = .returned data (some err) conn →
    data.length = 0

/-! ## request.go: requests in memory -/

/-- An address in memory; a pointer is an address or nil. -/
abbrev Addr := Nat

/-- A `Request` as it lies in memory: `Args` is a pointer to a `RequestArgs`, `none` for the
nil pointer. -/
structure RequestCell where
  RequestID : GoString := []
  Op : GoString := []
  Processor : GoString := []
  Args : Option Addr := none
  deriving DecidableEq, Repr

/-- The memory that holds the requests and the argument structs, each kind by address. -/
structure Memory where
  requests : List RequestCell := []
  args : List RequestArgs := []
  deriving DecidableEq, Repr

/-- The statement `req.Args.f = v; return req` of the four setters of arguments, with the
assignment to the field given as a function: the memory afterwards and the pointer returned;
`none` is the panic on a nil `req` or a nil `req.Args`. -/
def Memory.setArg (m : Memory) (req : Addr) (assign : RequestArgs → RequestArgs) :
    Option (Memory × Addr) :=
  match m.requests[req]? with
  | none => none
  | some cell =>
    match cell.Args with
    | none => none
    | some a =>
      match m.args[a]? with
      | none => none
      | some args => some ({ m with args := m.args.set a (assign args) }, req)

/-- The method `Request.Bindings` on the request at `req`. -/
def Memory.Bindings (m : Memory) (req : Addr) (bindings : Bind) : Option (Memory × Addr) :=
  m.setArg req fun args => { args with Bindings := bindings }

/-- The method `Request.ManageTransaction` on the request at `req`. -/
def Memory.ManageTransaction (m : Memory) (req : Addr) (flag : Bool) : Option (Memory × Addr) :=
  m.setArg req fun args => { args with ManageTransaction := flag }

/-- The method `Request.Aliases` on the request at `req`. -/
def Memory.Aliases (m : Memory) (req : Addr) (aliases : GoMap GoString) :
    Option (Memory × Addr) :=
  m.setArg req fun args => { args with Aliases := aliases }

/-- The method `Request.Session` on the request at `req`. -/
def Memory.Session (m : Memory) (req : Addr) (session : GoString) : Option (Memory × Addr) :=
  m.setArg req fun args => { args with Session := session }

/-- The method `Request.SetProcessor` on the request at `req`; `none` is the panic on a nil
`req`. A nil `req.Args` does not matter. -/
def Memory.SetProcessor (m : Memory) (req : Addr) (processor : GoString) :
    Option (Memory × Addr) :=
  match m.requests[req]? with
  | none => none
  | some cell => some ({ m with requests := m.requests.set req { cell with Processor := processor } }, req)

/-- The request a pointer points to, with its arguments read through `Args`. -/
def Memory.read (m : Memory) (req : Addr) : Option Request :=
  match m.requests[req]? with
  | none => none
  | some cell =>
    match cell.Args with
    | none => some ⟨cell.RequestID, cell.Op, cell.Processor, none⟩
    | some a => (m.args[a]?).map fun args => ⟨cell.RequestID, cell.Op, cell.Processor, some args⟩

/-- A call of one of the five setters, with its argument. -/
inductive Setter
  | Bindings (bindings : Bind)
  | ManageTransaction (flag : Bool)
  | Aliases (aliases : GoMap GoString)
  | Session (session : GoString)
  | SetProcessor (processor : GoString)
  deriving DecidableEq, Repr

/-- The call on the request at `req`. -/
def Setter.call (s : Setter) (m : Memory) (req : Addr) : Option (Memory × Addr) :=
  match s with
  | .Bindings bindings => m.Bindings req bindings
  | .ManageTransaction flag => m.ManageTransaction req flag
  | .Aliases aliases => m.Aliases req aliases
  | .Session session => m.Session req session
  | .SetProcessor processor => m.SetProcessor req processor

/-- The name of the field a setter assigns to. -/
def Setter.field : Setter → String
  | .Bindings _ => "Bindings"
  | .ManageTransaction _ => "ManageTransaction"
  | .Aliases _ => "Aliases"
  | .Session _ => "Session"
  | .SetProcessor _ => "Processor"

/-- One setter after another on the same request, the second on the pointer the first
returned, as in `req.Session(s).Bindings(b)`. -/
def Setter.chain (s1 s2 : Setter) (m : Memory) (req : Addr) : Option (Memory × Addr) :=
  match s1.call m req with
  | none => none
  | some (m1, req1) => s2.call m1 req1

/-- The call on a request taken as a value, by the methods on values; `none` is the
panic. -/
def Setter.onValue (s : Setter) (req : Request) : Option Request :=
  match s with
  | .Bindings bindings => req.Bindings bindings
  | .ManageTransaction flag => req.ManageTransaction flag
  | .Aliases aliases => req.Aliases aliases
  | .Session session => req.Session session
  | .SetProcessor processor => some (req.SetProcessor processor)

/-! ## Decoding a request -/

namespace Utf8

/-- The function `utf8.Valid` on the bytes of a string: every rune decodes, none as the
error of width 1. The budget counts the runes. -/
def Valid : Nat → GoBytes → Bool
  | _, [] => true
  | 0, _ :: _ => false
  | fuel + 1, b :: bs =>
    if b < 128 then Valid fuel bs
    else
      let (r, size) := DecodeRune (b :: bs)
      if r = RuneError ∧ size = 1 then false else Valid fuel (bs.drop (size - 1))

/-- The function `utf8.ValidString`: the string consists of valid UTF-8 only. -/
def ValidString (s : GoString) : Bool := Valid s.length s

end Utf8

/-- The struct `RequestArgs` as the JSON decoder fills it: a `map[string]interface{}` is
kept as the keys with the JSON text of their values, a `map[string]string` as its entries,
`none` being the nil map. -/
structure DecodedRequestArgs where
  Gremlin : GoString := []
  Session : GoString := []
  Bindings : DecodedMap := none
  Language : GoString := []
  Rebindings : DecodedMap := none
  Sasl : GoString := []
  BatchSize : Int := 0
  ManageTransaction : Bool := false
  Aliases : GoSlice (GoString × GoString) := none
  deriving DecidableEq, Repr

/-- The struct `FormattedReq` as the JSON decoder fills it: the `interface{}` field
`RequestID` is kept as the JSON text of the value stored in it, `none` being the nil
interface. -/
structure DecodedFormattedReq where
  Op : GoString := []
  RequestID : Option GoBytes := none
  Args : Option DecodedRequestArgs := none
  Processor : GoString := []
  deriving DecidableEq, Repr

namespace Json

/-- Decoding of a JSON value into a Go `bool` that holds `cur`: `null` leaves it as it is,
`true` and `false` set it, any other value is a type mismatch. -/
def decodeBool (cur : Bool) (raw : GoBytes) : Except GoError Bool :=
  match raw with
  | 110 :: _ => .ok cur
  | 116 :: _ => .ok true
  | 102 :: _ => .ok false
  | _ => .error (.json .typeMismatch)

/-- Decoding of a JSON value into an `interface{}`: `null` gives the nil interface, any
other value is stored, unless it holds a number that no `float64` can hold. -/
def decodeAny (raw : GoBytes) : Except GoError (Option GoBytes) :=
  match raw with
  | 110 :: _ => .ok none
  | _ => if numbersFit raw.length raw then .ok (some raw) else .error (.json .typeMismatch)

/-- Decoding of the members of an object into the entries of a `map[string]string`: every
value is decoded into a fresh string. -/
def decodeStringEntries : List (GoString × GoBytes) → Except GoError (List (GoString × GoString))
  | [] => .ok []
  | (key, raw) :: rest =>
    match decodeString [] raw with
    | .error e => .error e
    | .ok v =>
      match decodeStringEntries rest with
      | .error e => .error e
      | .ok entries => .ok ((key, v) :: entries)

/-- Decoding of a JSON value into a `map[string]string` that holds `cur`: `null` sets the
nil map, an object adds its members to the map, any other value is a type mismatch. -/
def decodeStringMap (cur : GoSlice (GoString × GoString)) (raw : GoBytes) :
    Except GoError (GoSlice (GoString × GoString)) :=
  match raw with
  | 110 :: _ => .ok none
  | 123 :: _ =>
    match membersOf raw with
    | some ms =>
      match decodeStringEntries ms with
      | .ok entries => .ok (some (cur.getD [] ++ entries))
      | .error e => .error e
    | none => .error (.json .invalidText)
  | _ => .error (.json .typeMismatch)

/-- Decoding of the members of an object into a `RequestArgs`, in the order of the text; a
key that selects no field is skipped. -/
def decodeRequestArgsFields :
    DecodedRequestArgs → List (GoString × GoBytes) → Except GoError DecodedRequestArgs
  | a, [] => .ok a
  | a, (key, raw) :: rest =>
    if keyMatches "gremlin" key then
      match decodeString a.Gremlin raw with
      | .ok v => decodeRequestArgsFields { a with Gremlin := v } rest
      | .error e => .error e
    else if keyMatches "session" key then
      match decodeString a.Session raw with
      | .ok v => decodeRequestArgsFields { a with Session := v } rest
      | .error e => .error e
    else if keyMatches "bindings" key then
      match decodeMap a.Bindings raw with
      | .ok v => decodeRequestArgsFields { a with Bindings := v } rest
      | .error e => .error e
    else if keyMatches "language" key then
      match decodeString a.Language raw with
      | .ok v => decodeRequestArgsFields { a with Language := v } rest
      | .error e => .error e
    else if keyMatches "rebindings" key then
      match decodeMap a.Rebindings raw with
      | .ok v => decodeRequestArgsFields { a with Rebindings := v } rest
      | .error e => .error e
    else if keyMatches "sasl" key then
      match decodeString a.Sasl raw with
      | .ok v => decodeRequestArgsFields { a with Sasl := v } rest
      | .error e => .error e
    else if keyMatches "batchSize" key then
      match decodeInt a.BatchSize raw with
      | .ok v => decodeRequestArgsFields { a with BatchSize := v } rest
      | .error e => .error e
    else if keyMatches "manageTransaction" key then
      match decodeBool a.ManageTransaction raw with
      | .ok v => decodeRequestArgsFields { a with ManageTransaction := v } rest
      | .error e => .error e
    else if keyMatches "aliases" key then
      match decodeStringMap a.Aliases raw with
      | .ok v => decodeRequestArgsFields { a with Aliases := v } rest
      | .error e => .error e
    else decodeRequestArgsFields a rest

/-- Decoding of a JSON value into a `*RequestArgs` that holds `cur`: `null` sets the nil
pointer, an object is decoded into the struct pointed to (a fresh one if the pointer was
nil), any other value is a type mismatch. -/
def decodeRequestArgs (cur : Option DecodedRequestArgs) (raw : GoBytes) :
    Except GoError (Option DecodedRequestArgs) :=
  match raw with
  | 110 :: _ => .ok none
  | 123 :: _ =>
    match membersOf raw with
    | some ms =>
      match decodeRequestArgsFields (cur.getD {}) ms with
      | .ok a => .ok (some a)
      | .error e => .error e
    | none => .error (.json .invalidText)
  | _ => .error (.json .typeMismatch)

/-- Decoding of the members of an object into a `FormattedReq`. -/
def decodeFormattedReqFields :
    DecodedFormattedReq → List (GoString × GoBytes) → Except GoError DecodedFormattedReq
  | form, [] => .ok form
  | form, (key, raw) :: rest =>
    if keyMatches "op" key then
      match decodeString form.Op raw with
      | .ok v => decodeFormattedReqFields { form with Op := v } rest
      | .error e => .error e
    else if keyMatches "requestId" key then
      match decodeAny raw with
      | .ok v => decodeFormattedReqFields { form with RequestID := v } rest
      | .error e => .error e
    else if keyMatches "args" key then
      match decodeRequestArgs form.Args raw with
      | .ok v => decodeFormattedReqFields { form with Args := v } rest
      | .error e => .error e
    else if keyMatches "processor" key then
      match decodeString form.Processor raw with
      | .ok v => decodeFormattedReqFields { form with Processor := v } rest
      | .error e => .error e
    else decodeFormattedReqFields form rest

/-- The call `json.Unmarshal(body, &form)` for `var form FormattedReq`: the new value of
`form` or the error. The text `null` leaves `form` as it is. -/
def UnmarshalFormattedReq (body : GoBytes) : Except GoError DecodedFormattedReq :=
  if Valid body then
    match skipSpace body with
    | 110 :: _ => .ok {}
    | 123 :: cs =>
      match membersOf (123 :: cs) with
      | some ms => decodeFormattedReqFields {} ms
      | none => .error (.json .invalidText)
    | _ => .error (.json .typeMismatch)
  else .error (.json .invalidText)

end Json

/-- The JSON body of a message that `GraphSONSerializer` wrote: the message without the
length byte and the 33 bytes of the mime type. -/
def messageBody (msg : GoBytes) : GoBytes := msg.drop (1 + 33)

namespace Json

/-- One member of an encoded object: the key as a string literal, a colon, the text of the
value. -/
def entry (kv : GoString × GoBytes) : GoBytes := appendString kv.1 ++ 58 :: kv.2

/-- A text that can follow a value inside an object or at the end of a text: nothing, or a
text that starts with a comma or a closing brace. -/
def Ends (r : GoBytes) : Prop := r = [] ∨ ∃ c cs, r = c :: cs ∧ (c = 44 ∨ c = 125)

/-- A text that the scanner reads as exactly one value in front of whatever can follow a
value, at every depth up to `n`: it is not empty and starts with no white space. -/
def Tight (n : Nat) (v : GoBytes) : Prop :=
  (∃ c cs, v = c :: cs ∧ isSpace c = false ∧ c ≠ 125)
    ∧ ∀ f d r, 2 * v.length ≤ f → d ≤ n → Ends r → scanValue f d (v ++ r) = some r

/-- A text whose numbers a `float64` can hold, in front of whatever can follow a value: the
check `numbersFit` passes over it in at most as many steps as it has bytes. -/
def NumbersLocal (v : GoBytes) : Prop :=
  ∃ k, k ≤ v.length ∧ ∀ f r, Ends r → numbersFit (f + k) (v ++ r) = numbersFit f r

end Json

/-- A value of a binding that `json.Marshal` encodes: the encoding is one JSON value, with
no white space in front, nested less deep than the scanner allows, and every number in it
can be held by a `float64`. -/
def AnyValue.Encodable (v : AnyValue) : Prop :=
  ∃ text, v.encoding = some text ∧ Json.Tight 3 text ∧ Json.NumbersLocal text

/-- Arguments that a JSON text can carry: the strings, the keys of the maps and the values
of the aliases are valid UTF-8, the values of the bindings can be encoded, and `BatchSize`
is in the range of a Go `int` of 64 bits. -/
def RequestArgs.Carried (a : RequestArgs) : Prop :=
  Utf8.ValidString a.Gremlin = true ∧ Utf8.ValidString a.Session = true
    ∧ Utf8.ValidString a.Language = true ∧ Utf8.ValidString a.Sasl = true
    ∧ (∀ kv ∈ a.Bindings, Utf8.ValidString kv.1 = true ∧ kv.2.Encodable)
    ∧ (∀ kv ∈ a.Rebindings, Utf8.ValidString kv.1 = true ∧ kv.2.Encodable)
    ∧ (∀ kv ∈ a.Aliases, Utf8.ValidString kv.1 = true ∧ Utf8.ValidString kv.2 = true)
    ∧ -9223372036854775808 ≤ a.BatchSize ∧ a.BatchSize ≤ 9223372036854775807

/-- A request that a JSON text can carry: `Op`, `Processor` and `RequestID` are valid UTF-8
and so are the arguments, if there are any. -/
def Request.Carried (req : Request) : Prop :=
  Utf8.ValidString req.Op = true ∧ Utf8.ValidString req.Processor = true
    ∧ Utf8.ValidString req.RequestID = true
    ∧ ∀ a, req.Args = some a → a.Carried

/-- What the decoder makes of the encoding of a `map[string]interface{}`: the nil map if
the map was left out as empty, else the keys in the order of the encoding, each with the
encoding of its value. -/
def decodedBind (m : Bind) : DecodedMap :=
  if m = [] then none
  else some ((Json.sortedEntries m).map fun (kv : GoString × AnyValue) =>
    (kv.1, kv.2.encoding.getD []))

/-- What the decoder makes of the encoding of a `map[string]string`: the nil map if the map
was left out as empty, else the entries in the order of the encoding. -/
def decodedAliases (m : GoMap GoString) : GoSlice (GoString × GoString) :=
  if m = [] then none else some (Json.sortedEntries m)

/-- The arguments of a request as the decoder holds them. -/
def RequestArgs.decoded (a : RequestArgs) : DecodedRequestArgs :=
  { Gremlin := a.Gremlin, Session := a.Session, Bindings := decodedBind a.Bindings,
    Language := a.Language, Rebindings := decodedBind a.Rebindings, Sasl := a.Sasl,
    BatchSize := a.BatchSize, ManageTransaction := a.ManageTransaction,
    Aliases := decodedAliases a.Aliases }

/-- The message of a request decoded again: the request serialised by `GraphSONSerializer`,
and the body of the message given to `json.Unmarshal` for a `FormattedReq`. -/
def decodeMessage (req : Request) : Except GoError DecodedFormattedReq :=
  match GraphSONSerializer req with
  | .error err => .error err
  | .ok msg => Json.UnmarshalFormattedReq (messageBody msg)

namespace Json

/-- The encoding of a `map[string]interface{}` whose values have encodings: the object of
its entries, sorted by key. -/
def bindText (m : Bind) : GoBytes :=
  123 :: joinComma (((sortedEntries m).map fun (kv : GoString × AnyValue) =>
    (kv.1, kv.2.encoding.getD [])).map entry) ++ [125]

/-- The members the encoder writes for a `RequestArgs`, each as its key and the text of its
value: the fields that do not hold their zero value, in the order of the declaration. -/
def argsMembers (a : RequestArgs) : List (GoString × GoBytes) :=
  (if a.Gremlin = [] then [] else [(goStr "gremlin", appendString a.Gremlin)])
    ++ (if a.Session = [] then [] else [(goStr "session", appendString a.Session)])
    ++ (if a.Bindings = [] then [] else [(goStr "bindings", bindText a.Bindings)])
    ++ (if a.Language = [] then [] else [(goStr "language", appendString a.Language)])
    ++ (if a.Rebindings = [] then [] else [(goStr "rebindings", bindText a.Rebindings)])
    ++ (if a.Sasl = [] then [] else [(goStr "sasl", appendString a.Sasl)])
    ++ (if a.BatchSize = 0 then [] else [(goStr "batchSize", appendInt a.BatchSize)])
    ++ (if a.ManageTransaction then [(goStr "manageTransaction", goStr "true")] else [])
    ++ (if a.Aliases = [] then [] else [(goStr "aliases", marshalStringMap a.Aliases)])

end Json

/-- Arguments of every kind, to run the definitions on: a query with a session, two
bindings (a number and a string), a batch size, the transaction flag and an alias. -/
def sampleArgs : RequestArgs :=
  { Gremlin := goStr "g.V().has(\"name\", name).has(\"age\", age)",
    Session := goStr "s-1",
    Bindings := [(goStr "name", ⟨some (goStr "\"marko\"")⟩), (goStr "age", ⟨some (goStr "29")⟩)],
    Language := goStr "gremlin-groovy",
    BatchSize := 64,
    ManageTransaction := true,
    Aliases := [(goStr "g", goStr "g<é>")] }

/-- A request with these arguments. -/
def sampleRequest : Request :=
  { RequestID := goStr "R", Op := goStr "eval", Processor := goStr "session",
    Args := some sampleArgs }

/-! # Theorems -/

/-! ## The scanner is local -/

namespace Json

theorem Agree.nil (r : GoBytes) : Agree r [] := Or.inl rfl

theorem Agree.cons (c : Nat) (r r' : GoBytes) : Agree (c :: r) (c :: r') := Or.inr rfl

theorem Agree.of_nil {r' : GoBytes} (h : Agree [] r') : r' = [] := by
  rcases h with h | h
  · exact h
  · cases r' with
    | nil => rfl
    | cons c cs => simp at h

theorem Agree.of_cons {c : Nat} {r r' : GoBytes} (h : Agree (c :: r) r') :
    r' = [] ∨ ∃ r'', r' = c :: r'' := by
  rcases h with h | h
  · exact Or.inl h
  · cases r' with
    | nil => exact Or.inl rfl
    | cons x xs =>
      simp at h
      exact Or.inr ⟨xs, by rw [h]⟩

theorem Agree.append_left {p : GoBytes} (hp : p ≠ []) (r r' : GoBytes) :
    Agree (p ++ r) (p ++ r') := by
  cases p with
  | nil => exact absurd rfl hp
  | cons c cs => exact Or.inr rfl

theorem skipDigits_local (s : GoBytes) :
    ∃ pre, s = pre ++ skipDigits s
      ∧ ∀ r', Agree (skipDigits s) r' → skipDigits (pre ++ r') = r' := by
  induction s with
  | nil =>
    refine ⟨[], rfl, fun r' h => ?_⟩
    rw [Agree.of_nil h]; rfl
  | cons c cs ih =>
    by_cases hc : isDigit c = true
    · obtain ⟨pre, hpre, hloc⟩ := ih
      refine ⟨c :: pre, ?_, fun r' h => ?_⟩
      · simp only [skipDigits, hc, if_true, List.cons_append]
        rw [← hpre]
      · simp only [skipDigits, hc, if_true, List.cons_append] at h ⊢
        exact hloc r' h
    · refine ⟨[], ?_, fun r' h => ?_⟩
      · simp [skipDigits, hc]
      · simp only [skipDigits, hc] at h
        simp only [List.nil_append]
        rcases Agree.of_cons h with rfl | ⟨r'', rfl⟩
        · rfl
        · simp [skipDigits, hc]

theorem skipSpace_local (s : GoBytes) :
    ∃ ws, s = ws ++ skipSpace s
      ∧ (∀ c, (skipSpace s).head? = some c → isSpace c = false)
      ∧ ∀ t, (∀ c, t.head? = some c → isSpace c = false) → skipSpace (ws ++ t) = t := by
  induction s with
  | nil =>
    refine ⟨[], rfl, by simp [skipSpace], fun t ht => ?_⟩
    cases t with
    | nil => rfl
    | cons c cs => simp [skipSpace, ht c rfl]
  | cons c cs ih =>
    by_cases hc : isSpace c = true
    · obtain ⟨ws, hws, hhead, hloc⟩ := ih
      refine ⟨c :: ws, ?_, ?_, fun t ht => ?_⟩
      · simp only [skipSpace, hc, if_true, List.cons_append]
        rw [← hws]
      · simpa [skipSpace, hc] using hhead
      · simp only [skipSpace, hc, if_true, List.cons_append]
        exact hloc t ht
    · refine ⟨[], by simp [skipSpace, hc], ?_, fun t ht => ?_⟩
      · intro x hx
        simp [skipSpace, hc] at hx
        subst hx
        simpa using hc
      · cases t with
        | nil => rfl
        | cons x xs => simp [skipSpace, ht x rfl]

theorem isDigit_not_sign {d : Nat} (h : isDigit d = true) : ¬(d = 43 ∨ d = 45) := by
  simp only [isDigit, Bool.and_eq_true, decide_eq_true_eq] at h
  omega

theorem isDigit_not_exp {d : Nat} (h : isDigit d = true) : ¬(d = 101 ∨ d = 69) := by
  simp only [isDigit, Bool.and_eq_true, decide_eq_true_eq] at h
  omega

theorem isDigit_not_space {d : Nat} (h : isDigit d = true) : isSpace d = false := by
  simp only [isDigit, Bool.and_eq_true, decide_eq_true_eq] at h
  simp only [isSpace, Bool.or_eq_false_iff, beq_eq_false_iff_ne, ne_eq]
  omega

theorem scanExponent_local (s r : GoBytes) (h : scanExponent s = some r) :
    ∃ pre, s = pre ++ r ∧ ∀ r', Agree r r' → scanExponent (pre ++ r') = some r' := by
  cases s with
  | nil =>
    simp only [scanExponent, Option.some.injEq] at h
    subst h
    refine ⟨[], rfl, fun r' hr => ?_⟩
    rw [Agree.of_nil hr]; rfl
  | cons e rr =>
    by_cases he : e = 101 ∨ e = 69
    · simp only [scanExponent, he, if_true] at h
      cases rr with
      | nil => simp at h
      | cons sgn r1 =>
        by_cases hs : sgn = 43 ∨ sgn = 45
        · simp only [hs, if_true] at h
          cases r1 with
          | nil => simp at h
          | cons d r2 =>
            by_cases hd : isDigit d = true
            · simp only [hd, if_true, Option.some.injEq] at h
              obtain ⟨ds, hds, hloc⟩ := skipDigits_local r2
              rw [h] at hds hloc
              refine ⟨e :: sgn :: d :: ds, by simp [hds], fun r' hr => ?_⟩
              simp only [List.cons_append, scanExponent, he, hs, if_true, hd, hloc r' hr]
            · simp [hd] at h
        · simp only [hs, if_false] at h
          by_cases hd : isDigit sgn = true
          · simp only [hd, if_true, Option.some.injEq] at h
            obtain ⟨ds, hds, hloc⟩ := skipDigits_local r1
            rw [h] at hds hloc
            refine ⟨e :: sgn :: ds, by simp [hds], fun r' hr => ?_⟩
            simp only [List.cons_append, scanExponent, he, hs, if_true, if_false, hd,
              hloc r' hr]
          · simp [hd] at h
    · simp only [scanExponent, he, if_false, Option.some.injEq] at h
      subst h
      refine ⟨[], rfl, fun r' hr => ?_⟩
      rcases Agree.of_cons hr with rfl | ⟨r'', rfl⟩
      · rfl
      · simp [scanExponent, he]

theorem scanFraction_local (s r : GoBytes) (h : scanFraction s = some r) :
    ∃ pre, s = pre ++ r ∧ ∀ r', Agree r r' → scanFraction (pre ++ r') = some r' := by
  cases s with
  | nil =>
    simp only [scanFraction, scanExponent, Option.some.injEq] at h
    subst h
    refine ⟨[], rfl, fun r' hr => ?_⟩
    rw [Agree.of_nil hr]; rfl
  | cons c rr =>
    by_cases hc : c = 46
    · subst hc
      simp only [scanFraction] at h
      cases rr with
      | nil => simp at h
      | cons d r1 =>
        by_cases hd : isDigit d = true
        · simp only [hd, if_true] at h
          obtain ⟨ds, hds, hloc⟩ := skipDigits_local r1
          obtain ⟨ex, hex, hloc2⟩ := scanExponent_local _ _ h
          refine ⟨46 :: d :: (ds ++ ex), ?_, fun r' hr => ?_⟩
          · simp only [List.cons_append, List.append_assoc]
            rw [← hex, ← hds]
          · simp only [List.cons_append, List.append_assoc, scanFraction, hd, if_true]
            have hag : Agree (skipDigits r1) (ex ++ r') := by
              rw [hex]
              cases ex with
              | nil =>
                simp only [List.nil_append]
                exact hr
              | cons x xs => exact Or.inr rfl
            rw [hloc (ex ++ r') hag]
            exact hloc2 r' hr
        · simp [hd] at h
    · have hs : scanFraction (c :: rr) = scanExponent (c :: rr) := by
        unfold scanFraction
        split
        · next heq => simp at heq; exact absurd heq.1 hc
        · rfl
      rw [hs] at h
      obtain ⟨ex, hex, hloc⟩ := scanExponent_local _ _ h
      refine ⟨ex, hex, fun r' hr => ?_⟩
      have h2 := hloc r' hr
      cases ex with
      | nil =>
        simp only [List.nil_append] at hex h2 ⊢
        subst hex
        rcases Agree.of_cons hr with rfl | ⟨r'', rfl⟩
        · rfl
        · have : scanFraction (c :: r'') = scanExponent (c :: r'') := by
            unfold scanFraction
            split
            · next heq => simp at heq; exact absurd heq.1 hc
            · rfl
          rw [this]; exact h2
      | cons x xs =>
        simp only [List.cons_append, List.cons.injEq] at hex
        obtain ⟨rfl, -⟩ := hex
        have : scanFraction (c :: xs ++ r') = scanExponent (c :: xs ++ r') := by
          simp only [List.cons_append]
          unfold scanFraction
          split
          · next heq => simp at heq; exact absurd heq.1 hc
          · rfl
        rw [this]; exact h2

/-- The number scanner behind an optional minus sign. -/
theorem scanNumber_unsigned (d : Nat) (r : GoBytes) (hd : d ≠ 45) :
    scanNumber (d :: r)
      = if d = 48 then scanFraction r
        else if 49 ≤ d ∧ d ≤ 57 then scanFraction (skipDigits r) else none := by
  unfold scanNumber
  split
  · next heq =>
    split at heq
    · next h45 => simp at h45; exact absurd h45.1 hd
    · simp at heq
      obtain ⟨rfl, rfl⟩ := heq
      rfl
  · next heq =>
    split at heq
    · next h45 => simp at h45; exact absurd h45.1 hd
    · simp at heq

theorem scanNumber_signed (r : GoBytes) :
    scanNumber (45 :: r)
      = match r with
        | d :: r1 =>
          if d = 48 then scanFraction r1
          else if 49 ≤ d ∧ d ≤ 57 then scanFraction (skipDigits r1) else none
        | [] => none := by
  unfold scanNumber
  rfl

theorem unsigned_local (d : Nat) (r res : GoBytes)
    (h : (if d = 48 then scanFraction r
        else if 49 ≤ d ∧ d ≤ 57 then scanFraction (skipDigits r) else none) = some res) :
    ∃ pre, r = pre ++ res
      ∧ ∀ r', Agree res r' →
        (if d = 48 then scanFraction (pre ++ r')
          else if 49 ≤ d ∧ d ≤ 57 then scanFraction (skipDigits (pre ++ r')) else none)
          = some r' := by
  by_cases h0 : d = 48
  · simp only [h0, if_true] at h ⊢
    exact scanFraction_local _ _ h
  · by_cases h1 : 49 ≤ d ∧ d ≤ 57
    · simp only [h0, if_false, h1, if_true] at h ⊢
      obtain ⟨ds, hds, hloc⟩ := skipDigits_local r
      obtain ⟨fr, hfr, hloc2⟩ := scanFraction_local _ _ h
      refine ⟨ds ++ fr, ?_, fun r' hr => ?_⟩
      · rw [List.append_assoc, ← hfr, ← hds]
      · have hag : Agree (skipDigits r) (fr ++ r') := by
          rw [hfr]
          cases fr with
          | nil => simpa using hr
          | cons x xs => exact Or.inr rfl
        rw [List.append_assoc, hloc (fr ++ r') hag]
        exact hloc2 r' hr
    · simp [h0, h1] at h

theorem scanNumber_local (s r : GoBytes) (h : scanNumber s = some r) :
    ∃ pre, s = pre ++ r ∧ pre ≠ []
      ∧ (∀ c, pre.head? = some c → isSpace c = false)
      ∧ ∀ r', Agree r r' → scanNumber (pre ++ r') = some r' := by
  cases s with
  | nil => simp [scanNumber] at h
  | cons c cs =>
    by_cases hc : c = 45
    · subst hc
      rw [scanNumber_signed] at h
      cases cs with
      | nil => simp at h
      | cons d r1 =>
        simp only at h
        obtain ⟨pre, hpre, hloc⟩ := unsigned_local d r1 r h
        refine ⟨45 :: d :: pre, by simp [hpre], by simp, ?_, fun r' hr => ?_⟩
        · intro x hx
          simp at hx
          subst hx
          rfl
        · simp only [List.cons_append]
          rw [scanNumber_signed]
          exact hloc r' hr
    · rw [scanNumber_unsigned c cs hc] at h
      obtain ⟨pre, hpre, hloc⟩ := unsigned_local c cs r h
      have hdig : isSpace c = false := by
        by_cases h0 : c = 48
        · subst h0; rfl
        · by_cases h1 : 49 ≤ c ∧ c ≤ 57
          · simp only [isSpace, Bool.or_eq_false_iff, beq_eq_false_iff_ne, ne_eq]
            omega
          · simp [h0, h1] at h
      refine ⟨c :: pre, by simp [hpre], by simp, ?_, fun r' hr => ?_⟩
      · intro x hx
        simp at hx
        subst hx
        exact hdig
      · simp only [List.cons_append]
        rw [scanNumber_unsigned c _ hc]
        exact hloc r' hr

theorem scanLiteral_local (l s r : GoBytes) (h : scanLiteral l s = some r) :
    s = l ++ r ∧ ∀ r', scanLiteral l (l ++ r') = some r' := by
  induction l generalizing s with
  | nil =>
    cases s <;> simp [scanLiteral] at h <;> subst h <;>
      exact ⟨rfl, fun r' => by cases r' <;> rfl⟩
  | cons x xs ih =>
    cases s with
    | nil => simp [scanLiteral] at h
    | cons c cs =>
      by_cases hc : c = x
      · subst hc
        simp only [scanLiteral, if_true] at h
        obtain ⟨h1, h2⟩ := ih cs h
        exact ⟨by simp [h1], fun r' => by simp [scanLiteral, h2 r']⟩
      · simp [scanLiteral, hc] at h

theorem scanString_local (s r : GoBytes) (h : scanString s = some r) :
    ∃ pre, s = pre ++ r ∧ ∀ r', scanString (pre ++ r') = some r' := by
  generalize hn : s.length = n
  induction n using Nat.strong_induction_on generalizing s with
  | _ n ih =>
    cases s with
    | nil => simp [scanString] at h
    | cons c cs =>
      rw [scanString.eq_def] at h
      simp only at h
      by_cases hq : c = 34
      · simp only [hq, if_true, Option.some.injEq] at h
        subst h
        refine ⟨[c], by simp, fun r' => ?_⟩
        rw [scanString.eq_def]
        simp [hq]
      · by_cases hb : c = 92
        · simp only [hq, if_false, hb, if_true] at h
          cases cs with
          | nil => simp at h
          | cons e cs1 =>
            simp only at h
            by_cases hu : e = 117
            · simp only [hu, if_true] at h
              rcases cs1 with _ | ⟨h1, _ | ⟨h2, _ | ⟨h3, _ | ⟨h4, cs2⟩⟩⟩⟩ <;>
                first | (simp at h; done) | skip
              by_cases hx : (isHex h1 && isHex h2 && isHex h3 && isHex h4) = true
              · simp only [hx, if_true] at h
                obtain ⟨pre, hpre, hloc⟩ := ih cs2.length (by subst hn; simp; omega) cs2 h rfl
                refine ⟨c :: e :: h1 :: h2 :: h3 :: h4 :: pre, by simp [hpre], fun r' => ?_⟩
                rw [scanString.eq_def]
                simp only [List.cons_append, hq, if_false, hb, if_true, hu, hx]
                exact hloc r'
              · simp [hx] at h
            · by_cases hesc : e = 98 ∨ e = 102 ∨ e = 110 ∨ e = 114 ∨ e = 116 ∨ e = 92 ∨ e = 47
                  ∨ e = 34
              · simp only [hu, if_false, hesc, if_true] at h
                obtain ⟨pre, hpre, hloc⟩ := ih cs1.length (by subst hn; simp; omega) cs1 h rfl
                refine ⟨c :: e :: pre, by simp [hpre], fun r' => ?_⟩
                rw [scanString.eq_def]
                simp only [List.cons_append, hq, if_false, hb, if_true, hu, hesc]
                exact hloc r'
              · simp [hu, hesc] at h
        · by_cases hctl : c < 32
          · simp [hq, hb, hctl] at h
          · simp only [hq, if_false, hb, hctl] at h
            obtain ⟨pre, hpre, hloc⟩ := ih cs.length (by subst hn; simp) cs h rfl
            refine ⟨c :: pre, by simp [hpre], fun r' => ?_⟩
            rw [scanString.eq_def]
            simp only [List.cons_append, hq, if_false, hb, hctl]
            exact hloc r'

theorem head_append_of_ne_nil {p : GoBytes} (hp : p ≠ []) (t : GoBytes) :
    (p ++ t).head? = p.head? := by
  cases p with
  | nil => exact absurd rfl hp
  | cons c cs => rfl

/-- Scanning a string, a literal or a number as a value, with any fuel and depth. -/
theorem scanValue_atom (f d c : Nat) (cs : GoBytes) (h1 : c ≠ 91) (h2 : c ≠ 123) :
    scanValue (f + 1) d (c :: cs)
      = if c = 34 then scanString cs
        else if c = 116 then scanLiteral [114, 117, 101] cs
        else if c = 102 then scanLiteral [97, 108, 115, 101] cs
        else if c = 110 then scanLiteral [117, 108, 108] cs
        else if c = 45 ∨ isDigit c = true then scanNumber (c :: cs) else none := by
  rw [scanValue.eq_3]
  simp only [h1, h2, if_false]

theorem valueLocal_atom (f d c : Nat) (cs r : GoBytes) (h1 : c ≠ 91) (h2 : c ≠ 123)
    (h : scanValue (f + 1) d (c :: cs) = some r) : ValueLocal d (c :: cs) r := by
  rw [scanValue_atom f d c cs h1 h2] at h
  have fuel : ∀ f' : Nat, ∀ pre : GoBytes, 2 * (c :: pre).length ≤ f' → ∃ g, f' = g + 1 := by
    intro f' pre hf
    simp only [List.length_cons] at hf
    exact ⟨f' - 1, by omega⟩
  by_cases hq : c = 34
  · simp only [hq, if_true] at h
    obtain ⟨pre, hpre, hloc⟩ := scanString_local cs r h
    refine ⟨c :: pre, by simp [hpre], by simp, ?_, fun f' d' r' hf _ _ => ?_⟩
    · intro x hx; simp at hx; subst hx; subst hq; rfl
    · obtain ⟨g, rfl⟩ := fuel f' pre hf
      simp only [List.cons_append]
      rw [scanValue_atom g d' c _ h1 h2]
      simp only [hq, if_true]
      exact hloc r'
  · by_cases ht : c = 116
    · simp only [hq, if_false, ht, if_true] at h
      obtain ⟨hs, hloc⟩ := scanLiteral_local _ cs r h
      refine ⟨c :: [114, 117, 101], by simp [hs], by simp, ?_, fun f' d' r' hf _ _ => ?_⟩
      · intro x hx; simp at hx; subst hx; subst ht; rfl
      · obtain ⟨g, rfl⟩ := fuel f' _ hf
        simp only [List.cons_append]
        rw [scanValue_atom g d' c _ h1 h2]
        simp only [hq, if_false, ht, if_true]
        exact hloc r'
    · by_cases hf' : c = 102
      · simp only [hq, if_false, ht, hf', if_true] at h
        obtain ⟨hs, hloc⟩ := scanLiteral_local _ cs r h
        refine ⟨c :: [97, 108, 115, 101], by simp [hs], by simp, ?_,
          fun f' d' r' hf _ _ => ?_⟩
        · intro x hx; simp at hx; subst hx; subst hf'; rfl
        · obtain ⟨g, rfl⟩ := fuel f' _ hf
          simp only [List.cons_append]
          rw [scanValue_atom g d' c _ h1 h2]
          simp only [hq, if_false, ht, hf', if_true]
          exact hloc r'
      · by_cases hn : c = 110
        · simp only [hq, if_false, ht, hf', hn, if_true] at h
          obtain ⟨hs, hloc⟩ := scanLiteral_local _ cs r h
          refine ⟨c :: [117, 108, 108], by simp [hs], by simp, ?_,
            fun f' d' r' hf _ _ => ?_⟩
          · intro x hx; simp at hx; subst hx; subst hn; rfl
          · obtain ⟨g, rfl⟩ := fuel f' _ hf
            simp only [List.cons_append]
            rw [scanValue_atom g d' c _ h1 h2]
            simp only [hq, if_false, ht, hf', hn, if_true]
            exact hloc r'
        · by_cases hnum : c = 45 ∨ isDigit c = true
          · simp only [hq, if_false, ht, hf', hn, hnum, if_true] at h
            obtain ⟨pre, hpre, hne, hhead, hloc⟩ := scanNumber_local _ r h
            cases pre with
            | nil => exact absurd rfl hne
            | cons x xs =>
              simp only [List.cons_append, List.cons.injEq] at hpre
              obtain ⟨rfl, hcs⟩ := hpre
              refine ⟨c :: xs, by simp [hcs], by simp, hhead, fun f' d' r' hf _ hag => ?_⟩
              obtain ⟨g, rfl⟩ := fuel f' _ hf
              simp only [List.cons_append]
              rw [scanValue_atom g d' c _ h1 h2]
              simp only [hq, if_false, ht, hf', hn, hnum, if_true]
              exact hloc r' hag
          · simp [hq, ht, hf', hn, hnum] at h

theorem scanValue_array (f d : Nat) (cs : GoBytes) :
    scanValue (f + 1) d (91 :: cs)
      = if maxNestingDepth ≤ d then none
        else match skipSpace cs with
          | 93 :: r => some r
          | r => scanElements f (d + 1) r := by
  rw [scanValue.eq_3]; rfl

theorem scanValue_object (f d : Nat) (cs : GoBytes) :
    scanValue (f + 1) d (123 :: cs)
      = if maxNestingDepth ≤ d then none
        else match skipSpace cs with
          | 125 :: r => some r
          | r => scanMembers f (d + 1) r := by
  rw [scanValue.eq_3]; rfl

theorem valueLocal_array (f d : Nat) (cs r : GoBytes)
    (ihE : ∀ d s r, scanElements f d s = some r → ElementsLocal d s r)
    (h : scanValue (f + 1) d (91 :: cs) = some r) : ValueLocal d (91 :: cs) r := by
  rw [scanValue_array] at h
  by_cases hd : maxNestingDepth ≤ d
  · simp [hd] at h
  · simp only [hd, if_false] at h
    obtain ⟨ws, hws, -, hsk⟩ := skipSpace_local cs
    split at h
    · next r0 heq =>
      simp only [Option.some.injEq] at h
      subst h
      refine ⟨91 :: (ws ++ [93]), ?_, by simp, ?_, fun f' d' r' hf hd' _ => ?_⟩
      · rw [hws, heq]; simp
      · intro x hx; simp at hx; subst hx; rfl
      · obtain ⟨g, rfl⟩ : ∃ g, f' = g + 1 := ⟨f' - 1, by simp at hf; omega⟩
        have hd2 : ¬ maxNestingDepth ≤ d' := by omega
        have e : (91 :: (ws ++ [93])) ++ r' = 91 :: (ws ++ 93 :: r') := by simp
        rw [e, scanValue_array]
        simp only [hd2, if_false]
        rw [hsk (93 :: r') (by intro x hx; simp at hx; subst hx; rfl)]
    · next hne =>
      obtain ⟨pre, hpre, hpne, hphead, hloc⟩ := ihE _ _ _ h
      cases pre with
      | nil => exact absurd rfl hpne
      | cons x xs =>
        have hx93 : x ≠ 93 := by
          intro hx
          subst hx
          exact hne (xs ++ r) (by rw [hpre]; rfl)
        refine ⟨91 :: (ws ++ x :: xs), ?_, by simp, ?_, fun f' d' r' hf hd' _ => ?_⟩
        · rw [hws]
          simp only [List.cons_append, List.append_assoc]
          rw [hpre]; rfl
        · intro y hy; simp at hy; subst hy; rfl
        · obtain ⟨g, rfl⟩ : ∃ g, f' = g + 1 := ⟨f' - 1, by simp at hf; omega⟩
          have hd2 : ¬ maxNestingDepth ≤ d' := by omega
          have e : (91 :: (ws ++ x :: xs)) ++ r' = 91 :: (ws ++ (x :: xs ++ r')) := by simp
          rw [e, scanValue_array]
          simp only [hd2, if_false]
          rw [hsk (x :: xs ++ r') (by
            intro y hy
            exact hphead y (by simpa using hy))]
          split
          · next r1 heq =>
            simp only [List.cons_append, List.cons.injEq] at heq
            exact absurd heq.1 hx93
          · exact hloc g (d' + 1) r' (by simp at hf ⊢; omega) (by omega)

theorem valueLocal_object (f d : Nat) (cs r : GoBytes)
    (ihM : ∀ d s r, scanMembers f d s = some r → MembersLocal d s r)
    (h : scanValue (f + 1) d (123 :: cs) = some r) : ValueLocal d (123 :: cs) r := by
  rw [scanValue_object] at h
  by_cases hd : maxNestingDepth ≤ d
  · simp [hd] at h
  · simp only [hd, if_false] at h
    obtain ⟨ws, hws, -, hsk⟩ := skipSpace_local cs
    split at h
    · next r0 heq =>
      simp only [Option.some.injEq] at h
      subst h
      refine ⟨123 :: (ws ++ [125]), ?_, by simp, ?_, fun f' d' r' hf hd' _ => ?_⟩
      · rw [hws, heq]; simp
      · intro x hx; simp at hx; subst hx; rfl
      · obtain ⟨g, rfl⟩ : ∃ g, f' = g + 1 := ⟨f' - 1, by simp at hf; omega⟩
        have hd2 : ¬ maxNestingDepth ≤ d' := by omega
        have e : (123 :: (ws ++ [125])) ++ r' = 123 :: (ws ++ 125 :: r') := by simp
        rw [e, scanValue_object]
        simp only [hd2, if_false]
        rw [hsk (125 :: r') (by intro x hx; simp at hx; subst hx; rfl)]
    · next hne =>
      obtain ⟨pre, hpre, hpne, hphead, hloc⟩ := ihM _ _ _ h
      cases pre with
      | nil => exact absurd rfl hpne
      | cons x xs =>
        have hx125 : x ≠ 125 := by
          intro hx
          subst hx
          exact hne (xs ++ r) (by rw [hpre]; rfl)
        refine ⟨123 :: (ws ++ x :: xs), ?_, by simp, ?_, fun f' d' r' hf hd' _ => ?_⟩
        · rw [hws]
          simp only [List.cons_append, List.append_assoc]
          rw [hpre]; rfl
        · intro y hy; simp at hy; subst hy; rfl
        · obtain ⟨g, rfl⟩ : ∃ g, f' = g + 1 := ⟨f' - 1, by simp at hf; omega⟩
          have hd2 : ¬ maxNestingDepth ≤ d' := by omega
          have e : (123 :: (ws ++ x :: xs)) ++ r' = 123 :: (ws ++ (x :: xs ++ r')) := by simp
          rw [e, scanValue_object]
          simp only [hd2, if_false]
          rw [hsk (x :: xs ++ r') (by
            intro y hy
            exact hphead y (by simpa using hy))]
          split
          · next r1 heq =>
            simp only [List.cons_append, List.cons.injEq] at heq
            exact absurd heq.1 hx125
          · exact hloc g (d' + 1) r' (by simp at hf ⊢; omega) (by omega)

theorem agree_space_then (k : Nat) (ws a b : GoBytes) :
    Agree (ws ++ k :: a) (ws ++ k :: b) := by
  cases ws with
  | nil => exact Or.inr rfl
  | cons c cs => exact Or.inr rfl

theorem elementsLocal_step (f d : Nat) (s r : GoBytes)
    (ihV : ∀ d s r, scanValue f d s = some r → ValueLocal d s r)
    (ihE : ∀ d s r, scanElements f d s = some r → ElementsLocal d s r)
    (h : scanElements (f + 1) d s = some r) : ElementsLocal d s r := by
  rw [scanElements.eq_2] at h
  cases hv : scanValue f d s with
  | none => simp [hv] at h
  | some r1 =>
    simp only [hv] at h
    obtain ⟨v, hv1, hvne, hvhead, hvloc⟩ := ihV d s r1 hv
    obtain ⟨ws, hws, -, hsk⟩ := skipSpace_local r1
    have hne : v ++ ws ≠ [] := by simp [hvne]
    have hhead : ∀ (t : GoBytes) (c : Nat), (v ++ t).head? = some c → isSpace c = false := by
      intro t c hc
      rw [head_append_of_ne_nil hvne] at hc
      exact hvhead c hc
    split at h
    · next r2 heq =>
      obtain ⟨ws2, hws2, -, hsk2⟩ := skipSpace_local r2
      obtain ⟨pre, hpre, hpne, hphead, hloc⟩ := ihE d _ r h
      refine ⟨v ++ (ws ++ 44 :: (ws2 ++ pre)), ?_, by simp [hvne], hhead _,
        fun f' d' r' hf hd' => ?_⟩
      · rw [hv1, hws, heq, hws2, hpre]; simp
      · obtain ⟨g, rfl⟩ : ∃ g, f' = g + 1 := ⟨f' - 1, by omega⟩
        simp only [List.length_append, List.length_cons] at hf
        have e : (v ++ (ws ++ 44 :: (ws2 ++ pre))) ++ r'
            = v ++ (ws ++ 44 :: (ws2 ++ (pre ++ r'))) := by simp
        rw [e, scanElements.eq_2,
          hvloc g d' (ws ++ 44 :: (ws2 ++ (pre ++ r'))) (by omega) hd' (by
            rw [hws, heq]; exact agree_space_then 44 ws _ _)]
        simp only
        rw [hsk (44 :: (ws2 ++ (pre ++ r'))) (by intro x hx; simp at hx; subst hx; rfl)]
        simp only
        rw [hsk2 (pre ++ r') (by
          intro y hy
          rw [head_append_of_ne_nil hpne] at hy
          exact hphead y hy)]
        exact hloc g d' r' (by omega) hd'
    · next r2 heq =>
      simp only [Option.some.injEq] at h
      subst h
      refine ⟨v ++ (ws ++ [93]), ?_, by simp [hvne], hhead _, fun f' d' r' hf hd' => ?_⟩
      · rw [hv1, hws, heq]; simp
      · obtain ⟨g, rfl⟩ : ∃ g, f' = g + 1 := ⟨f' - 1, by omega⟩
        simp only [List.length_append, List.length_cons] at hf
        have e : (v ++ (ws ++ [93])) ++ r' = v ++ (ws ++ 93 :: r') := by simp
        rw [e, scanElements.eq_2,
          hvloc g d' (ws ++ 93 :: r') (by omega) hd' (by
            rw [hws, heq]; exact agree_space_then 93 ws _ _)]
        simp only
        rw [hsk (93 :: r') (by intro x hx; simp at hx; subst hx; rfl)]
    · simp at h

theorem scanMembers_key (f d : Nat) (s : GoBytes) :
    scanMembers (f + 1) d (34 :: s)
      = match scanString s with
        | none => none
        | some r =>
          match skipSpace r with
          | 58 :: r1 =>
            match scanValue f d (skipSpace r1) with
            | none => none
            | some r2 =>
              match skipSpace r2 with
              | 44 :: r3 => scanMembers f d (skipSpace r3)
              | 125 :: r3 => some r3
              | _ => none
          | _ => none := by
  rw [scanMembers.eq_3]; rfl

theorem membersLocal_step (f d : Nat) (s r : GoBytes)
    (ihV : ∀ d s r, scanValue f d s = some r → ValueLocal d s r)
    (ihM : ∀ d s r, scanMembers f d s = some r → MembersLocal d s r)
    (h : scanMembers (f + 1) d s = some r) : MembersLocal d s r := by
  cases s with
  | nil => simp [scanMembers] at h
  | cons q s =>
    by_cases hq : q = 34
    swap
    · rw [scanMembers.eq_3] at h
      simp [hq] at h
    subst hq
    rw [scanMembers_key] at h
    cases hk : scanString s with
    | none => simp [hk] at h
    | some r0 =>
      simp only [hk] at h
      obtain ⟨key, hkey, hkloc⟩ := scanString_local s r0 hk
      obtain ⟨ws0, hws0, -, hsk0⟩ := skipSpace_local r0
      split at h
      swap
      · simp at h
      next r1 heq1 =>
      obtain ⟨ws1, hws1, hhead1, hsk1⟩ := skipSpace_local r1
      cases hv : scanValue f d (skipSpace r1) with
      | none => simp [hv] at h
      | some r2 =>
        simp only [hv] at h
        obtain ⟨v, hv1, hvne, hvhead, hvloc⟩ := ihV d _ r2 hv
        obtain ⟨ws, hws, -, hsk⟩ := skipSpace_local r2
        have hvh : ∀ (t : GoBytes) (c : Nat), (v ++ t).head? = some c → isSpace c = false := by
          intro t c hc
          rw [head_append_of_ne_nil hvne] at hc
          exact hvhead c hc
        split at h
        · next r3 heq =>
          obtain ⟨ws3, hws3, -, hsk3⟩ := skipSpace_local r3
          obtain ⟨pre, hpre, hpne, hphead, hloc⟩ := ihM d _ r h
          refine ⟨34 :: (key ++ (ws0 ++ 58 :: (ws1 ++ (v ++ (ws ++ 44 :: (ws3 ++ pre)))))),
            ?_, by simp, ?_, fun f' d' r' hf hd' => ?_⟩
          · rw [hkey, hws0, heq1, hws1, hv1, hws, heq, hws3, hpre]; simp
          · intro x hx; simp at hx; subst hx; rfl
          · obtain ⟨g, rfl⟩ : ∃ g, f' = g + 1 := ⟨f' - 1, by omega⟩
            simp only [List.length_append, List.length_cons] at hf
            have e : (34 :: (key ++ (ws0 ++ 58 :: (ws1 ++ (v ++ (ws ++ 44 :: (ws3 ++ pre)))))))
                ++ r'
                = 34 :: (key ++ (ws0 ++ 58 :: (ws1 ++ (v ++ (ws ++ 44 :: (ws3 ++ (pre ++ r')))))))
                := by simp
            rw [e, scanMembers_key, hkloc]
            simp only
            rw [hsk0 (58 :: _) (by intro x hx; simp at hx; subst hx; rfl)]
            simp only
            rw [hsk1 (v ++ _) (hvh _),
              hvloc g d' (ws ++ 44 :: (ws3 ++ (pre ++ r'))) (by omega) hd' (by
                rw [hws, heq]; exact agree_space_then 44 ws _ _)]
            simp only
            rw [hsk (44 :: (ws3 ++ (pre ++ r'))) (by intro x hx; simp at hx; subst hx; rfl)]
            simp only
            rw [hsk3 (pre ++ r') (by
              intro y hy
              rw [head_append_of_ne_nil hpne] at hy
              exact hphead y hy)]
            exact hloc g d' r' (by omega) hd'
        · next r3 heq =>
          simp only [Option.some.injEq] at h
          subst h
          refine ⟨34 :: (key ++ (ws0 ++ 58 :: (ws1 ++ (v ++ (ws ++ [125]))))),
            ?_, by simp, ?_, fun f' d' r' hf hd' => ?_⟩
          · rw [hkey, hws0, heq1, hws1, hv1, hws, heq]; simp
          · intro x hx; simp at hx; subst hx; rfl
          · obtain ⟨g, rfl⟩ : ∃ g, f' = g + 1 := ⟨f' - 1, by omega⟩
            simp only [List.length_append, List.length_cons] at hf
            have e : (34 :: (key ++ (ws0 ++ 58 :: (ws1 ++ (v ++ (ws ++ [125])))))) ++ r'
                = 34 :: (key ++ (ws0 ++ 58 :: (ws1 ++ (v ++ (ws ++ 125 :: r'))))) := by simp
            rw [e, scanMembers_key, hkloc]
            simp only
            rw [hsk0 (58 :: _) (by intro x hx; simp at hx; subst hx; rfl)]
            simp only
            rw [hsk1 (v ++ _) (hvh _),
              hvloc g d' (ws ++ 125 :: r') (by omega) hd' (by
                rw [hws, heq]; exact agree_space_then 125 ws _ _)]
            simp only
            rw [hsk (125 :: r') (by intro x hx; simp at hx; subst hx; rfl)]
        · simp at h

/-- Every successful scan is local. -/
theorem scan_local (f : Nat) :
    (∀ d s r, scanValue f d s = some r → ValueLocal d s r)
      ∧ (∀ d s r, scanElements f d s = some r → ElementsLocal d s r)
      ∧ (∀ d s r, scanMembers f d s = some r → MembersLocal d s r) := by
  induction f with
  | zero =>
    refine ⟨fun d s r h => ?_, fun d s r h => ?_, fun d s r h => ?_⟩
    · simp [scanValue] at h
    · simp [scanElements] at h
    · simp [scanMembers] at h
  | succ f ih =>
    obtain ⟨ihV, ihE, ihM⟩ := ih
    refine ⟨fun d s r h => ?_, fun d s r h => elementsLocal_step f d s r ihV ihE h,
      fun d s r h => membersLocal_step f d s r ihV ihM h⟩
    cases s with
    | nil => simp [scanValue] at h
    | cons c cs =>
      by_cases h1 : c = 91
      · subst h1; exact valueLocal_array f d cs r ihE h
      · by_cases h2 : c = 123
        · subst h2; exact valueLocal_object f d cs r ihM h
        · exact valueLocal_atom f d c cs r h1 h2 h

theorem skipSpace_of_head (s : GoBytes) (h : ∀ c, s.head? = some c → isSpace c = false) :
    skipSpace s = s := by
  cases s with
  | nil => rfl
  | cons c cs => simp [skipSpace, h c rfl]

theorem consumed_append (pre r : GoBytes) : consumed (pre ++ r) r = pre := by
  simp [consumed]

/-- The text a scan of a value has read is valid JSON on its own. -/
theorem valid_consumed (f d : Nat) (s r : GoBytes) (h : scanValue f d s = some r) :
    Valid (consumed s r) = true := by
  obtain ⟨pre, hpre, hne, hhead, hloc⟩ := (scan_local f).1 d s r h
  rw [hpre, consumed_append]
  unfold Valid
  rw [skipSpace_of_head pre hhead]
  have := hloc (fuelFor pre) 0 [] (by unfold fuelFor; omega) (Nat.zero_le _) (Agree.nil r)
  simp only [List.append_nil] at this
  rw [this]
  rfl

theorem length_skipSpace_le (s : GoBytes) : (skipSpace s).length ≤ s.length := by
  induction s with
  | nil => simp [skipSpace]
  | cons c cs ih =>
    by_cases hc : isSpace c = true
    · simp only [skipSpace, hc, if_true, List.length_cons]
      omega
    · simp [skipSpace, hc]

/-- The fuel `fuelFor` is enough: a text that the scanner accepts with some fuel is valid. -/
theorem Valid_of_scan (data r : GoBytes) (f : Nat)
    (h : scanValue f 0 (skipSpace data) = some r) (hr : skipSpace r = []) :
    Valid data = true := by
  obtain ⟨pre, hpre, -, -, hloc⟩ := (scan_local f).1 0 _ r h
  have hlen : 2 * pre.length ≤ fuelFor data := by
    have h1 := length_skipSpace_le data
    rw [hpre, List.length_append] at h1
    unfold fuelFor
    omega
  have h2 := hloc (fuelFor data) 0 r hlen (Nat.le_refl _) (Or.inr rfl)
  rw [← hpre] at h2
  simp [Valid, h2, hr]

theorem valid_arrayElements (fuel : Nat) (s : GoBytes) (es : List GoBytes)
    (h : arrayElements fuel s = some es) : ∀ e ∈ es, Valid e = true := by
  induction fuel generalizing s es with
  | zero => simp [arrayElements] at h
  | succ fuel ih =>
    rw [arrayElements] at h
    cases hv : scanValue (fuelFor s) 0 s with
    | none => simp [hv] at h
    | some r =>
      simp only [hv] at h
      have hvalid := valid_consumed _ _ _ _ hv
      split at h
      · next r1 heq =>
        cases hrec : arrayElements fuel (skipSpace r1) with
        | none => simp [hrec] at h
        | some tl =>
          simp only [hrec, Option.map_some', Option.some.injEq] at h
          subst h
          intro e he
          rcases List.mem_cons.1 he with rfl | he
          · exact hvalid
          · exact ih _ _ hrec e he
      · next r1 heq =>
        simp only [Option.some.injEq] at h
        subst h
        intro e he
        rw [List.mem_singleton.1 he]
        exact hvalid
      · simp at h

/-- The elements that `json.Unmarshal` hands out for an array are valid JSON texts. -/
theorem valid_UnmarshalRawMessages (data : GoBytes) (es : List RawMessage)
    (h : UnmarshalRawMessages data = .ok (some es)) : ∀ e ∈ es, Valid e = true := by
  unfold UnmarshalRawMessages at h
  split at h
  swap
  · simp at h
  split at h
  · simp at h
  · next cs heq =>
    cases hel : elementsOf (91 :: cs) with
    | none => simp [hel] at h
    | some es' =>
      simp only [hel, Except.ok.injEq, Option.some.injEq] at h
      subst h
      unfold elementsOf at hel
      split at hel
      · simp only [Option.some.injEq] at hel
        subst hel
        simp
      · exact valid_arrayElements _ _ _ hel
  · simp at h

theorem Valid_ne_nil (e : GoBytes) (h : Valid e = true) : e ≠ [] := by
  intro he
  subst he
  simp [Valid, skipSpace, fuelFor, scanValue] at h

theorem collect_marshalRawMessage (es : List RawMessage) (h : ∀ e ∈ es, Valid e = true) :
    collect (es.map marshalRawMessage) = some (es.map (compactBytes false false)) := by
  induction es with
  | nil => rfl
  | cons e es ih =>
    have he : marshalRawMessage e = some (compactBytes false false e) := by
      have hv := h e (List.mem_cons_self _ _)
      have hne := Valid_ne_nil e hv
      cases e with
      | nil => exact absurd rfl hne
      | cons c cs => simp [marshalRawMessage, appendCompact, hv]
    simp [collect, he, ih (fun x hx => h x (List.mem_cons_of_mem _ hx))]

/-- Encoding never fails on elements that came out of the decoder: a slice that is not nil
is written as the array of its compacted elements. -/
theorem MarshalRawMessages_valid (es : List RawMessage) (h : ∀ e ∈ es, Valid e = true) :
    MarshalRawMessages (some es)
      = .ok (91 :: joinComma (es.map (compactBytes false false)) ++ [93]) := by
  simp [MarshalRawMessages, collect_marshalRawMessage es h]

end Json

/-! ## base64: decoding undoes encoding -/

namespace StdEncoding

theorem decodeSextet_encodeSextet (n : Nat) (h : n < 64) :
    decodeSextet (encodeSextet n) = some n := by
  interval_cases n <;> rfl

theorem encodeSextet_ne_pad (n : Nat) (h : n < 64) : encodeSextet n ≠ 61 := by
  interval_cases n <;> decide

theorem encodeSextet_not_newline (n : Nat) (h : n < 64) :
    (encodeSextet n != 13 && encodeSextet n != 10) = true := by
  interval_cases n <;> rfl

theorem filter_EncodeToString (xs : GoBytes) (h : IsBytes xs) :
    (EncodeToString xs).filter (fun c => c != 13 && c != 10) = EncodeToString xs := by
  induction xs using EncodeToString.induct with
  | case1 a b c rest ih =>
    have ha : (a : Nat) < 256 := h a (by simp)
    have hb : (b : Nat) < 256 := h b (by simp)
    have hc : (c : Nat) < 256 := h c (by simp)
    have hr : IsBytes rest := fun x hx => h x (by simp [hx])
    simp only [EncodeToString, List.filter_cons, ih hr]
    rw [encodeSextet_not_newline _ (by omega), encodeSextet_not_newline _ (by omega),
      encodeSextet_not_newline _ (by omega), encodeSextet_not_newline _ (by omega)]
    simp
  | case2 a b =>
    have ha : (a : Nat) < 256 := h a (by simp)
    have hb : (b : Nat) < 256 := h b (by simp)
    simp only [EncodeToString, List.filter_cons]
    rw [encodeSextet_not_newline _ (by omega), encodeSextet_not_newline _ (by omega),
      encodeSextet_not_newline _ (by omega)]
    simp
  | case3 a =>
    have ha : (a : Nat) < 256 := h a (by simp)
    simp only [EncodeToString, List.filter_cons]
    rw [encodeSextet_not_newline _ (by omega), encodeSextet_not_newline _ (by omega)]
    simp
  | case4 => rfl

theorem decodeQuanta_EncodeToString (xs : GoBytes) (h : IsBytes xs) :
    decodeQuanta (EncodeToString xs) = some xs := by
  induction xs using EncodeToString.induct with
  | case1 a b c rest ih =>
    have ha : (a : Nat) < 256 := h a (by simp)
    have hb : (b : Nat) < 256 := h b (by simp)
    have hc : (c : Nat) < 256 := h c (by simp)
    have hr : IsBytes rest := fun x hx => h x (by simp [hx])
    simp only [EncodeToString, decodeQuanta, encodeSextet_ne_pad (c % 64) (by omega), if_false,
      decodeSextet_encodeSextet (a / 4) (by omega),
      decodeSextet_encodeSextet (a % 4 * 16 + b / 16) (by omega),
      decodeSextet_encodeSextet (b % 16 * 4 + c / 64) (by omega),
      decodeSextet_encodeSextet (c % 64) (by omega), ih hr]
    have e1 : a / 4 * 4 + (a % 4 * 16 + b / 16) / 16 = a := by omega
    have e2 : (a % 4 * 16 + b / 16) % 16 * 16 + (b % 16 * 4 + c / 64) / 4 = b := by omega
    have e3 : (b % 16 * 4 + c / 64) % 4 * 64 + c % 64 = c := by omega
    rw [e1, e2, e3]
  | case2 a b =>
    have ha : (a : Nat) < 256 := h a (by simp)
    have hb : (b : Nat) < 256 := h b (by simp)
    simp only [EncodeToString, decodeQuanta, encodeSextet_ne_pad (b % 16 * 4) (by omega),
      if_false, if_true,
      decodeSextet_encodeSextet (a / 4) (by omega),
      decodeSextet_encodeSextet (a % 4 * 16 + b / 16) (by omega),
      decodeSextet_encodeSextet (b % 16 * 4) (by omega)]
    have e1 : a / 4 * 4 + (a % 4 * 16 + b / 16) / 16 = a := by omega
    have e2 : (a % 4 * 16 + b / 16) % 16 * 16 + b % 16 * 4 / 4 = b := by omega
    rw [e1, e2]
  | case3 a =>
    have ha : (a : Nat) < 256 := h a (by simp)
    simp only [EncodeToString, decodeQuanta, if_true,
      decodeSextet_encodeSextet (a / 4) (by omega),
      decodeSextet_encodeSextet (a % 4 * 16) (by omega)]
    have e1 : a / 4 * 4 + a % 4 * 16 / 16 = a := by omega
    rw [e1]
  | case4 => rfl

/-- Decoding undoes encoding. -/
theorem DecodeString_EncodeToString (xs : GoBytes) (h : IsBytes xs) :
    DecodeString (EncodeToString xs) = some xs := by
  unfold DecodeString
  rw [filter_EncodeToString xs h, decodeQuanta_EncodeToString xs h]

end StdEncoding

/-! ## The read loop, one frame at a time -/

theorem StatusTable.authenticate_ne_noContent (t : StatusTable) :
    t.StatusAuthenticate ≠ t.StatusNoContent := by
  have h := t.distinct
  simp only [List.nodup_cons, List.mem_cons, not_or] at h
  exact fun e => h.1.1 e.symm

theorem StatusTable.partialContent_ne_noContent (t : StatusTable) :
    t.StatusPartialContent ≠ t.StatusNoContent := by
  have h := t.distinct
  simp only [List.nodup_cons, List.mem_cons, not_or] at h
  exact fun e => h.1.2.1 e.symm

theorem StatusTable.partialContent_ne_authenticate (t : StatusTable) :
    t.StatusPartialContent ≠ t.StatusAuthenticate := by
  have h := t.distinct
  simp only [List.nodup_cons, List.mem_cons, not_or] at h
  exact fun e => h.2.1.1 e.symm

theorem StatusTable.success_ne_noContent (t : StatusTable) :
    t.StatusSuccess ≠ t.StatusNoContent := by
  have h := t.distinct
  simp only [List.nodup_cons, List.mem_cons, not_or] at h
  exact fun e => h.1.2.2.1 e.symm

theorem StatusTable.success_ne_authenticate (t : StatusTable) :
    t.StatusSuccess ≠ t.StatusAuthenticate := by
  have h := t.distinct
  simp only [List.nodup_cons, List.mem_cons, not_or] at h
  exact fun e => h.2.1.2.1 e.symm

theorem StatusTable.success_ne_partialContent (t : StatusTable) :
    t.StatusSuccess ≠ t.StatusPartialContent := by
  have h := t.distinct
  simp only [List.nodup_cons, List.mem_cons, not_or] at h
  exact fun e => h.2.2.1.1 e.symm

/-- One turn of the loop on a `NoContent` frame. -/
theorem ReadResponse.loop_noContent (t : StatusTable) (env : Env) (c : Client)
    (message : GoBytes) (rest : List ReadEvent) (writeResults : List (Option GoError))
    (sent : List GoBytes) (dataItems : GoSlice RawMessage) (inBatchMode : Bool)
    (res : Response) (status : ResponseStatus)
    (hdec : Json.UnmarshalResponse message = .ok (some res))
    (hstatus : res.Status = some status) (hcode : status.Code = t.StatusNoContent) :
    ReadResponse.loop t env c (.message message :: rest) writeResults sent dataItems inBatchMode
      = .returned [] none ⟨rest, writeResults, sent⟩ := by
  simp [ReadResponse.loop, hdec, hstatus, hcode]

/-- One turn of the loop on an `Authenticate` frame: the call of `Client.Authenticate`. -/
theorem ReadResponse.loop_authenticate (t : StatusTable) (env : Env) (c : Client)
    (message : GoBytes) (rest : List ReadEvent) (writeResults : List (Option GoError))
    (sent : List GoBytes) (dataItems : GoSlice RawMessage) (inBatchMode : Bool)
    (res : Response) (status : ResponseStatus)
    (hdec : Json.UnmarshalResponse message = .ok (some res))
    (hstatus : res.Status = some status) (hcode : status.Code = t.StatusAuthenticate) :
    ReadResponse.loop t env c (.message message :: rest) writeResults sent dataItems inBatchMode
      = Authenticate t env c res.RequestID ⟨rest, writeResults, sent⟩ := by
  simp only [ReadResponse.loop, hdec, hstatus, hcode, t.authenticate_ne_noContent, if_false,
    if_true, Authenticate, Authenticate.body]
  cases NewAuthInfo env c.Auth with
  | error err => rfl
  | ok auth =>
    simp only [Exec.body]
    cases GraphSONSerializer (Authenticate.authReq auth res.RequestID) with
    | error err => rfl
    | ok msg =>
      simp only [Conn.WriteMessage]
      rcases writeResults with _ | ⟨_ | err, wr⟩ <;> simp [ReadResponse]

/-- One turn of the loop on a `PartialContent` frame whose fragment decodes. -/
theorem ReadResponse.loop_partialContent (t : StatusTable) (env : Env) (c : Client)
    (message : GoBytes) (rest : List ReadEvent) (writeResults : List (Option GoError))
    (sent : List GoBytes) (dataItems : GoSlice RawMessage) (inBatchMode : Bool)
    (res : Response) (status : ResponseStatus) (result : ResponseResult)
    (items : GoSlice RawMessage)
    (hdec : Json.UnmarshalResponse message = .ok (some res))
    (hstatus : res.Status = some status) (hcode : status.Code = t.StatusPartialContent)
    (hresult : res.Result = some result)
    (hitems : Json.UnmarshalRawMessages result.Data = .ok items) :
    ReadResponse.loop t env c (.message message :: rest) writeResults sent dataItems inBatchMode
      = ReadResponse.loop t env c rest writeResults sent (dataItems.append items) true := by
  simp [ReadResponse.loop, hdec, hstatus, hcode, hresult, hitems,
    t.partialContent_ne_noContent, t.partialContent_ne_authenticate]

/-- One turn of the loop on a `Success` frame in batch mode. -/
theorem ReadResponse.loop_success_batch (t : StatusTable) (env : Env) (c : Client)
    (message : GoBytes) (rest : List ReadEvent) (writeResults : List (Option GoError))
    (sent : List GoBytes) (dataItems : GoSlice RawMessage)
    (res : Response) (status : ResponseStatus) (result : ResponseResult)
    (items : GoSlice RawMessage) (data : GoBytes)
    (hdec : Json.UnmarshalResponse message = .ok (some res))
    (hstatus : res.Status = some status) (hcode : status.Code = t.StatusSuccess)
    (hresult : res.Result = some result)
    (hitems : Json.UnmarshalRawMessages result.Data = .ok items)
    (hdata : Json.MarshalRawMessages (dataItems.append items) = .ok data) :
    ReadResponse.loop t env c (.message message :: rest) writeResults sent dataItems true
      = .returned data none ⟨rest, writeResults, sent⟩ := by
  simp [ReadResponse.loop, hdec, hstatus, hcode, hresult, hitems, hdata,
    t.success_ne_noContent, t.success_ne_authenticate, t.success_ne_partialContent]

/-- One turn of the loop on a `Success` frame outside batch mode. -/
theorem ReadResponse.loop_success_single (t : StatusTable) (env : Env) (c : Client)
    (message : GoBytes) (rest : List ReadEvent) (writeResults : List (Option GoError))
    (sent : List GoBytes) (dataItems : GoSlice RawMessage)
    (res : Response) (status : ResponseStatus) (result : ResponseResult)
    (hdec : Json.UnmarshalResponse message = .ok (some res))
    (hstatus : res.Status = some status) (hcode : status.Code = t.StatusSuccess)
    (hresult : res.Result = some result) :
    ReadResponse.loop t env c (.message message :: rest) writeResults sent dataItems false
      = .returned result.Data none ⟨rest, writeResults, sent⟩ := by
  simp [ReadResponse.loop, hdec, hstatus, hcode, hresult,
    t.success_ne_noContent, t.success_ne_authenticate, t.success_ne_partialContent]

theorem hasCode_decoded {message : GoBytes} {code : Int} (h : HasCode message code) :
    ∃ res status, Json.UnmarshalResponse message = .ok (some res) ∧ res.Status = some status
      ∧ status.Code = code := by
  unfold HasCode at h
  split at h
  · next res heq =>
    cases hs : res.Status with
    | none => simp [hs] at h
    | some status => exact ⟨res, status, heq, hs, by simpa [hs] using h⟩
  · exact h.elim

theorem isChallenge_decoded {message : GoBytes} {code : Int} {requestID : GoString}
    (h : IsChallenge message code requestID) :
    ∃ res status, Json.UnmarshalResponse message = .ok (some res) ∧ res.Status = some status
      ∧ status.Code = code ∧ res.RequestID = requestID := by
  unfold IsChallenge at h
  split at h
  · next res heq =>
    cases hs : res.Status with
    | none => simp [hs] at h
    | some status => exact ⟨res, status, heq, hs, by simpa [hs] using h.1, h.2⟩
  · exact h.elim

theorem isDataFrame_decoded {message : GoBytes} {code : Int} {data : RawMessage}
    (h : IsDataFrame message code data) :
    ∃ res status result, Json.UnmarshalResponse message = .ok (some res)
      ∧ res.Status = some status ∧ status.Code = code ∧ res.Result = some result
      ∧ result.Data = data := by
  unfold IsDataFrame at h
  split at h
  · next res heq =>
    cases hs : res.Status with
    | none => simp [hs] at h
    | some status =>
      cases hr : res.Result with
      | none => simp [hr] at h
      | some result =>
        exact ⟨res, status, result, heq, hs, by simpa [hs] using h.1, hr,
          by simpa [hr] using h.2⟩
  · exact h.elim

theorem isArrayFrame_decoded {message : GoBytes} {code : Int} {elements : List RawMessage}
    (h : IsArrayFrame message code elements) :
    ∃ res status result, Json.UnmarshalResponse message = .ok (some res)
      ∧ res.Status = some status ∧ status.Code = code ∧ res.Result = some result
      ∧ Json.UnmarshalRawMessages result.Data = .ok (some elements) := by
  unfold IsArrayFrame at h
  split at h
  · next res heq =>
    cases hs : res.Status with
    | none => simp [hs] at h
    | some status =>
      cases hr : res.Result with
      | none => simp [hr] at h
      | some result =>
        exact ⟨res, status, result, heq, hs, by simpa [hs] using h.1, hr,
          by simpa [hr] using h.2⟩
  · exact h.elim

/-- One turn of the loop on a message that leaves `res` nil: the dereference of
`res.Status` panics. -/
theorem ReadResponse.loop_nil_response (t : StatusTable) (env : Env) (c : Client)
    (message : GoBytes) (rest : List ReadEvent) (writeResults : List (Option GoError))
    (sent : List GoBytes) (dataItems : GoSlice RawMessage) (inBatchMode : Bool)
    (hdec : Json.UnmarshalResponse message = .ok none) :
    ReadResponse.loop t env c (.message message :: rest) writeResults sent dataItems inBatchMode
      = .panicked ⟨rest, writeResults, sent⟩ := by
  simp [ReadResponse.loop, hdec]

/-- One turn of the loop on a frame without status: the dereference of `res.Status.Code`
panics. -/
theorem ReadResponse.loop_nil_status (t : StatusTable) (env : Env) (c : Client)
    (message : GoBytes) (rest : List ReadEvent) (writeResults : List (Option GoError))
    (sent : List GoBytes) (dataItems : GoSlice RawMessage) (inBatchMode : Bool)
    (res : Response)
    (hdec : Json.UnmarshalResponse message = .ok (some res)) (hstatus : res.Status = none) :
    ReadResponse.loop t env c (.message message :: rest) writeResults sent dataItems inBatchMode
      = .panicked ⟨rest, writeResults, sent⟩ := by
  simp [ReadResponse.loop, hdec, hstatus]

/-- One turn of the loop on a `Success` or `PartialContent` frame without result: the
dereference of `res.Result.Data` panics. -/
theorem ReadResponse.loop_nil_result (t : StatusTable) (env : Env) (c : Client)
    (message : GoBytes) (rest : List ReadEvent) (writeResults : List (Option GoError))
    (sent : List GoBytes) (dataItems : GoSlice RawMessage) (inBatchMode : Bool)
    (res : Response) (status : ResponseStatus)
    (hdec : Json.UnmarshalResponse message = .ok (some res))
    (hstatus : res.Status = some status)
    (hcode : status.Code = t.StatusSuccess ∨ status.Code = t.StatusPartialContent)
    (hresult : res.Result = none) :
    ReadResponse.loop t env c (.message message :: rest) writeResults sent dataItems inBatchMode
      = .panicked ⟨rest, writeResults, sent⟩ := by
  rcases hcode with hcode | hcode
  · simp [ReadResponse.loop, hdec, hstatus, hcode, hresult, t.success_ne_noContent,
      t.success_ne_authenticate, t.success_ne_partialContent]
  · simp [ReadResponse.loop, hdec, hstatus, hcode, hresult, t.partialContent_ne_noContent,
      t.partialContent_ne_authenticate]

/-! ## Batches -/

theorem accumulated_append (xs ys : List RawMessage) :
    (accumulated xs).append (some ys) = accumulated (xs ++ ys) := by
  unfold accumulated GoSlice.append
  cases ys with
  | nil => simp
  | cons y ys =>
    by_cases hx : xs = [] <;> simp [hx]

/-- The loop over `PartialContent` frames that carry arrays: the elements are appended in
the order of arrival and the loop is in batch mode afterwards. -/
theorem ReadResponse.loop_partials (t : StatusTable) (env : Env) (c : Client)
    (parts : List (GoBytes × List RawMessage)) (rest : List ReadEvent)
    (writeResults : List (Option GoError)) (sent : List GoBytes)
    (elements : List RawMessage) (inBatchMode : Bool)
    (hparts : ∀ p ∈ parts, IsArrayFrame p.1 t.StatusPartialContent p.2) :
    ReadResponse.loop t env c (parts.map (fun p => ReadEvent.message p.1) ++ rest) writeResults
        sent (accumulated elements) inBatchMode
      = ReadResponse.loop t env c rest writeResults sent
          (accumulated (elements ++ parts.flatMap fun p => p.2))
          (inBatchMode || !parts.isEmpty) := by
  induction parts generalizing elements inBatchMode with
  | nil => simp
  | cons p parts ih =>
    obtain ⟨res, status, result, hdec, hstatus, hcode, hresult, hitems⟩ :=
      isArrayFrame_decoded (hparts p (List.mem_cons_self _ _))
    simp only [List.map_cons, List.cons_append]
    rw [ReadResponse.loop_partialContent t env c p.1 _ _ _ _ _ res status result (some p.2)
      hdec hstatus hcode hresult hitems, accumulated_append,
      ih _ _ (fun q hq => hparts q (List.mem_cons_of_mem _ hq))]
    simp [List.flatMap_cons, List.append_assoc]

/-- Batch reassembly: after at least one `PartialContent` frame, the `Success` frame ends
the exchange, without error, with the encoding of the slice of all elements in the order
of arrival: the array of the compacted elements, or `null` when there is no element. -/
theorem ReadResponse_batch (t : StatusTable) (env : Env) (c : Client)
    (parts : List (GoBytes × List RawMessage)) (last : GoBytes) (final : List RawMessage)
    (rest : List ReadEvent) (writeResults : List (Option GoError)) (sent : List GoBytes)
    (hk : parts ≠ [])
    (hparts : ∀ p ∈ parts, IsArrayFrame p.1 t.StatusPartialContent p.2)
    (hlast : IsArrayFrame last t.StatusSuccess final) :
    ReadResponse t env c
        ⟨parts.map (fun p => ReadEvent.message p.1) ++ .message last :: rest, writeResults, sent⟩
      = .returned
          (if (parts.flatMap fun p => p.2) ++ final = [] then goStr "null"
            else 91 :: Json.joinComma
              (((parts.flatMap fun p => p.2) ++ final).map (Json.compactBytes false false))
              ++ [93])
          none ⟨rest, writeResults, sent⟩ := by
  obtain ⟨res, status, result, hdec, hstatus, hcode, hresult, hitems⟩ :=
    isArrayFrame_decoded hlast
  have h0 : (none : GoSlice RawMessage) = accumulated [] := rfl
  have hb : (false || !parts.isEmpty) = true := by
    cases parts with
    | nil => exact absurd rfl hk
    | cons p ps => rfl
  have hvalid : ∀ e ∈ (parts.flatMap fun p => p.2) ++ final, Json.Valid e = true := by
    intro e he
    rcases List.mem_append.1 he with he | he
    · obtain ⟨p, hp, hep⟩ := List.mem_flatMap.1 he
      obtain ⟨_, _, result1, _, _, _, _, hitems1⟩ := isArrayFrame_decoded (hparts p hp)
      exact Json.valid_UnmarshalRawMessages _ _ hitems1 e hep
    · exact Json.valid_UnmarshalRawMessages _ _ hitems e he
  unfold ReadResponse
  simp only []
  rw [h0, ReadResponse.loop_partials t env c parts _ _ _ [] false hparts, hb]
  apply ReadResponse.loop_success_batch t env c last rest _ _ _ res status result (some final)
    _ hdec hstatus hcode hresult hitems
  rw [accumulated_append, List.nil_append]
  unfold accumulated
  by_cases hflat : (parts.flatMap fun p => p.2) ++ final = []
  · simp only [hflat, if_true]
    rfl
  · simp only [hflat, if_false]
    exact Json.MarshalRawMessages_valid _ hvalid

/-- The frames `[1,2]`, `[3]`, then `Success` with `[4]` give `[1,2,3,4]`. -/
theorem ReadResponse_batch_example :
    ReadResponse tinkerpop emptyEnv {}
        ⟨[.message (frame "r" 206 "[1,2]"), .message (frame "r" 206 "[3]"),
          .message (frame "r" 200 "[4]")], [], []⟩
      = .returned (goStr "[1,2,3,4]") none ⟨[], [], []⟩ := by
  decide!

/-! ## Serialisation of requests -/

/-- The keys `@type` and `@value` of the identifier map are written in this order. -/
theorem Json.marshalStringMap_uuid (id : GoString) :
    Json.marshalStringMap [(goStr "@type", goStr "g:UUID"), (goStr "@value", id)]
      = goStr "\x7b\"@type\":\"g:UUID\",\"@value\":" ++ Json.appendString id ++ goStr "\x7d" := by
  have hle : Json.stringLe (goStr "@type") (goStr "@value") = true := by decide
  have h1 : Json.appendString (goStr "@type") ++ 58 :: Json.appendString (goStr "g:UUID")
      = goStr "\"@type\":\"g:UUID\"" := by decide
  have h2 : Json.appendString (goStr "@value") = goStr "\"@value\"" := by decide
  have h3 : goStr "\x7b\"@type\":\"g:UUID\",\"@value\":"
      = 123 :: (goStr "\"@type\":\"g:UUID\"" ++ 44 :: (goStr "\"@value\"" ++ [58])) := by decide
  have h4 : goStr "\x7d" = [125] := by decide
  simp only [Json.marshalStringMap, Json.sortedEntries, List.insertionSort, List.orderedInsert,
    hle, if_true, List.map, Json.joinComma, h1, h2, h3, h4]
  simp [List.append_assoc]

theorem Json.marshalArgs_sasl (sasl : GoString) :
    ∃ text, Json.marshalArgs (some { Sasl := sasl }) = some text := by
  simp [Json.marshalArgs, Json.marshalRequestArgs]

theorem GraphSONSerializer_authReq (auth : AuthInfo) (requestID : GoString) :
    GraphSONSerializer (Authenticate.authReq auth requestID)
      = .ok (Authenticate.message auth requestID) := by
  obtain ⟨text, htext⟩ := Json.marshalArgs_sasl
    (StdEncoding.EncodeToString ([0] ++ auth.User ++ [0] ++ auth.Pass))
  have h : ∃ msg, GraphSONSerializer (Authenticate.authReq auth requestID) = .ok msg := by
    simp only [GraphSONSerializer, NewFormattedReq, Json.MarshalFormattedReq,
      Authenticate.authReq, htext]
    exact ⟨_, rfl⟩
  obtain ⟨msg, hmsg⟩ := h
  simp [Authenticate.message, hmsg]

/-! ## Credentials and the authentication request -/

theorem NewAuthInfo.loop_append (env : Env) (auth : AuthInfo) (options : List OptAuth)
    (op : OptAuth) (more : List OptAuth) :
    NewAuthInfo.loop env auth (options ++ op :: more)
      = match NewAuthInfo.loop env auth options with
        | .error err => .error err
        | .ok auth1 =>
          match op env auth1 with
          | (_, some err) => .error err
          | (auth2, none) => NewAuthInfo.loop env auth2 more := by
  induction options generalizing auth with
  | nil => simp [NewAuthInfo.loop]
  | cons o options ih =>
    simp only [List.cons_append, NewAuthInfo.loop]
    rcases o env auth with ⟨auth1, _ | err⟩
    · simpa using ih auth1
    · simp

/-- With credentials at hand and a write that succeeds, `Authenticate` writes the
authentication message and calls `ReadResponse`. -/
theorem Authenticate_sends (t : StatusTable) (env : Env) (c : Client) (auth : AuthInfo)
    (requestID : GoString) (incoming : List ReadEvent) (writeResults : List (Option GoError))
    (sent : List GoBytes) (hauth : NewAuthInfo env c.Auth = .ok auth) :
    Authenticate t env c requestID ⟨incoming, none :: writeResults, sent⟩
      = ReadResponse t env c
          ⟨incoming, writeResults, sent ++ [Authenticate.message auth requestID]⟩ := by
  simp [Authenticate, Authenticate.body, hauth, Exec.body, GraphSONSerializer_authReq,
    Conn.WriteMessage]

/-- Without credentials `Authenticate` returns the error and leaves the connection alone. -/
theorem Authenticate_fails (t : StatusTable) (env : Env) (c : Client) (err : GoError)
    (requestID : GoString) (conn : Conn) (hauth : NewAuthInfo env c.Auth = .error err) :
    Authenticate t env c requestID conn = .returned [] (some err) conn := by
  simp [Authenticate, Authenticate.body, hauth]

/-! ## The cluster: connecting, configuring, splitting -/

theorem CreateConnection.loop_first (dial : Dialer) (post : List Url.URL) (s : Url.URL)
    (c : NetConn) :
    ∀ (pre : List Url.URL) (dialled : List GoString),
      (∀ (i : Nat) (h : i < pre.length),
        ∃ e, dial (dialled.length + i) (pre.get ⟨i, h⟩).Host = .error e) →
      dial (dialled.length + pre.length) s.Host = .ok c →
      CreateConnection.loop dial dialled (pre ++ s :: post)
        = (some (c, s), dialled ++ (pre ++ [s]).map (fun u => u.Host)) := by
  intro pre
  induction pre with
  | nil =>
    intro dialled _ hs
    simp only [List.length_nil, Nat.add_zero] at hs
    simp [CreateConnection.loop, hs]
  | cons p pre ih =>
    intro dialled hpre hs
    obtain ⟨e, he⟩ := hpre 0 (by simp)
    simp only [Nat.add_zero, List.get_eq_getElem, List.getElem_cons_zero] at he
    have hrest : ∀ (i : Nat) (h : i < pre.length),
        ∃ e, dial ((dialled ++ [p.Host]).length + i) (pre.get ⟨i, h⟩).Host = .error e := by
      intro i h
      have := hpre (i + 1) (by simp; omega)
      simpa [Nat.add_assoc, Nat.add_comm 1 i] using this
    have hs1 : dial ((dialled ++ [p.Host]).length + pre.length) s.Host = .ok c := by
      simpa [Nat.add_assoc, Nat.add_comm 1 pre.length] using hs
    simp [CreateConnection.loop, he, ih _ hrest hs1]

theorem CreateConnection.loop_none (dial : Dialer) :
    ∀ (servers : List Url.URL) (dialled : List GoString),
      (CreateConnection.loop dial dialled servers).1 = none ↔
        ∀ (i : Nat) (h : i < servers.length),
          ∃ e, dial (dialled.length + i) (servers.get ⟨i, h⟩).Host = .error e := by
  intro servers
  induction servers with
  | nil => intro dialled; simp [CreateConnection.loop]
  | cons p rest ih =>
    intro dialled
    cases hp : dial dialled.length p.Host with
    | ok c =>
      simp only [CreateConnection.loop, hp]
      constructor
      · intro h; simp at h
      · intro h
        obtain ⟨e, he⟩ := h 0 (by simp)
        simp [hp] at he
    | error e =>
      simp only [CreateConnection.loop, hp]
      rw [ih]
      constructor
      · intro h i hi
        cases i with
        | zero => exact ⟨e, by simpa using hp⟩
        | succ j =>
          have := h j (by simpa using hi)
          simpa [Nat.add_assoc, Nat.add_comm 1 j] using this
      · intro h i hi
        have := h (i + 1) (by simpa using hi)
        simpa [Nat.add_assoc, Nat.add_comm 1 i] using this

theorem CreateConnection_err (dial : Dialer) (servers : List Url.URL) :
    (CreateConnection dial servers).err ≠ none ↔
      (CreateConnection.loop dial [] servers).1 = none := by
  unfold CreateConnection
  rcases h : CreateConnection.loop dial [] servers with ⟨_ | ⟨c, s⟩, dialled⟩ <;> simp

theorem Strings.Split_ne_nil (sep : Nat) : ∀ s : GoString, Strings.Split s sep ≠ [] := by
  intro s
  induction s with
  | nil => simp [Strings.Split]
  | cons c cs ih =>
    unfold Strings.Split
    split
    · simp
    · split <;> simp

theorem Strings.Split_piece (sep : Nat) :
    ∀ p : GoString, sep ∉ p → Strings.Split p sep = [p] := by
  intro p
  induction p with
  | nil => intro _; simp [Strings.Split]
  | cons c cs ih =>
    intro h
    simp only [List.mem_cons, not_or] at h
    have hc : c ≠ sep := fun e => h.1 e.symm
    simp [Strings.Split, hc, ih h.2]

theorem Strings.Split_append (sep : Nat) (r : GoString) :
    ∀ p : GoString, sep ∉ p →
      Strings.Split (p ++ sep :: r) sep = p :: Strings.Split r sep := by
  intro p
  induction p with
  | nil => intro _; simp [Strings.Split]
  | cons c cs ih =>
    intro h
    simp only [List.mem_cons, not_or] at h
    have hc : c ≠ sep := fun e => h.1 e.symm
    simp [Strings.Split, hc, ih h.2]

/-- Splitting undoes joining: pieces without the separator, joined by it, are split into
the same pieces. -/
theorem Strings.Split_Join (sep : Nat) :
    ∀ pieces : List GoString, pieces ≠ [] → (∀ p ∈ pieces, sep ∉ p) →
      Strings.Split (Strings.Join pieces sep) sep = pieces := by
  intro pieces
  induction pieces with
  | nil => intro h; exact absurd rfl h
  | cons p ps ih =>
    intro _ hsep
    cases ps with
    | nil => simpa [Strings.Join] using Strings.Split_piece sep p (hsep p (by simp))
    | cons q qs =>
      have hrest := ih (by simp) (fun x hx => hsep x (List.mem_cons_of_mem _ hx))
      simp only [Strings.Join]
      rw [Strings.Split_append sep _ p (hsep p (by simp)), hrest]

theorem SplitServers.loop_parsed (parseText : Url.TextParser) (u : GoString → Url.URL) :
    ∀ (pieces : List GoString) (servers : List Url.URL),
      (∀ p ∈ pieces, Url.Parse parseText (Strings.TrimSpace p) = .ok (u p)) →
      SplitServers.loop parseText servers pieces = (servers ++ pieces.map u, none) := by
  intro pieces
  induction pieces with
  | nil => intro servers _; simp [SplitServers.loop]
  | cons p ps ih =>
    intro servers h
    simp [SplitServers.loop, h p (by simp),
      ih (servers ++ [u p]) (fun x hx => h x (List.mem_cons_of_mem _ hx))]

/-- The part of C12 that holds: when `GREMLIN_SERVERS` is unset, empty or white space only,
`NewCluster` without addresses fails and leaves the server list empty. -/
theorem NewCluster_no_address (parseText : Url.TextParser) (env : Env)
    (h : Strings.TrimSpace (Getenv env (goStr "GREMLIN_SERVERS")) = []) :
    NewCluster parseText env []
      = ([], some (.new (goStr ("No servers set. Configure servers to connect to using the "
          ++ "GREMLIN_SERVERS environment variable.")))) := by
  simp [NewCluster, h]

theorem NewCluster_no_address_examples (parseText : Url.TextParser) :
    (NewCluster parseText emptyEnv []).1 = []
    ∧ (NewCluster parseText emptyEnv []).2 ≠ none
    ∧ (NewCluster parseText (serversEnv []) []).2 ≠ none
    ∧ (NewCluster parseText (serversEnv (goStr " \t\r\n ")) []).2 ≠ none := by
  refine ⟨?_, ?_, ?_, ?_⟩
  · rw [NewCluster_no_address parseText emptyEnv (by decide!)]
  · rw [NewCluster_no_address parseText emptyEnv (by decide!)]; simp
  · rw [NewCluster_no_address parseText (serversEnv []) (by decide!)]; simp
  · rw [NewCluster_no_address parseText (serversEnv (goStr " \t\r\n ")) (by decide!)]; simp

/-! ## What TrimSpace removes -/

theorem Strings.trimLeft_space (c : Nat) (r : GoString) (h : Strings.isAsciiSpace c = true) :
    Strings.trimLeft (c :: r) = Strings.trimLeft r := by
  rw [Strings.trimLeft.eq_def]
  simp only [h, if_true]

theorem Strings.isSpace2_ascii_left (c b1 : Nat) (hc : c < 128) :
    Strings.isSpace2 c b1 = false := by
  have : c ≠ 194 := by omega
  simp [Strings.isSpace2, this]

theorem Strings.isSpace3_ascii_left (c b1 b2 : Nat) (hc : c < 128) :
    Strings.isSpace3 c b1 b2 = false := by
  have h1 : c ≠ 225 := by omega
  have h2 : c ≠ 226 := by omega
  have h3 : c ≠ 227 := by omega
  simp [Strings.isSpace3, h1, h2, h3]

theorem Strings.isSpace2_ascii_right (c b1 : Nat) (hc : c < 128) :
    Strings.isSpace2 b1 c = false := by
  have h1 : c ≠ 133 := by omega
  have h2 : c ≠ 160 := by omega
  simp [Strings.isSpace2, h1, h2]

theorem Strings.isSpace3_ascii_right (c b1 b2 : Nat) (hc : c < 128) :
    Strings.isSpace3 b2 b1 c = false := by
  have h1 : c ≠ 128 := by omega
  have h2 : ¬ 128 ≤ c := by omega
  have h3 : c ≠ 168 := by omega
  have h4 : c ≠ 169 := by omega
  have h5 : c ≠ 175 := by omega
  have h6 : c ≠ 159 := by omega
  simp [Strings.isSpace3, h1, h2, h3, h4, h5, h6]

theorem Strings.trimLeft_ascii (c : Nat) (r : GoString) (h : Strings.isAsciiSpace c = false)
    (hc : c < 128) : Strings.trimLeft (c :: r) = c :: r := by
  rcases r with _ | ⟨b1, _ | ⟨b2, r2⟩⟩ <;>
    simp [Strings.trimLeft, h, Strings.isSpace2_ascii_left _ _ hc,
      Strings.isSpace3_ascii_left _ _ _ hc]

theorem Strings.trimRightReversed_space (c : Nat) (r : GoString)
    (h : Strings.isAsciiSpace c = true) :
    Strings.trimRightReversed (c :: r) = Strings.trimRightReversed r := by
  rw [Strings.trimRightReversed.eq_def]
  simp only [h, if_true]

theorem Strings.trimRightReversed_ascii (c : Nat) (r : GoString)
    (h : Strings.isAsciiSpace c = false) (hc : c < 128) :
    Strings.trimRightReversed (c :: r) = c :: r := by
  rcases r with _ | ⟨b1, _ | ⟨b2, r2⟩⟩ <;>
    simp [Strings.trimRightReversed, h, Strings.isSpace2_ascii_right _ _ hc,
      Strings.isSpace3_ascii_right _ _ _ hc]

theorem Strings.trimLeft_spaces (lead x : GoString)
    (h : ∀ c ∈ lead, Strings.isAsciiSpace c = true) :
    Strings.trimLeft (lead ++ x) = Strings.trimLeft x := by
  induction lead with
  | nil => rfl
  | cons c cs ih =>
    rw [List.cons_append, Strings.trimLeft_space c _ (h c (List.mem_cons_self _ _))]
    exact ih (fun y hy => h y (List.mem_cons_of_mem _ hy))

theorem Strings.trimRightReversed_spaces (lead x : GoString)
    (h : ∀ c ∈ lead, Strings.isAsciiSpace c = true) :
    Strings.trimRightReversed (lead ++ x) = Strings.trimRightReversed x := by
  induction lead with
  | nil => rfl
  | cons c cs ih =>
    rw [List.cons_append, Strings.trimRightReversed_space c _ (h c (List.mem_cons_self _ _))]
    exact ih (fun y hy => h y (List.mem_cons_of_mem _ hy))

/-- An entry that starts and ends with an ASCII byte that is no white space, with ASCII
white space around it, is trimmed to the entry itself. -/
theorem Strings.TrimSpace_surrounded (lead e trail : GoString)
    (hl : ∀ c ∈ lead, Strings.isAsciiSpace c = true)
    (ht : ∀ c ∈ trail, Strings.isAsciiSpace c = true)
    (hfirst : ∃ a r, e = a :: r ∧ a < 128 ∧ Strings.isAsciiSpace a = false)
    (hlast : ∃ z r, e.reverse = z :: r ∧ z < 128 ∧ Strings.isAsciiSpace z = false) :
    Strings.TrimSpace (lead ++ e ++ trail) = e := by
  obtain ⟨a, r, he, ha, hsa⟩ := hfirst
  obtain ⟨z, r', hrev, hz, hsz⟩ := hlast
  have h1 : Strings.trimLeft (lead ++ e ++ trail) = e ++ trail := by
    rw [List.append_assoc, Strings.trimLeft_spaces lead _ hl, he, List.cons_append,
      Strings.trimLeft_ascii a _ hsa ha]
  have h2 : Strings.trimRightReversed (e ++ trail).reverse = e.reverse := by
    rw [List.reverse_append, Strings.trimRightReversed_spaces trail.reverse _
      (fun c hc => ht c (List.mem_reverse.1 hc)), hrev,
      Strings.trimRightReversed_ascii z _ hsz hz]
  unfold Strings.TrimSpace
  rw [h1, h2, List.reverse_reverse]

/-! ## Errors come without a payload -/

theorem NoPayloadOnError.of_error (err : Option GoError) (conn : Conn) :
    NoPayloadOnError (.returned [] err conn) := by
  intro data e conn1 h
  cases h
  rfl

theorem NoPayloadOnError.of_success (data : GoBytes) (conn : Conn) :
    NoPayloadOnError (.returned data none conn) := by
  intro d e conn1 h
  cases h

theorem NoPayloadOnError.of_panicked (conn : Conn) : NoPayloadOnError (.panicked conn) := by
  intro d e conn1 h
  cases h

theorem NoPayloadOnError.of_blocked (conn : Conn) : NoPayloadOnError (.blocked conn) := by
  intro d e conn1 h
  cases h

/-- The body of `Exec` returns no payload with an error if the read that follows does not. -/
theorem Exec_body_noPayload (readResponse : Conn → Outcome) (req : Request) (conn : Conn)
    (h : ∀ conn1, NoPayloadOnError (readResponse conn1)) :
    NoPayloadOnError (Exec.body readResponse req conn) := by
  unfold Exec.body
  split
  · exact NoPayloadOnError.of_error _ _
  · split
    · exact NoPayloadOnError.of_blocked _
    · exact NoPayloadOnError.of_error _ _
    · exact h _

/-- The body of `Authenticate` returns no payload with an error if the read that follows
does not. -/
theorem Authenticate_body_noPayload (env : Env) (readResponse : Conn → Outcome) (c : Client)
    (requestID : GoString) (conn : Conn)
    (h : ∀ conn1, NoPayloadOnError (readResponse conn1)) :
    NoPayloadOnError (Authenticate.body env readResponse c requestID conn) := by
  unfold Authenticate.body
  split
  · exact NoPayloadOnError.of_error _ _
  · exact Exec_body_noPayload _ _ _ h

/-- The read loop, from any state, returns no payload with an error. -/
theorem ReadResponse.loop_noPayload (t : StatusTable) (env : Env) (c : Client) :
    ∀ (incoming : List ReadEvent) (writeResults : List (Option GoError)) (sent : List GoBytes)
      (dataItems : GoSlice RawMessage) (inBatchMode : Bool),
      NoPayloadOnError
        (ReadResponse.loop t env c incoming writeResults sent dataItems inBatchMode) := by
  intro incoming
  induction incoming with
  | nil =>
    intro writeResults sent dataItems inBatchMode
    exact NoPayloadOnError.of_blocked _
  | cons ev rest ih =>
    intro writeResults sent dataItems inBatchMode
    cases ev with
    | failure err => exact NoPayloadOnError.of_error _ _
    | message message =>
      unfold ReadResponse.loop
      split
      · exact NoPayloadOnError.of_error _ _
      · exact NoPayloadOnError.of_panicked _
      · split
        · exact NoPayloadOnError.of_panicked _
        · split
          · exact NoPayloadOnError.of_success _ _
          · split
            · exact Authenticate_body_noPayload _ _ _ _ _ (fun conn1 => ih _ _ _ _)
            · split
              · split
                · exact NoPayloadOnError.of_panicked _
                · split
                  · exact NoPayloadOnError.of_error _ _
                  · exact ih _ _ _ _
              · split
                · split
                  · exact NoPayloadOnError.of_panicked _
                  · split
                    · split
                      · exact NoPayloadOnError.of_error _ _
                      · split
                        · exact NoPayloadOnError.of_error _ _
                        · exact NoPayloadOnError.of_success _ _
                    · exact NoPayloadOnError.of_success _ _
                · split
                  · exact NoPayloadOnError.of_error _ _
                  · exact NoPayloadOnError.of_error _ _

theorem Exec_noPayload (t : StatusTable) (env : Env) (c : Client) (req : Request)
    (conn : Conn) : NoPayloadOnError (Exec t env c req conn) :=
  Exec_body_noPayload _ _ _ (fun _ => ReadResponse.loop_noPayload t env c _ _ _ _ _)

theorem Authenticate_noPayload (t : StatusTable) (env : Env) (c : Client)
    (requestID : GoString) (conn : Conn) :
    NoPayloadOnError (Authenticate t env c requestID conn) :=
  Authenticate_body_noPayload _ _ _ _ _
    (fun _ => ReadResponse.loop_noPayload t env c _ _ _ _ _)

/-! ## The setters -/

theorem Memory.setArg_some (m : Memory) (req a : Addr) (cell : RequestCell)
    (args : RequestArgs) (assign : RequestArgs → RequestArgs)
    (hreq : m.requests[req]? = some cell) (hargs : cell.Args = some a)
    (ha : m.args[a]? = some args) :
    m.setArg req assign = some ({ m with args := m.args.set a (assign args) }, req) := by
  simp [Memory.setArg, hreq, hargs, ha]

/-- Two assignments through `req.Args`, one after the other, are the assignment of their
composition. -/
theorem Memory.setArg_setArg (m : Memory) (req : Addr) (f g : RequestArgs → RequestArgs) :
    (match m.setArg req f with
      | none => none
      | some (m1, req1) => m1.setArg req1 g) = m.setArg req (g ∘ f) := by
  unfold Memory.setArg
  cases hreq : m.requests[req]? with
  | none => rfl
  | some cell =>
    cases hargs : cell.Args with
    | none => simp [hargs]
    | some a =>
      cases ha : m.args[a]? with
      | none => simp [hargs, ha]
      | some args =>
        have hlt : a < m.args.length := by
          rcases Nat.lt_or_ge a m.args.length with h | h
          · exact h
          · rw [List.getElem?_eq_none h] at ha; cases ha
        simp [hreq, hargs, ha, List.getElem?_set, hlt]

theorem Memory.setArg_SetProcessor (m : Memory) (req : Addr) (f : RequestArgs → RequestArgs)
    (p : GoString) :
    (match m.setArg req f with
      | none => none
      | some (m1, req1) => m1.SetProcessor req1 p)
    = (match m.SetProcessor req p with
      | none => none
      | some (m1, req1) => m1.setArg req1 f) := by
  unfold Memory.setArg Memory.SetProcessor
  cases hreq : m.requests[req]? with
  | none => rfl
  | some cell =>
    have hlt : req < m.requests.length := by
      rcases Nat.lt_or_ge req m.requests.length with h | h
      · exact h
      · rw [List.getElem?_eq_none h] at hreq; cases hreq
    cases hargs : cell.Args with
    | none => simp [List.getElem?_set, hlt, hargs]
    | some a =>
      cases ha : m.args[a]? with
      | none => simp [List.getElem?_set, hlt, hargs, ha]
      | some args => simp [List.getElem?_set, hlt, hargs, ha, hreq]

theorem Memory.SetProcessor_SetProcessor (m : Memory) (req : Addr) (p q : GoString) :
    (match m.SetProcessor req p with
      | none => none
      | some (m1, req1) => m1.SetProcessor req1 q) = m.SetProcessor req q := by
  unfold Memory.SetProcessor
  cases hreq : m.requests[req]? with
  | none => rfl
  | some cell =>
    have hlt : req < m.requests.length := by
      rcases Nat.lt_or_ge req m.requests.length with h | h
      · exact h
      · rw [List.getElem?_eq_none h] at hreq; cases hreq
    simp [List.getElem?_set, hlt]

theorem Memory.setArg_comm (m : Memory) (req : Addr) (f g : RequestArgs → RequestArgs)
    (h : ∀ args, g (f args) = f (g args)) :
    (match m.setArg req f with
      | none => none
      | some (m1, req1) => m1.setArg req1 g)
    = (match m.setArg req g with
      | none => none
      | some (m1, req1) => m1.setArg req1 f) := by
  rw [Memory.setArg_setArg, Memory.setArg_setArg]
  congr 1
  funext args
  exact h args

theorem Setter.chain_comm (m : Memory) (req : Addr) (s1 s2 : Setter)
    (h : s1.field ≠ s2.field) : s1.chain s2 m req = s2.chain s1 m req := by
  cases s1 <;> cases s2 <;>
    first
    | exact absurd rfl h
    | exact Memory.setArg_comm m req _ _ (fun _ => rfl)
    | exact Memory.setArg_SetProcessor m req _ _
    | exact (Memory.setArg_SetProcessor m req _ _).symm

theorem Setter.chain_last (m : Memory) (req : Addr) (s1 s2 : Setter)
    (h : s1.field = s2.field) : s1.chain s2 m req = s2.call m req := by
  cases s1 <;> cases s2 <;>
    first
    | exact Memory.setArg_setArg m req _ _
    | exact Memory.SetProcessor_SetProcessor m req _ _
    | (simp [Setter.field] at h)

theorem Setter.call_read (m : Memory) (req a : Addr) (cell : RequestCell)
    (args : RequestArgs) (hreq : m.requests[req]? = some cell) (hargs : cell.Args = some a)
    (ha : m.args[a]? = some args) (s : Setter) :
    (match s.call m req with
      | none => none
      | some (m1, req1) => m1.read req1)
      = s.onValue ⟨cell.RequestID, cell.Op, cell.Processor, some args⟩ := by
  have hlt : a < m.args.length := by
    rcases Nat.lt_or_ge a m.args.length with h | h
    · exact h
    · rw [List.getElem?_eq_none h] at ha; cases ha
  have hlt2 : req < m.requests.length := by
    rcases Nat.lt_or_ge req m.requests.length with h | h
    · exact h
    · rw [List.getElem?_eq_none h] at hreq; cases hreq
  cases s <;>
    simp [Setter.call, Setter.onValue, Memory.Bindings, Memory.ManageTransaction,
      Memory.Aliases, Memory.Session, Memory.SetProcessor, Memory.setArg_some m req a cell args
      _ hreq hargs ha, Memory.read, hreq, hargs, ha, List.getElem?_set, hlt, hlt2,
      Request.Bindings, Request.ManageTransaction, Request.Aliases, Request.Session,
      Request.SetProcessor]

/-! ## UTF-8: a decoded rune is encoded as the bytes it was decoded from -/

theorem Utf8.DecodeRune_two (b b1 : Nat) (rest : GoBytes) (h2 : 194 ≤ b ∧ b ≤ 223) :
    Utf8.DecodeRune (b :: b1 :: rest)
      = if Utf8.isCont b1 = true then ((b - 192) * 64 + (b1 - 128), 2)
        else (Utf8.RuneError, 1) := by
  have hb0 : ¬ b < 128 := by omega
  rw [Utf8.DecodeRune, if_neg hb0, if_pos h2]

theorem Utf8.DecodeRune_three (b b1 b2 : Nat) (rest : GoBytes) (h3 : 224 ≤ b ∧ b ≤ 239) :
    Utf8.DecodeRune (b :: b1 :: b2 :: rest)
      = if (if b = 224 then 160 else 128) ≤ b1 ∧ b1 ≤ (if b = 237 then 159 else 191)
            ∧ Utf8.isCont b2 = true then
          ((b - 224) * 4096 + (b1 - 128) * 64 + (b2 - 128), 3)
        else (Utf8.RuneError, 1) := by
  have hb0 : ¬ b < 128 := by omega
  have h2 : ¬ (194 ≤ b ∧ b ≤ 223) := by omega
  rw [Utf8.DecodeRune, if_neg hb0, if_neg h2, if_pos h3]

theorem Utf8.DecodeRune_four (b b1 b2 b3 : Nat) (rest : GoBytes) (h4 : 240 ≤ b ∧ b ≤ 244) :
    Utf8.DecodeRune (b :: b1 :: b2 :: b3 :: rest)
      = if (if b = 240 then 144 else 128) ≤ b1 ∧ b1 ≤ (if b = 244 then 143 else 191)
            ∧ Utf8.isCont b2 = true ∧ Utf8.isCont b3 = true then
          ((b - 240) * 262144 + (b1 - 128) * 4096 + (b2 - 128) * 64 + (b3 - 128), 4)
        else (Utf8.RuneError, 1) := by
  have hb0 : ¬ b < 128 := by omega
  have h2 : ¬ (194 ≤ b ∧ b ≤ 223) := by omega
  have h3 : ¬ (224 ≤ b ∧ b ≤ 239) := by omega
  rw [Utf8.DecodeRune, if_neg hb0, if_neg h2, if_neg h3, if_pos h4]

theorem Utf8.isCont_bounds {b : Nat} (h : Utf8.isCont b = true) : 128 ≤ b ∧ b ≤ 191 := by
  simpa [Utf8.isCont] using h

theorem Utf8.EncodeRune_two (b b1 : Nat) (h2 : 194 ≤ b ∧ b ≤ 223) (h1 : 128 ≤ b1 ∧ b1 ≤ 191) :
    Utf8.EncodeRune ((b - 192) * 64 + (b1 - 128)) = [b, b1] := by
  generalize hr : (b - 192) * 64 + (b1 - 128) = r
  have e1 : ¬ r < 128 := by omega
  have e2 : r < 2048 := by omega
  have e3 : 192 + r / 64 = b := by omega
  have e4 : 128 + r % 64 = b1 := by omega
  rw [Utf8.EncodeRune, if_neg e1, if_pos e2, e3, e4]

theorem Utf8.EncodeRune_three (b b1 b2 : Nat) (h3 : 224 ≤ b ∧ b ≤ 239)
    (hlo : b ≠ 224 ∨ 160 ≤ b1) (hhi : b ≠ 237 ∨ b1 ≤ 159)
    (h1 : 128 ≤ b1 ∧ b1 ≤ 191) (h2 : 128 ≤ b2 ∧ b2 ≤ 191) :
    Utf8.EncodeRune ((b - 224) * 4096 + (b1 - 128) * 64 + (b2 - 128)) = [b, b1, b2] := by
  generalize hr : (b - 224) * 4096 + (b1 - 128) * 64 + (b2 - 128) = r
  have e1 : ¬ r < 128 := by omega
  have e2 : ¬ r < 2048 := by omega
  have e3 : ¬ ((55296 ≤ r ∧ r ≤ 57343) ∨ 1114111 < r) := by omega
  have e4 : r < 65536 := by omega
  have e5 : 224 + r / 4096 = b := by omega
  have e6 : 128 + r / 64 % 64 = b1 := by omega
  have e7 : 128 + r % 64 = b2 := by omega
  rw [Utf8.EncodeRune, if_neg e1, if_neg e2, if_neg e3, if_pos e4, e5, e6, e7]

theorem Utf8.EncodeRune_four (b b1 b2 b3 : Nat) (h4 : 240 ≤ b ∧ b ≤ 244)
    (hlo : b ≠ 240 ∨ 144 ≤ b1) (hhi : b ≠ 244 ∨ b1 ≤ 143)
    (h1 : 128 ≤ b1 ∧ b1 ≤ 191) (h2 : 128 ≤ b2 ∧ b2 ≤ 191) (h3 : 128 ≤ b3 ∧ b3 ≤ 191) :
    Utf8.EncodeRune ((b - 240) * 262144 + (b1 - 128) * 4096 + (b2 - 128) * 64 + (b3 - 128))
      = [b, b1, b2, b3] := by
  generalize hr : (b - 240) * 262144 + (b1 - 128) * 4096 + (b2 - 128) * 64 + (b3 - 128) = r
  have e1 : ¬ r < 128 := by omega
  have e2 : ¬ r < 2048 := by omega
  have e3 : ¬ ((55296 ≤ r ∧ r ≤ 57343) ∨ 1114111 < r) := by omega
  have e4 : ¬ r < 65536 := by omega
  have e5 : 240 + r / 262144 = b := by omega
  have e6 : 128 + r / 4096 % 64 = b1 := by omega
  have e7 : 128 + r / 64 % 64 = b2 := by omega
  have e8 : 128 + r % 64 = b3 := by omega
  rw [Utf8.EncodeRune, if_neg e1, if_neg e2, if_neg e3, if_neg e4, e5, e6, e7, e8]

/-- A rune of more than one byte at the head of the text: either it does not decode, or the
rune decoded takes a prefix of two to four bytes, all of them 128 or more, which is the
encoding of the rune and decodes to it in front of any text. -/
theorem Utf8.DecodeRune_high (b : Nat) (bs : GoBytes) (hb : 128 ≤ b) :
    Utf8.DecodeRune (b :: bs) = (Utf8.RuneError, 1)
    ∨ ∃ (r size : Nat) (front rest : GoBytes),
        Utf8.DecodeRune (b :: bs) = (r, size) ∧ b :: bs = front ++ rest
        ∧ front.length = size ∧ 2 ≤ size ∧ 128 ≤ r
        ∧ (∀ x ∈ front, 128 ≤ x)
        ∧ Utf8.EncodeRune r = front
        ∧ ∀ rest1, Utf8.DecodeRune (front ++ rest1) = (r, size) := by
  have hb0 : ¬ b < 128 := by omega
  by_cases h2 : 194 ≤ b ∧ b ≤ 223
  · rcases bs with _ | ⟨b1, rest⟩
    · left; simp [Utf8.DecodeRune, hb0, h2]
    · by_cases hc : Utf8.isCont b1 = true
      · right
        have hc1 := Utf8.isCont_bounds hc
        refine ⟨(b - 192) * 64 + (b1 - 128), 2, [b, b1], rest, ?_, rfl, rfl, by omega, by omega,
          ?_, Utf8.EncodeRune_two b b1 h2 hc1, ?_⟩
        · rw [Utf8.DecodeRune_two b b1 rest h2, if_pos hc]
        · intro x hx
          simp only [List.mem_cons, List.mem_singleton, List.not_mem_nil, or_false] at hx
          rcases hx with rfl | rfl <;> omega
        · intro rest1
          show Utf8.DecodeRune (b :: b1 :: rest1) = _
          rw [Utf8.DecodeRune_two b b1 rest1 h2, if_pos hc]
      · left
        rw [Utf8.DecodeRune_two b b1 rest h2, if_neg hc]
  · by_cases h3 : 224 ≤ b ∧ b ≤ 239
    · rcases bs with _ | ⟨b1, _ | ⟨b2, rest⟩⟩
      · left; simp [Utf8.DecodeRune, hb0, h2, h3]
      · left; simp [Utf8.DecodeRune, hb0, h2, h3]
      · by_cases hc : (if b = 224 then 160 else 128) ≤ b1 ∧ b1 ≤ (if b = 237 then 159 else 191)
            ∧ Utf8.isCont b2 = true
        · right
          have hc2 := Utf8.isCont_bounds hc.2.2
          have hlo : (b ≠ 224 ∨ 160 ≤ b1) ∧ 128 ≤ b1 := by
            have := hc.1
            split at this <;> omega
          have hhi : (b ≠ 237 ∨ b1 ≤ 159) ∧ b1 ≤ 191 := by
            have := hc.2.1
            split at this <;> omega
          refine ⟨(b - 224) * 4096 + (b1 - 128) * 64 + (b2 - 128), 3, [b, b1, b2], rest, ?_, rfl,
            rfl, by omega, by omega, ?_,
            Utf8.EncodeRune_three b b1 b2 h3 hlo.1 hhi.1 ⟨hlo.2, hhi.2⟩ hc2, ?_⟩
          · rw [Utf8.DecodeRune_three b b1 b2 rest h3, if_pos hc]
          · intro x hx
            simp only [List.mem_cons, List.mem_singleton, List.not_mem_nil, or_false] at hx
            rcases hx with rfl | rfl | rfl <;> omega
          · intro rest1
            show Utf8.DecodeRune (b :: b1 :: b2 :: rest1) = _
            rw [Utf8.DecodeRune_three b b1 b2 rest1 h3, if_pos hc]
        · left
          rw [Utf8.DecodeRune_three b b1 b2 rest h3, if_neg hc]
    · by_cases h4 : 240 ≤ b ∧ b ≤ 244
      · rcases bs with _ | ⟨b1, _ | ⟨b2, _ | ⟨b3, rest⟩⟩⟩
        · left; simp [Utf8.DecodeRune, hb0, h2, h3, h4]
        · left; simp [Utf8.DecodeRune, hb0, h2, h3, h4]
        · left; simp [Utf8.DecodeRune, hb0, h2, h3, h4]
        · by_cases hc : (if b = 240 then 144 else 128) ≤ b1
              ∧ b1 ≤ (if b = 244 then 143 else 191)
              ∧ Utf8.isCont b2 = true ∧ Utf8.isCont b3 = true
          · right
            have hc2 := Utf8.isCont_bounds hc.2.2.1
            have hc3 := Utf8.isCont_bounds hc.2.2.2
            have hlo : (b ≠ 240 ∨ 144 ≤ b1) ∧ 128 ≤ b1 := by
              have := hc.1
              split at this <;> omega
            have hhi : (b ≠ 244 ∨ b1 ≤ 143) ∧ b1 ≤ 191 := by
              have := hc.2.1
              split at this <;> omega
            refine ⟨(b - 240) * 262144 + (b1 - 128) * 4096 + (b2 - 128) * 64 + (b3 - 128), 4,
              [b, b1, b2, b3], rest, ?_, rfl, rfl, by omega, by omega, ?_,
              Utf8.EncodeRune_four b b1 b2 b3 h4 hlo.1 hhi.1 ⟨hlo.2, hhi.2⟩ hc2 hc3, ?_⟩
            · rw [Utf8.DecodeRune_four b b1 b2 b3 rest h4, if_pos hc]
            · intro x hx
              simp only [List.mem_cons, List.mem_singleton, List.not_mem_nil, or_false] at hx
              rcases hx with rfl | rfl | rfl | rfl <;> omega
            · intro rest1
              show Utf8.DecodeRune (b :: b1 :: b2 :: b3 :: rest1) = _
              rw [Utf8.DecodeRune_four b b1 b2 b3 rest1 h4, if_pos hc]
          · left
            rw [Utf8.DecodeRune_four b b1 b2 b3 rest h4, if_neg hc]
      · left
        simp [Utf8.DecodeRune, hb0, h2, h3, h4]

/-! ## Encoded strings are read back -/

namespace Json

theorem isHex_hexDigit (n : Nat) (h : n < 16) : isHex (hexDigit n) = true := by
  interval_cases n <;> rfl

theorem hexValue_hexDigit (n : Nat) (h : n < 16) : hexValue (hexDigit n) = n := by
  interval_cases n <;> rfl

theorem scanString_quote (r : GoBytes) : scanString (34 :: r) = some r := by
  rw [scanString.eq_def]
  simp

theorem scanString_plain (c : Nat) (s : GoBytes) (h1 : c ≠ 34) (h2 : c ≠ 92) (h3 : ¬ c < 32) :
    scanString (c :: s) = scanString s := by
  rw [scanString.eq_def]
  simp only [h1, h2, h3, if_false]

theorem scanString_escape (e : Nat) (s : GoBytes) (h : e ≠ 117)
    (he : e = 98 ∨ e = 102 ∨ e = 110 ∨ e = 114 ∨ e = 116 ∨ e = 92 ∨ e = 47 ∨ e = 34) :
    scanString (92 :: e :: s) = scanString s := by
  rw [scanString.eq_def]
  simp only [h, he, if_true, if_false, reduceCtorEq]
  simp

theorem scanString_unicode (h1 h2 h3 h4 : Nat) (s : GoBytes) (e1 : isHex h1 = true)
    (e2 : isHex h2 = true) (e3 : isHex h3 = true) (e4 : isHex h4 = true) :
    scanString (92 :: 117 :: h1 :: h2 :: h3 :: h4 :: s) = scanString s := by
  rw [scanString.eq_def]
  simp [e1, e2, e3, e4]

theorem scanString_high (front s : GoBytes) (h : ∀ x ∈ front, 128 ≤ x) :
    scanString (front ++ s) = scanString s := by
  induction front with
  | nil => rfl
  | cons x xs ih =>
    have hx : 128 ≤ x := h x (List.mem_cons_self _ _)
    rw [List.cons_append, scanString_plain x _ (by omega) (by omega) (by omega)]
    exact ih (fun y hy => h y (List.mem_cons_of_mem _ hy))

theorem take_drop_of_append {b : Nat} {bs front rest : GoBytes} {size : Nat}
    (h : b :: bs = front ++ rest) (hlen : front.length = size) (hsize : 2 ≤ size) :
    (b :: bs).take size = front ∧ bs.drop (size - 1) = rest := by
  constructor
  · rw [h, ← hlen, List.take_left']
    rfl
  · have h1 : (b :: bs).drop size = rest := by
      rw [h, ← hlen, List.drop_left']
      rfl
    have h2 : size = (size - 1) + 1 := by omega
    rw [h2, List.drop_succ_cons] at h1
    exact h1

/-- The scanner reads what the encoder wrote for a string, whatever the bytes of the
string, up to the closing quote. -/
theorem scanString_escapeString :
    ∀ (fuel : Nat) (s r : GoBytes), s.length ≤ fuel →
      scanString (escapeString fuel s ++ 34 :: r) = some r := by
  intro fuel
  induction fuel with
  | zero =>
    intro s r hs
    have : s = [] := List.eq_nil_of_length_eq_zero (by omega)
    subst this
    simp [escapeString, scanString_quote]
  | succ fuel ih =>
    intro s r hs
    cases s with
    | nil => simp [escapeString, scanString_quote]
    | cons b bs =>
      have hbs : bs.length ≤ fuel := by simpa using hs
      have hrec := ih bs r hbs
      have hx0 : isHex 48 = true := rfl
      rw [escapeString]
      by_cases hb : b < 128
      · rw [if_pos hb]
        by_cases h1 : b = 92 ∨ b = 34
        · rw [if_pos h1, List.cons_append, List.cons_append,
            scanString_escape b _ (by omega) (by omega)]
          exact hrec
        · rw [if_neg h1]
          by_cases h8 : b = 8
          · rw [if_pos h8, List.cons_append, List.cons_append,
              scanString_escape 98 _ (by omega) (by omega)]
            exact hrec
          · rw [if_neg h8]
            by_cases h12 : b = 12
            · rw [if_pos h12, List.cons_append, List.cons_append,
                scanString_escape 102 _ (by omega) (by omega)]
              exact hrec
            · rw [if_neg h12]
              by_cases h10 : b = 10
              · rw [if_pos h10, List.cons_append, List.cons_append,
                  scanString_escape 110 _ (by omega) (by omega)]
                exact hrec
              · rw [if_neg h10]
                by_cases h13 : b = 13
                · rw [if_pos h13, List.cons_append, List.cons_append,
                    scanString_escape 114 _ (by omega) (by omega)]
                  exact hrec
                · rw [if_neg h13]
                  by_cases h9 : b = 9
                  · rw [if_pos h9, List.cons_append, List.cons_append,
                      scanString_escape 116 _ (by omega) (by omega)]
                    exact hrec
                  · rw [if_neg h9]
                    by_cases hu : b < 32 ∨ b = 60 ∨ b = 62 ∨ b = 38
                    · rw [if_pos hu]
                      simp only [List.cons_append]
                      rw [scanString_unicode _ _ _ _ _ hx0 hx0
                        (isHex_hexDigit (b / 16) (by omega))
                        (isHex_hexDigit (b % 16) (by omega))]
                      exact hrec
                    · rw [if_neg hu, List.cons_append,
                        scanString_plain b _ (by omega) (by omega) (by omega)]
                      exact hrec
      · rw [if_neg hb]
        rcases Utf8.DecodeRune_high b bs (by omega) with hd | ⟨rr, size, front, rest, hd, happ,
          hlen, hsize, hr, hfront, -, -⟩
        · simp only [hd, and_self, if_true, List.cons_append]
          rw [scanString_unicode 102 102 102 100 _ rfl rfl rfl rfl]
          exact hrec
        · obtain ⟨htake, hdrop⟩ := take_drop_of_append happ hlen hsize
          have hne : ¬ (rr = Utf8.RuneError ∧ size = 1) := by omega
          have hrest : rest.length ≤ fuel := by
            have := congrArg List.length happ
            simp only [List.length_cons, List.length_append] at this
            omega
          have hrec2 := ih rest r hrest
          simp only [hd, hne, if_false, htake, hdrop]
          by_cases hls : rr = 8232 ∨ rr = 8233
          · rw [if_pos hls]
            simp only [List.cons_append]
            rw [scanString_unicode 50 48 50 _ _ rfl rfl rfl
              (isHex_hexDigit (rr % 16) (by omega))]
            exact hrec2
          · rw [if_neg hls, List.append_assoc, scanString_high _ _ hfront]
            exact hrec2

end Json

namespace Json

/-- One step of the decoder on a text that is not empty. -/
theorem unquote_step (f c : Nat) (cs : GoBytes) :
    unquote (f + 1) (c :: cs) =
    if c = 92 then
      match cs with
      | [] => none
      | e :: cs1 =>
        if e = 117 then
          match cs1 with
          | h1 :: h2 :: h3 :: h4 :: cs2 =>
            if isHex h1 && isHex h2 && isHex h3 && isHex h4 then
              let rr := hexValue h1 * 4096 + hexValue h2 * 256 + hexValue h3 * 16 + hexValue h4
              if 55296 ≤ rr ∧ rr ≤ 57343 then
                match cs2 with
                | 92 :: 117 :: l1 :: l2 :: l3 :: l4 :: cs3 =>
                  let r1 := hexValue l1 * 4096 + hexValue l2 * 256 + hexValue l3 * 16
                    + hexValue l4
                  if isHex l1 && isHex l2 && isHex l3 && isHex l4 && decide (rr < 56320)
                      && decide (56320 ≤ r1) && decide (r1 ≤ 57343) then
                    (unquote f cs3).map
                      (Utf8.EncodeRune ((rr - 55296) * 1024 + (r1 - 56320) + 65536) ++ ·)
                  else (unquote f cs2).map (Utf8.EncodeRune Utf8.RuneError ++ ·)
                | _ => (unquote f cs2).map (Utf8.EncodeRune Utf8.RuneError ++ ·)
              else (unquote f cs2).map (Utf8.EncodeRune rr ++ ·)
            else none
          | _ => none
        else if e = 34 ∨ e = 92 ∨ e = 47 ∨ e = 39 then (unquote f cs1).map (e :: ·)
        else if e = 98 then (unquote f cs1).map (8 :: ·)
        else if e = 102 then (unquote f cs1).map (12 :: ·)
        else if e = 110 then (unquote f cs1).map (10 :: ·)
        else if e = 114 then (unquote f cs1).map (13 :: ·)
        else if e = 116 then (unquote f cs1).map (9 :: ·)
        else none
    else if c = 34 ∨ c < 32 then none
    else if c < 128 then (unquote f cs).map (c :: ·)
    else
      let (rr, size) := Utf8.DecodeRune (c :: cs)
      (unquote f (cs.drop (size - 1))).map (Utf8.EncodeRune rr ++ ·) := by
  rfl

theorem unquote_plain (f c : Nat) (cs : GoBytes) (h1 : c ≠ 92) (h2 : c ≠ 34) (h3 : ¬ c < 32)
    (h4 : c < 128) : unquote (f + 1) (c :: cs) = (unquote f cs).map (c :: ·) := by
  rw [unquote_step]
  have h5 : ¬ (c = 34 ∨ c < 32) := by omega
  simp only [h1, h5, h4, if_true, if_false]

theorem unquote_escape_same (f e : Nat) (cs : GoBytes) (he : e = 34 ∨ e = 92) :
    unquote (f + 1) (92 :: e :: cs) = (unquote f cs).map (e :: ·) := by
  rw [unquote_step]
  have h1 : e ≠ 117 := by omega
  have h2 : e = 34 ∨ e = 92 ∨ e = 47 ∨ e = 39 := by omega
  simp only [h1, h2, if_true, if_false]

theorem unquote_escape_b (f : Nat) (cs : GoBytes) :
    unquote (f + 1) (92 :: 98 :: cs) = (unquote f cs).map (8 :: ·) := by
  rw [unquote_step]
  simp

theorem unquote_escape_f (f : Nat) (cs : GoBytes) :
    unquote (f + 1) (92 :: 102 :: cs) = (unquote f cs).map (12 :: ·) := by
  rw [unquote_step]
  simp

theorem unquote_escape_n (f : Nat) (cs : GoBytes) :
    unquote (f + 1) (92 :: 110 :: cs) = (unquote f cs).map (10 :: ·) := by
  rw [unquote_step]
  simp

theorem unquote_escape_r (f : Nat) (cs : GoBytes) :
    unquote (f + 1) (92 :: 114 :: cs) = (unquote f cs).map (13 :: ·) := by
  rw [unquote_step]
  simp

theorem unquote_escape_t (f : Nat) (cs : GoBytes) :
    unquote (f + 1) (92 :: 116 :: cs) = (unquote f cs).map (9 :: ·) := by
  rw [unquote_step]
  simp

theorem unquote_unicode (f h1 h2 h3 h4 : Nat) (cs : GoBytes) (e1 : isHex h1 = true)
    (e2 : isHex h2 = true) (e3 : isHex h3 = true) (e4 : isHex h4 = true)
    (hs : ¬ (55296 ≤ hexValue h1 * 4096 + hexValue h2 * 256 + hexValue h3 * 16 + hexValue h4
      ∧ hexValue h1 * 4096 + hexValue h2 * 256 + hexValue h3 * 16 + hexValue h4 ≤ 57343)) :
    unquote (f + 1) (92 :: 117 :: h1 :: h2 :: h3 :: h4 :: cs)
      = (unquote f cs).map
          (Utf8.EncodeRune (hexValue h1 * 4096 + hexValue h2 * 256 + hexValue h3 * 16
            + hexValue h4) ++ ·) := by
  rw [unquote_step]
  simp only [e1, e2, e3, e4, Bool.and_self, if_true, hs, if_false]

theorem unquote_high (f c : Nat) (cs : GoBytes) (h : 128 ≤ c) :
    unquote (f + 1) (c :: cs)
      = (unquote f (cs.drop ((Utf8.DecodeRune (c :: cs)).2 - 1))).map
          (Utf8.EncodeRune (Utf8.DecodeRune (c :: cs)).1 ++ ·) := by
  rw [unquote_step]
  have h1 : c ≠ 92 := by omega
  have h5 : ¬ (c = 34 ∨ c < 32) := by omega
  have h4 : ¬ c < 128 := by omega
  simp only [h1, h5, h4, if_false]

theorem length_escapeString_cons_pos (fuel b : Nat) (bs : GoBytes) :
    0 < (escapeString (fuel + 1) (b :: bs)).length := by
  rw [escapeString]
  split
  · repeat' split
    all_goals simp
  · split
    rename_i r size heq
    split
    · simp
    · split
      · simp
      · rcases Utf8.DecodeRune_high b bs (by omega) with hd | ⟨rr, sz, front, rest, hd, happ,
          hlen, hsize, -, -, -, -⟩
        · rw [hd] at heq
          cases heq
          simp_all
        · rw [hd] at heq
          cases heq
          obtain ⟨htake, -⟩ := take_drop_of_append happ hlen hsize
          rw [htake, List.length_append]
          omega

/-- The decoder gives back a string of valid UTF-8 from what the encoder wrote for it. -/
theorem unquote_escapeString :
    ∀ (fuel : Nat) (s : GoString), Utf8.Valid fuel s = true →
      ∀ f, (escapeString fuel s).length ≤ f → unquote f (escapeString fuel s) = some s := by
  intro fuel
  induction fuel with
  | zero =>
    intro s hv f _
    cases s with
    | nil => cases f <;> rfl
    | cons b bs => simp [Utf8.Valid] at hv
  | succ fuel ih =>
    intro s hv f hf
    cases s with
    | nil => cases f <;> rfl
    | cons b bs =>
      have hpos := length_escapeString_cons_pos fuel b bs
      obtain ⟨f, rfl⟩ : ∃ g, f = g + 1 := ⟨f - 1, by omega⟩
      rw [Utf8.Valid] at hv
      rw [escapeString] at hf ⊢
      by_cases hb : b < 128
      · rw [if_pos hb] at hv hf ⊢
        by_cases h1 : b = 92 ∨ b = 34
        · rw [if_pos h1] at hf ⊢
          simp only [List.length_cons] at hf
          rw [unquote_escape_same f b _ (by omega), ih bs hv f (by omega)]
          rfl
        · rw [if_neg h1] at hf ⊢
          by_cases h8 : b = 8
          · rw [if_pos h8] at hf ⊢
            simp only [List.length_cons] at hf
            rw [unquote_escape_b, ih bs hv f (by omega), h8]
            rfl
          · rw [if_neg h8] at hf ⊢
            by_cases h12 : b = 12
            · rw [if_pos h12] at hf ⊢
              simp only [List.length_cons] at hf
              rw [unquote_escape_f, ih bs hv f (by omega), h12]
              rfl
            · rw [if_neg h12] at hf ⊢
              by_cases h10 : b = 10
              · rw [if_pos h10] at hf ⊢
                simp only [List.length_cons] at hf
                rw [unquote_escape_n, ih bs hv f (by omega), h10]
                rfl
              · rw [if_neg h10] at hf ⊢
                by_cases h13 : b = 13
                · rw [if_pos h13] at hf ⊢
                  simp only [List.length_cons] at hf
                  rw [unquote_escape_r, ih bs hv f (by omega), h13]
                  rfl
                · rw [if_neg h13] at hf ⊢
                  by_cases h9 : b = 9
                  · rw [if_pos h9] at hf ⊢
                    simp only [List.length_cons] at hf
                    rw [unquote_escape_t, ih bs hv f (by omega), h9]
                    rfl
                  · rw [if_neg h9] at hf ⊢
                    by_cases hu : b < 32 ∨ b = 60 ∨ b = 62 ∨ b = 38
                    · rw [if_pos hu] at hf ⊢
                      simp only [List.length_cons] at hf
                      have hx0 : isHex 48 = true := rfl
                      have hv0 : hexValue 48 = 0 := rfl
                      have hv1 := hexValue_hexDigit (b / 16) (by omega)
                      have hv2 := hexValue_hexDigit (b % 16) (by omega)
                      have hval : hexValue 48 * 4096 + hexValue 48 * 256
                          + hexValue (hexDigit (b / 16)) * 16 + hexValue (hexDigit (b % 16))
                          = b := by
                        rw [hv0, hv1, hv2]; omega
                      rw [unquote_unicode f _ _ _ _ _ hx0 hx0
                        (isHex_hexDigit (b / 16) (by omega))
                        (isHex_hexDigit (b % 16) (by omega)) (by rw [hval]; omega),
                        hval, ih bs hv f (by omega)]
                      simp [Utf8.EncodeRune, hb]
                    · rw [if_neg hu] at hf ⊢
                      simp only [List.length_cons] at hf
                      rw [unquote_plain f b _ (by omega) (by omega) (by omega) hb,
                        ih bs hv f (by omega)]
                      rfl
      · rw [if_neg hb] at hv hf ⊢
        rcases Utf8.DecodeRune_high b bs (by omega) with hd | ⟨rr, size, front, rest, hd, happ,
          hlen, hsize, hr, hfront, henc, hdec⟩
        · simp [hd] at hv
        · obtain ⟨htake, hdrop⟩ := take_drop_of_append happ hlen hsize
          have hne : ¬ (rr = Utf8.RuneError ∧ size = 1) := by omega
          simp only [hd, hne, if_false, htake, hdrop] at hv hf ⊢
          by_cases hls : rr = 8232 ∨ rr = 8233
          · rw [if_pos hls] at hf ⊢
            simp only [List.length_cons] at hf
            have hv2 := hexValue_hexDigit (rr % 16) (by omega)
            have hval : hexValue 50 * 4096 + hexValue 48 * 256 + hexValue 50 * 16
                + hexValue (hexDigit (rr % 16)) = rr := by
              have e50 : hexValue 50 = 2 := rfl
              have e48 : hexValue 48 = 0 := rfl
              rw [hv2, e50, e48]; omega
            rw [unquote_unicode f 50 48 50 _ _ rfl rfl rfl
              (isHex_hexDigit (rr % 16) (by omega)) (by rw [hval]; omega),
              hval, ih rest hv f (by omega), henc, happ]
            rfl
          · rw [if_neg hls] at hf ⊢
            rw [List.length_append] at hf
            obtain ⟨x, xs, hfx⟩ : ∃ x xs, front = x :: xs := by
              cases front with
              | nil => simp at hlen; omega
              | cons x xs => exact ⟨x, xs, rfl⟩
            have hx : 128 ≤ x := hfront x (by simp [hfx])
            have hdec2 := hdec (escapeString fuel rest)
            have hcs : x :: (xs ++ escapeString fuel rest) = front ++ escapeString fuel rest := by
              simp [hfx]
            have hdrop2 := (take_drop_of_append hcs hlen hsize).2
            rw [← hcs] at hdec2
            rw [← hcs, unquote_high f x _ hx, hdec2]
            simp only []
            rw [hdrop2, ih rest hv f (by omega), henc, happ]
            rfl

/-- The literal the encoder writes for a string of valid UTF-8 decodes to the string. -/
theorem unquoteLiteral_appendString (s : GoString) (h : Utf8.ValidString s = true) :
    unquoteLiteral (appendString s) = some s := by
  have h1 : unquoteLiteral (appendString s)
      = unquote (escapeString s.length s ++ [34]).length
          (escapeString s.length s ++ [34]).dropLast := rfl
  rw [h1, List.dropLast_concat]
  exact unquote_escapeString s.length s h _ (by simp)

end Json

/-! ## Encoded objects are read back -/

namespace Json

theorem skipSpace_cons (c : Nat) (cs : GoBytes) (h : isSpace c = false) :
    skipSpace (c :: cs) = c :: cs := by
  simp [skipSpace, h]

theorem tight_skipSpace {n : Nat} {v : GoBytes} (h : Tight n v) (r : GoBytes) :
    skipSpace (v ++ r) = v ++ r := by
  obtain ⟨⟨c, cs, rfl, hc, -⟩, -⟩ := h
  exact skipSpace_cons c _ hc

/-- A string literal written by the encoder is read as one value. -/
theorem tight_appendString (n : Nat) (s : GoString) : Tight n (appendString s) := by
  refine ⟨⟨34, escapeString s.length s ++ [34], by simp [appendString], rfl, by decide⟩, ?_⟩
  intro f d r hf _ _
  obtain ⟨f, rfl⟩ : ∃ g, f = g + 1 := ⟨f - 1, by simp [appendString] at hf; omega⟩
  have h : appendString s ++ r = 34 :: (escapeString s.length s ++ 34 :: r) := by
    simp [appendString]
  rw [h, scanValue_atom f d 34 _ (by decide) (by decide), if_pos rfl]
  exact scanString_escapeString _ _ _ (Nat.le_refl _)

theorem entry_eq (kv : GoString × GoBytes) (r : GoBytes) :
    entry kv ++ r = 34 :: (escapeString kv.1.length kv.1 ++ 34 :: 58 :: (kv.2 ++ r)) := by
  simp [entry, appendString]

theorem length_entry (kv : GoString × GoBytes) :
    (entry kv).length = (escapeString kv.1.length kv.1).length + kv.2.length + 3 := by
  simp [entry, appendString]
  omega

theorem joinComma_entries_cons (kv : GoString × GoBytes) (ms : List (GoString × GoBytes))
    (r : GoBytes) :
    ∃ tail, joinComma ((kv :: ms).map entry) ++ r = entry kv ++ tail
      ∧ (ms = [] → tail = r)
      ∧ (ms ≠ [] → tail = 44 :: (joinComma (ms.map entry) ++ r)) := by
  cases ms with
  | nil => exact ⟨r, by simp [joinComma], fun _ => rfl, fun h => absurd rfl h⟩
  | cons m ms =>
    exact ⟨44 :: (joinComma ((m :: ms).map entry) ++ r), by simp [joinComma],
      fun h => by simp at h, fun _ => rfl⟩

theorem length_joinComma_entries (kv : GoString × GoBytes) (ms : List (GoString × GoBytes)) :
    (joinComma ((kv :: ms).map entry)).length
      = (entry kv).length + (if ms = [] then 0 else 1 + (joinComma (ms.map entry)).length) := by
  cases ms with
  | nil => simp [joinComma]
  | cons m ms => simp [joinComma]; omega

theorem joinComma_entries_head (kv : GoString × GoBytes) (ms : List (GoString × GoBytes))
    (r : GoBytes) :
    ∃ cs, joinComma ((kv :: ms).map entry) ++ r = 34 :: cs := by
  obtain ⟨tail, h, -, -⟩ := joinComma_entries_cons kv ms r
  rw [h, entry_eq]
  exact ⟨_, rfl⟩

/-- The scanner reads the members the encoder wrote for an object, up to the closing
brace. -/
theorem scanMembers_entries (n : Nat) :
    ∀ (ms : List (GoString × GoBytes)), ms ≠ [] → (∀ m ∈ ms, Tight n m.2) →
      ∀ f d r, 2 * (joinComma (ms.map entry)).length + 1 ≤ f → d ≤ n →
        scanMembers f d (joinComma (ms.map entry) ++ 125 :: r) = some r := by
  intro ms
  induction ms with
  | nil => intro h; exact absurd rfl h
  | cons kv ms ih =>
    intro _ ht f d r hf hd
    obtain ⟨f, rfl⟩ : ∃ g, f = g + 1 := ⟨f - 1, by omega⟩
    obtain ⟨tail, happ, hnil, hcons⟩ := joinComma_entries_cons kv ms (125 :: r)
    have hlen := length_joinComma_entries kv ms
    have hle := length_entry kv
    have htv := ht kv (List.mem_cons_self _ _)
    have hends : Ends tail := by
      by_cases hms : ms = []
      · rw [hnil hms]; exact Or.inr ⟨125, r, rfl, Or.inr rfl⟩
      · rw [hcons hms]; exact Or.inr ⟨44, _, rfl, Or.inl rfl⟩
    rw [happ, entry_eq, scanMembers_key, scanString_escapeString _ _ _ (Nat.le_refl _)]
    simp only []
    rw [skipSpace_cons 58 _ (by decide)]
    simp only []
    rw [tight_skipSpace htv, htv.2 f d tail (by split at hlen <;> omega) hd hends]
    simp only []
    by_cases hms : ms = []
    · rw [hnil hms, skipSpace_cons 125 _ (by decide)]
    · rw [hcons hms, skipSpace_cons 44 _ (by decide)]
      simp only []
      obtain ⟨m, ms', rfl⟩ : ∃ m ms', ms = m :: ms' := by
        cases ms with
        | nil => exact absurd rfl hms
        | cons m ms' => exact ⟨m, ms', rfl⟩
      obtain ⟨cs, hcs⟩ := joinComma_entries_head m ms' (125 :: r)
      rw [hcs, skipSpace_cons 34 _ (by decide), ← hcs]
      rw [if_neg hms] at hlen
      exact ih hms (fun x hx => ht x (List.mem_cons_of_mem _ hx)) f d r (by omega) hd

/-- An object written by the encoder with at least one member is read as one value. -/
theorem tight_object (n : Nat) (ms : List (GoString × GoBytes)) (hne : ms ≠ [])
    (hn : n < maxNestingDepth) (ht : ∀ m ∈ ms, Tight (n + 1) m.2) :
    Tight n (123 :: joinComma (ms.map entry) ++ [125]) := by
  refine ⟨⟨123, joinComma (ms.map entry) ++ [125], by simp, rfl, by decide⟩, ?_⟩
  intro f d r hf hd _
  obtain ⟨f, rfl⟩ : ∃ g, f = g + 1 := ⟨f - 1, by simp at hf; omega⟩
  obtain ⟨kv, ms', rfl⟩ : ∃ m ms', ms = m :: ms' := by
    cases ms with
    | nil => exact absurd rfl hne
    | cons m ms' => exact ⟨m, ms', rfl⟩
  have h : (123 :: joinComma ((kv :: ms').map entry) ++ [125]) ++ r
      = 123 :: (joinComma ((kv :: ms').map entry) ++ 125 :: r) := by simp
  obtain ⟨cs, hcs⟩ := joinComma_entries_head kv ms' (125 :: r)
  have hdepth : ¬ maxNestingDepth ≤ d := by omega
  rw [h, scanValue_object, if_neg hdepth, hcs, skipSpace_cons 34 _ (by decide)]
  simp only []
  rw [← hcs]
  simp only [List.length_cons, List.length_append, List.length_singleton] at hf
  exact scanMembers_entries (n + 1) _ hne ht f (d + 1) r (by omega) (by omega)

end Json

namespace Json

theorem objectMembers_key (fuel : Nat) (s : GoBytes) :
    objectMembers (fuel + 1) (34 :: s)
      = match scanString s with
        | none => none
        | some r =>
          match unquote s.length (consumed s r).dropLast, skipSpace r with
          | some key, 58 :: r1 =>
            match scanValue (fuelFor r1) 0 (skipSpace r1) with
            | none => none
            | some r2 =>
              match skipSpace r2 with
              | 44 :: r3 =>
                (objectMembers fuel (skipSpace r3)).map
                  ((key, consumed (skipSpace r1) r2) :: ·)
              | 125 :: _ => some [(key, consumed (skipSpace r1) r2)]
              | _ => none
          | _, _ => none := by
  rfl

theorem length_le_joinComma_entries :
    ∀ ms : List (GoString × GoBytes), ms.length ≤ (joinComma (ms.map entry)).length := by
  intro ms
  induction ms with
  | nil => simp
  | cons kv ms ih =>
    have h1 := length_joinComma_entries kv ms
    have h2 := length_entry kv
    by_cases hms : ms = []
    · subst hms
      simp only [List.length_singleton]
      omega
    · rw [if_neg hms] at h1
      simp only [List.length_cons]
      omega

/-- The decoder finds in an object written by the encoder the members that were encoded:
the keys, which are valid UTF-8, with the texts of their values, in the same order. -/
theorem objectMembers_entries :
    ∀ (ms : List (GoString × GoBytes)), ms ≠ [] →
      (∀ m ∈ ms, Utf8.ValidString m.1 = true ∧ Tight 0 m.2) →
      ∀ fuel r, ms.length ≤ fuel →
        objectMembers fuel (joinComma (ms.map entry) ++ 125 :: r) = some ms := by
  intro ms
  induction ms with
  | nil => intro h; exact absurd rfl h
  | cons kv ms ih =>
    intro _ ht fuel r hfuel
    obtain ⟨fuel, rfl⟩ : ∃ g, fuel = g + 1 := ⟨fuel - 1, by simp at hfuel; omega⟩
    obtain ⟨tail, happ, hnil, hcons⟩ := joinComma_entries_cons kv ms (125 :: r)
    obtain ⟨hkey, htv⟩ := ht kv (List.mem_cons_self _ _)
    have hcons1 : escapeString kv.1.length kv.1 ++ 34 :: 58 :: (kv.2 ++ tail)
        = (escapeString kv.1.length kv.1 ++ [34]) ++ 58 :: (kv.2 ++ tail) := by simp
    have hkey2 : unquote (escapeString kv.1.length kv.1 ++ 34 :: 58 :: (kv.2 ++ tail)).length
        (escapeString kv.1.length kv.1) = some kv.1 :=
      unquote_escapeString _ _ hkey _ (by simp)
    rw [happ, entry_eq, objectMembers_key, scanString_escapeString _ _ _ (Nat.le_refl _)]
    simp only []
    rw [hcons1, consumed_append, List.dropLast_concat, ← hcons1, hkey2,
      skipSpace_cons 58 _ (by decide)]
    simp only []
    have hends : Ends tail := by
      by_cases hms : ms = []
      · rw [hnil hms]; exact Or.inr ⟨125, r, rfl, Or.inr rfl⟩
      · rw [hcons hms]; exact Or.inr ⟨44, _, rfl, Or.inl rfl⟩
    rw [tight_skipSpace htv,
      htv.2 _ 0 tail (by unfold fuelFor; simp; omega) (Nat.le_refl _) hends]
    simp only [consumed_append]
    by_cases hms : ms = []
    · rw [hnil hms, skipSpace_cons 125 _ (by decide), hms]
    · rw [hcons hms, skipSpace_cons 44 _ (by decide)]
      simp only []
      obtain ⟨m, ms', rfl⟩ : ∃ m ms', ms = m :: ms' := by
        cases ms with
        | nil => exact absurd rfl hms
        | cons m ms' => exact ⟨m, ms', rfl⟩
      obtain ⟨cs, hcs⟩ := joinComma_entries_head m ms' (125 :: r)
      rw [hcs, skipSpace_cons 34 _ (by decide), ← hcs,
        ih hms (fun x hx => ht x (List.mem_cons_of_mem _ hx)) fuel r
          (by simpa using hfuel)]
      rfl

/-- The members of an object written by the encoder, as the decoder finds them. -/
theorem membersOf_object (ms : List (GoString × GoBytes)) (hne : ms ≠ [])
    (ht : ∀ m ∈ ms, Utf8.ValidString m.1 = true ∧ Tight 0 m.2) :
    membersOf (123 :: joinComma (ms.map entry) ++ [125]) = some ms := by
  obtain ⟨kv, ms', rfl⟩ : ∃ m ms', ms = m :: ms' := by
    cases ms with
    | nil => exact absurd rfl hne
    | cons m ms' => exact ⟨m, ms', rfl⟩
  obtain ⟨cs, hcs⟩ := joinComma_entries_head kv ms' [125]
  have hlen := length_le_joinComma_entries (kv :: ms')
  have h := objectMembers_entries (kv :: ms') hne ht
    (123 :: joinComma ((kv :: ms').map entry) ++ [125]).length []
    (by simp only [List.length_cons, List.length_append, List.cons_append] at hlen ⊢; omega)
  have htail : (123 :: joinComma ((kv :: ms').map entry) ++ [125]).tail
      = joinComma ((kv :: ms').map entry) ++ [125] := by simp
  unfold membersOf
  rw [htail, hcs, skipSpace_cons 34 _ (by decide)]
  simp only []
  rw [← hcs]
  exact h

/-- An object written by the encoder is valid JSON. -/
theorem valid_object (ms : List (GoString × GoBytes)) (hne : ms ≠ [])
    (ht : ∀ m ∈ ms, Tight 1 m.2) :
    Valid (123 :: joinComma (ms.map entry) ++ [125]) = true := by
  have h := tight_object 0 ms hne (by decide) ht
  have h1 := h.2 (2 * (123 :: joinComma (ms.map entry) ++ [125]).length) 0 []
    (Nat.le_refl _) (Nat.le_refl _) (Or.inl rfl)
  rw [List.append_nil] at h1
  apply Valid_of_scan _ [] _ _ rfl
  · exact 2 * (123 :: joinComma (ms.map entry) ++ [125]).length
  · have hs := tight_skipSpace h []
    rw [List.append_nil] at hs
    rw [hs]
    exact h1

theorem tight_mono {n m : Nat} {v : GoBytes} (h : Tight n v) (hm : m ≤ n) : Tight m v :=
  ⟨h.1, fun f d r hf hd he => h.2 f d r hf (Nat.le_trans hd hm) he⟩

end Json

/-! ## The request of a query, encoded and decoded -/

namespace Json

theorem numbersFit_skip (f c : Nat) (cs : GoBytes) (h1 : c ≠ 34) (h2 : c ≠ 45)
    (h3 : isDigit c = false) : numbersFit (f + 1) (c :: cs) = numbersFit f cs := by
  rw [numbersFit]
  simp [h1, h2, h3]

theorem numbersFit_appendString (f : Nat) (s : GoString) (r : GoBytes) :
    numbersFit (f + 1) (appendString s ++ r) = numbersFit f r := by
  have h : appendString s ++ r = 34 :: (escapeString s.length s ++ 34 :: r) := by
    simp [appendString]
  rw [h, numbersFit]
  simp [scanString_escapeString _ _ _ (Nat.le_refl _)]

/-- The members of the identifier map as the encoder writes them: `@type` before
`@value`. -/
theorem marshalStringMap_uuid_entries (id : GoString) :
    marshalStringMap [(goStr "@type", goStr "g:UUID"), (goStr "@value", id)]
      = 123 :: joinComma ([(goStr "@type", appendString (goStr "g:UUID")),
          (goStr "@value", appendString id)].map entry) ++ [125] := by
  have hle : stringLe (goStr "@type") (goStr "@value") = true := by decide
  simp only [marshalStringMap, sortedEntries, List.insertionSort, List.orderedInsert,
    hle, if_true, List.map, entry]

theorem tight_uuid (n : Nat) (hn : n < maxNestingDepth) (id : GoString) :
    Tight n (marshalStringMap [(goStr "@type", goStr "g:UUID"), (goStr "@value", id)]) := by
  rw [marshalStringMap_uuid_entries]
  apply tight_object n _ (by simp) hn
  intro m hm
  simp only [List.mem_cons, List.mem_singleton, List.not_mem_nil, or_false] at hm
  rcases hm with rfl | rfl <;> exact tight_appendString _ _

theorem numbersFit_uuid (id : GoString) :
    numbersFit (marshalStringMap [(goStr "@type", goStr "g:UUID"), (goStr "@value", id)]).length
      (marshalStringMap [(goStr "@type", goStr "g:UUID"), (goStr "@value", id)]) = true := by
  rw [marshalStringMap_uuid_entries]
  have htext : 123 :: joinComma ([(goStr "@type", appendString (goStr "g:UUID")),
        (goStr "@value", appendString id)].map entry) ++ [125]
      = 123 :: (appendString (goStr "@type") ++ 58 :: (appendString (goStr "g:UUID")
          ++ 44 :: (appendString (goStr "@value") ++ 58 :: (appendString id ++ [125])))) := by
    simp [joinComma, entry]
  rw [htext]
  obtain ⟨n, hn⟩ : ∃ n, (123 :: (appendString (goStr "@type") ++ 58 ::
      (appendString (goStr "g:UUID") ++ 44 :: (appendString (goStr "@value")
        ++ 58 :: (appendString id ++ [125]))))).length = n + 9 := by
    refine ⟨(escapeString id.length id).length + 21, ?_⟩
    have h1 : (appendString (goStr "@type")).length = 7 := by decide
    have h2 : (appendString (goStr "g:UUID")).length = 8 := by decide
    have h3 : (appendString (goStr "@value")).length = 8 := by decide
    simp only [List.length_cons, List.length_append, h1, h2, h3, List.length_nil]
    simp [appendString]
    omega
  rw [hn, numbersFit_skip _ 123 _ (by decide) (by decide) rfl, numbersFit_appendString,
    numbersFit_skip _ 58 _ (by decide) (by decide) rfl, numbersFit_appendString,
    numbersFit_skip _ 44 _ (by decide) (by decide) rfl, numbersFit_appendString,
    numbersFit_skip _ 58 _ (by decide) (by decide) rfl, numbersFit_appendString,
    numbersFit_skip _ 125 _ (by decide) (by decide) rfl]
  cases n <;> rfl

end Json

namespace Json

theorem decodeString_appendString (cur s : GoString) (h : Utf8.ValidString s = true) :
    decodeString cur (appendString s) = .ok s := by
  have hc : appendString s = 34 :: (escapeString s.length s ++ [34]) := by
    simp [appendString]
  have hu := unquoteLiteral_appendString s h
  rw [hc] at hu ⊢
  simp only [decodeString, hu]

theorem member_eq_entry (name : String) (value : GoBytes) :
    member name value = entry (goStr name, value) := rfl

/-- The arguments of a query, encoded and decoded: the text the encoder writes is read as
one value, and the decoder finds the query text and the language in it. -/
theorem decodeRequestArgs_query (t : GoString) (ht : Utf8.ValidString t = true) :
    ∃ text, marshalArgs (some { Gremlin := t, Language := goStr "gremlin-groovy" }) = some text
      ∧ Tight 1 text
      ∧ decodeRequestArgs none text
          = .ok (some { Gremlin := t, Language := goStr "gremlin-groovy" }) := by
  have hne : goStr "gremlin-groovy" ≠ [] := by decide
  have hlang : decodeString [] (appendString (goStr "gremlin-groovy"))
      = .ok (goStr "gremlin-groovy") := by decide!
  have k1 : keyMatches "gremlin" (goStr "gremlin") = true := by decide
  have k2 : keyMatches "gremlin" (goStr "language") = false := by decide
  have k3 : keyMatches "session" (goStr "language") = false := by decide
  have k4 : keyMatches "bindings" (goStr "language") = false := by decide
  have k5 : keyMatches "language" (goStr "language") = true := by decide
  have v1 : Utf8.ValidString (goStr "gremlin") = true := by decide
  have v2 : Utf8.ValidString (goStr "language") = true := by decide
  by_cases h0 : t = []
  · subst h0
    refine ⟨123 :: joinComma ([(goStr "language", appendString (goStr "gremlin-groovy"))].map
      entry) ++ [125], ?_, ?_, ?_⟩
    · simp [marshalArgs, marshalRequestArgs, hne, member_eq_entry]
    · apply tight_object 1 _ (by simp) (by decide)
      intro m hm
      rw [List.mem_singleton.1 hm]
      exact tight_appendString _ _
    · have hm := membersOf_object [(goStr "language", appendString (goStr "gremlin-groovy"))]
        (by simp) (by
          intro m hm
          rw [List.mem_singleton.1 hm]
          exact ⟨v2, tight_appendString _ _⟩)
      rw [List.cons_append] at hm ⊢
      simp only [decodeRequestArgs, hm, Option.getD_none, decodeRequestArgsFields, k2, k3, k4,
        k5, hlang, if_true, if_false, Bool.false_eq_true]
  · refine ⟨123 :: joinComma ([(goStr "gremlin", appendString t),
      (goStr "language", appendString (goStr "gremlin-groovy"))].map entry) ++ [125],
      ?_, ?_, ?_⟩
    · simp [marshalArgs, marshalRequestArgs, hne, h0, member_eq_entry]
    · apply tight_object 1 _ (by simp) (by decide)
      intro m hm
      simp only [List.mem_cons, List.mem_singleton, List.not_mem_nil, or_false] at hm
      rcases hm with rfl | rfl <;> exact tight_appendString _ _
    · have hm := membersOf_object [(goStr "gremlin", appendString t),
          (goStr "language", appendString (goStr "gremlin-groovy"))]
        (by simp) (by
          intro m hm
          simp only [List.mem_cons, List.mem_singleton, List.not_mem_nil, or_false] at hm
          rcases hm with rfl | rfl
          · exact ⟨v1, tight_appendString _ _⟩
          · exact ⟨v2, tight_appendString _ _⟩)
      rw [List.cons_append] at hm ⊢
      simp only [decodeRequestArgs, hm, Option.getD_none, decodeRequestArgsFields, k1, k2, k3,
        k4, k5, hlang, decodeString_appendString _ t ht, if_true, if_false,
        Bool.false_eq_true]

end Json

namespace Json

theorem decodeAny_uuid (id : GoString) :
    decodeAny (marshalStringMap [(goStr "@type", goStr "g:UUID"), (goStr "@value", id)])
      = .ok (some (marshalStringMap [(goStr "@type", goStr "g:UUID"), (goStr "@value", id)])) := by
  have hn := numbersFit_uuid id
  obtain ⟨X, hX⟩ : ∃ X, marshalStringMap [(goStr "@type", goStr "g:UUID"), (goStr "@value", id)]
      = 123 :: X := ⟨_, by rw [marshalStringMap_uuid_entries, List.cons_append]⟩
  rw [hX] at hn ⊢
  simp only [decodeAny, hn, if_true]

/-- The body of the message for a query, decoded: the operation, the identifier map, the
arguments with the query text and the language, and the empty processor. -/
theorem UnmarshalFormattedReq_query (id t : GoString) (args : GoBytes)
    (hargs : Tight 1 args)
    (hdec : decodeRequestArgs none args
      = .ok (some { Gremlin := t, Language := goStr "gremlin-groovy" })) :
    UnmarshalFormattedReq (123 :: joinComma [member "op" (appendString (goStr "eval")),
        member "requestId"
          (marshalStringMap [(goStr "@type", goStr "g:UUID"), (goStr "@value", id)]),
        member "args" args, member "processor" (appendString [])] ++ [125])
      = .ok { Op := goStr "eval",
              RequestID := some
                (marshalStringMap [(goStr "@type", goStr "g:UUID"), (goStr "@value", id)]),
              Args := some { Gremlin := t, Language := goStr "gremlin-groovy" },
              Processor := [] } := by
  have hlist : [member "op" (appendString (goStr "eval")),
        member "requestId"
          (marshalStringMap [(goStr "@type", goStr "g:UUID"), (goStr "@value", id)]),
        member "args" args, member "processor" (appendString [])]
      = [(goStr "op", appendString (goStr "eval")),
          (goStr "requestId",
            marshalStringMap [(goStr "@type", goStr "g:UUID"), (goStr "@value", id)]),
          (goStr "args", args), (goStr "processor", appendString [])].map entry := rfl
  have htight : ∀ m ∈ [(goStr "op", appendString (goStr "eval")),
      (goStr "requestId",
        marshalStringMap [(goStr "@type", goStr "g:UUID"), (goStr "@value", id)]),
      (goStr "args", args), (goStr "processor", appendString [])], Tight 1 m.2 := by
    intro m hm
    simp only [List.mem_cons, List.mem_singleton, List.not_mem_nil, or_false] at hm
    rcases hm with rfl | rfl | rfl | rfl
    · exact tight_appendString _ _
    · exact tight_uuid 1 (by decide) id
    · exact hargs
    · exact tight_appendString _ _
  have hkeys : ∀ m ∈ [(goStr "op", appendString (goStr "eval")),
      (goStr "requestId",
        marshalStringMap [(goStr "@type", goStr "g:UUID"), (goStr "@value", id)]),
      (goStr "args", args), (goStr "processor", appendString [])],
      Utf8.ValidString m.1 = true ∧ Tight 0 m.2 := by
    intro m hm
    refine ⟨?_, tight_mono (htight m hm) (by decide)⟩
    simp only [List.mem_cons, List.mem_singleton, List.not_mem_nil, or_false] at hm
    rcases hm with rfl | rfl | rfl | rfl
    · show Utf8.ValidString (goStr "op") = true
      decide
    · show Utf8.ValidString (goStr "requestId") = true
      decide
    · show Utf8.ValidString (goStr "args") = true
      decide
    · show Utf8.ValidString (goStr "processor") = true
      decide
  have hvalid := valid_object _ (by simp) htight
  have hmem := membersOf_object _ (by simp) hkeys
  rw [hlist]
  rw [List.cons_append] at hvalid hmem ⊢
  have k1 : keyMatches "op" (goStr "op") = true := by decide
  have k2 : keyMatches "op" (goStr "requestId") = false := by decide
  have k3 : keyMatches "requestId" (goStr "requestId") = true := by decide
  have k4 : keyMatches "op" (goStr "args") = false := by decide
  have k5 : keyMatches "requestId" (goStr "args") = false := by decide
  have k6 : keyMatches "args" (goStr "args") = true := by decide
  have k7 : keyMatches "op" (goStr "processor") = false := by decide
  have k8 : keyMatches "requestId" (goStr "processor") = false := by decide
  have k9 : keyMatches "args" (goStr "processor") = false := by decide
  have k10 : keyMatches "processor" (goStr "processor") = true := by decide
  have hop : decodeString [] (appendString (goStr "eval")) = .ok (goStr "eval") := by decide!
  have hproc : decodeString [] (appendString []) = .ok [] := by decide!
  simp only [UnmarshalFormattedReq, hvalid, if_true, skipSpace_cons 123 _ rfl, hmem,
    decodeFormattedReqFields, k1, k2, k3, k4, k5, k6, k7, k8, k9, k10, hop, hproc,
    decodeAny_uuid, hdec, if_false, Bool.false_eq_true]

end Json

theorem messageBody_message (body : GoBytes) :
    messageBody ([0x21] ++ goStr "application/vnd.gremlin-v2.0+json" ++ body) = body := by
  have h : ([0x21] ++ goStr "application/vnd.gremlin-v2.0+json").length = 1 + 33 := by decide
  unfold messageBody
  rw [← h, List.drop_left']
  rfl

/-! ## Numbers and literals, encoded and decoded -/

namespace Json

theorem ends_nil : Ends [] := Or.inl rfl

theorem ends_comma (r : GoBytes) : Ends (44 :: r) := Or.inr ⟨44, r, rfl, Or.inl rfl⟩

theorem ends_brace (r : GoBytes) : Ends (125 :: r) := Or.inr ⟨125, r, rfl, Or.inr rfl⟩

theorem Ends.not_digit {r : GoBytes} (h : Ends r) :
    ∀ c cs, r = c :: cs → isDigit c = false ∧ c ≠ 46 ∧ c ≠ 101 ∧ c ≠ 69 := by
  intro c cs hr
  rcases h with h | ⟨c', cs', h, hc⟩
  · rw [h] at hr; cases hr
  · rw [h] at hr
    cases hr
    rcases hc with rfl | rfl <;> decide

theorem skipDigits_digits (ds r : GoBytes) (hds : ∀ c ∈ ds, isDigit c = true) (hr : Ends r) :
    skipDigits (ds ++ r) = r := by
  induction ds with
  | nil =>
    cases r with
    | nil => rfl
    | cons c cs => simp [skipDigits, (hr.not_digit c cs rfl).1]
  | cons d ds ih =>
    simp only [List.cons_append, skipDigits, hds d (List.mem_cons_self _ _), if_true]
    exact ih (fun c hc => hds c (List.mem_cons_of_mem _ hc))

theorem scanExponent_ends (r : GoBytes) (hr : Ends r) : scanExponent r = some r := by
  cases r with
  | nil => rfl
  | cons c cs =>
    obtain ⟨-, -, h1, h2⟩ := hr.not_digit c cs rfl
    simp [scanExponent, h1, h2]

theorem scanFraction_ends (r : GoBytes) (hr : Ends r) : scanFraction r = some r := by
  cases r with
  | nil => rfl
  | cons c cs =>
    obtain ⟨-, h0, -, -⟩ := hr.not_digit c cs rfl
    have : scanFraction (c :: cs) = scanExponent (c :: cs) := by
      unfold scanFraction
      split
      · next heq => cases heq; exact absurd rfl h0
      · rfl
    rw [this, scanExponent_ends _ hr]

/-- The scanner reads a run of digits without a leading zero, or the single digit zero, as
one number. -/
theorem scanNumber_digits (d : Nat) (ds r : GoBytes) (hd : isDigit d = true)
    (hds : ∀ c ∈ ds, isDigit c = true) (hzero : d = 48 → ds = []) (hr : Ends r) :
    scanNumber (d :: (ds ++ r)) = some r := by
  have hd' : 48 ≤ d ∧ d ≤ 57 := by simpa [isDigit] using hd
  have h45 : d ≠ 45 := by omega
  have hs := scanNumber_unsigned d (ds ++ r) h45
  rw [hs]
  by_cases h0 : d = 48
  · rw [if_pos h0, hzero h0, List.nil_append, scanFraction_ends _ hr]
  · rw [if_neg h0, if_pos (by omega), skipDigits_digits _ _ hds hr, scanFraction_ends _ hr]

theorem digitsValue_nil (acc : Nat) : digitsValue acc [] = acc := rfl

theorem digitsValue_cons (acc c : Nat) (cs : GoBytes) :
    digitsValue acc (c :: cs) = digitsValue (acc * 10 + (c - 48)) cs := rfl

theorem digitsValue_append (acc : Nat) (xs ys : GoBytes) :
    digitsValue acc (xs ++ ys) = digitsValue (digitsValue acc xs) ys := by
  induction xs generalizing acc with
  | nil => rfl
  | cons x xs ih =>
    show digitsValue (acc * 10 + (x - 48)) (xs ++ ys)
      = digitsValue (digitsValue (acc * 10 + (x - 48)) xs) ys
    exact ih _

theorem toNat_digitChar : ∀ m : Nat, m < 10 → (Nat.digitChar m).toNat = 48 + m
  | 0, _ | 1, _ | 2, _ | 3, _ | 4, _ | 5, _ | 6, _ | 7, _ | 8, _ | 9, _ => rfl
  | m + 10, h => absurd h (by omega)

/-- The decimal digits `Nat.toDigits` writes: a run of digits that is not empty, has the
value of the number, and starts with a zero only for the number zero. -/
theorem toDigitsCore_spec :
    ∀ (n fuel : Nat), n < fuel →
      ∃ X : GoBytes, X ≠ [] ∧ (∀ c ∈ X, isDigit c = true)
        ∧ (∀ acc, digitsValue acc X = acc * 10 ^ X.length + n)
        ∧ (0 < n → X.head? ≠ some 48) ∧ (n = 0 → X = [48])
        ∧ ∀ ds, (Nat.toDigitsCore 10 fuel n ds).map Char.toNat = X ++ ds.map Char.toNat := by
  intro n
  induction n using Nat.strong_induction_on with
  | _ n ih =>
    intro fuel hfuel
    obtain ⟨fuel, rfl⟩ : ∃ g, fuel = g + 1 := ⟨fuel - 1, by omega⟩
    have hmod : n % 10 < 10 := Nat.mod_lt _ (by decide)
    have hchar := toNat_digitChar (n % 10) hmod
    by_cases hq : n / 10 = 0
    · have hn : n < 10 := by omega
      have hnm : n % 10 = n := Nat.mod_eq_of_lt hn
      refine ⟨[48 + n], by simp, ?_, ?_, ?_, ?_, ?_⟩
      · intro c hc
        rw [List.mem_singleton.1 hc]
        simp [isDigit]; omega
      · intro acc
        rw [digitsValue_cons, digitsValue_nil]
        simp
      · intro hpos
        simp; omega
      · intro h0; subst h0; rfl
      · intro ds
        rw [hnm] at hchar
        simp only [Nat.toDigitsCore, hq, if_true, List.map_cons, hnm, hchar]
        rfl
    · obtain ⟨X, hne, hdig, hval, hhead, -, hcore⟩ := ih (n / 10) (by omega) fuel (by omega)
      refine ⟨X ++ [48 + n % 10], by simp, ?_, ?_, ?_, ?_, ?_⟩
      · intro c hc
        rcases List.mem_append.1 hc with hc | hc
        · exact hdig c hc
        · rw [List.mem_singleton.1 hc]
          simp [isDigit]; omega
      · intro acc
        rw [digitsValue_append, hval, digitsValue_cons, digitsValue_nil]
        simp only [List.length_append, List.length_singleton, pow_succ]
        have : 48 + n % 10 - 48 = n % 10 := by omega
        rw [this]
        have hdm := Nat.div_add_mod n 10
        nlinarith [hdm]
      · intro _
        have := hhead (by omega)
        cases X with
        | nil => exact absurd rfl hne
        | cons x xs => simpa using this
      · intro h0; omega
      · intro ds
        have := hcore (Nat.digitChar (n % 10) :: ds)
        simp only [Nat.toDigitsCore, hq, if_false]
        rw [this]
        simp [hchar]

theorem toDigits_spec (n : Nat) :
    ∃ (d : Nat) (ds : GoBytes), (Nat.toDigits 10 n).map Char.toNat = d :: ds
      ∧ isDigit d = true ∧ (∀ c ∈ ds, isDigit c = true) ∧ (d = 48 → ds = [])
      ∧ digitsValue 0 (d :: ds) = n := by
  obtain ⟨X, hne, hdig, hval, hhead, hzero, hcore⟩ := toDigitsCore_spec n (n + 1) (by omega)
  have h := hcore []
  simp only [List.map_nil, List.append_nil] at h
  cases X with
  | nil => exact absurd rfl hne
  | cons d ds =>
    refine ⟨d, ds, h, hdig d (List.mem_cons_self _ _),
      fun c hc => hdig c (List.mem_cons_of_mem _ hc), ?_, ?_⟩
    · intro hd
      subst hd
      by_cases hn : n = 0
      · have := hzero hn
        simpa using this
      · have hh := hhead (by omega)
        simp at hh
    · simpa using hval 0

end Json

namespace Json

theorem tight_of_digits (n d : Nat) (ds : GoBytes) (hd : isDigit d = true)
    (hds : ∀ c ∈ ds, isDigit c = true) (hzero : d = 48 → ds = []) :
    Tight n (d :: ds) := by
  have hd' : 48 ≤ d ∧ d ≤ 57 := by simpa [isDigit] using hd
  refine ⟨⟨d, ds, rfl, ?_, by omega⟩, ?_⟩
  · simp [isSpace]; omega
  · intro f d' r hf _ hr
    obtain ⟨f, rfl⟩ : ∃ g, f = g + 1 := ⟨f - 1, by simp at hf; omega⟩
    rw [List.cons_append, scanValue_atom f d' d _ (by omega) (by omega),
      if_neg (by omega), if_neg (by omega), if_neg (by omega), if_neg (by omega),
      if_pos (Or.inr hd)]
    exact scanNumber_digits d ds r hd hds hzero hr

/-- The decimal text of an integer is read as one value. -/
theorem tight_appendInt (n : Nat) (z : Int) : Tight n (appendInt z) := by
  cases z with
  | ofNat k =>
    obtain ⟨d, ds, hD, hd, hds, hzero, -⟩ := toDigits_spec k
    show Tight n ((Nat.toDigits 10 k).map Char.toNat)
    rw [hD]
    exact tight_of_digits n d ds hd hds hzero
  | negSucc k =>
    obtain ⟨d, ds, hD, hd, hds, hzero, -⟩ := toDigits_spec (k + 1)
    show Tight n (45 :: (Nat.toDigits 10 (k + 1)).map Char.toNat)
    rw [hD]
    have hd' : 48 ≤ d ∧ d ≤ 57 := by simpa [isDigit] using hd
    refine ⟨⟨45, d :: ds, rfl, rfl, by decide⟩, ?_⟩
    intro f d' r hf _ hr
    obtain ⟨f, rfl⟩ : ∃ g, f = g + 1 := ⟨f - 1, by simp at hf; omega⟩
    rw [List.cons_append, scanValue_atom f d' 45 _ (by decide) (by decide),
      if_neg (by decide), if_neg (by decide), if_neg (by decide), if_neg (by decide),
      if_pos (Or.inl rfl), scanNumber_signed]
    have := scanNumber_digits d ds r hd hds hzero hr
    rw [scanNumber_unsigned d _ (by omega)] at this
    exact this

/-- The decoder reads an integer of 64 bits from its decimal text. -/
theorem decodeInt_appendInt (cur z : Int) (hlo : -9223372036854775808 ≤ z)
    (hhi : z ≤ 9223372036854775807) : decodeInt cur (appendInt z) = .ok z := by
  cases z with
  | ofNat k =>
    obtain ⟨d, ds, hD, hd, hds, hzero, hval⟩ := toDigits_spec k
    have hd' : 48 ≤ d ∧ d ≤ 57 := by simpa [isDigit] using hd
    have hk : k ≤ 9223372036854775807 := by
      have : ((k : Nat) : Int) ≤ 9223372036854775807 := hhi
      omega
    have hparse : parseInt64 (d :: ds) = some (k : Int) := by
      have h45 : d ≠ 45 := by omega
      simp [parseInt64, h45, hval, hk, hd]
      exact hds
    show decodeInt cur ((Nat.toDigits 10 k).map Char.toNat) = .ok (Int.ofNat k)
    rw [hD]
    have h110 : d ≠ 110 := by omega
    unfold decodeInt
    split
    · next heq => cases heq; exact absurd rfl h110
    · next c cs hne heq =>
      cases heq
      rw [if_pos (Or.inr hd), hparse]
      rfl
    · next heq => cases heq
  | negSucc k =>
    obtain ⟨d, ds, hD, hd, hds, hzero, hval⟩ := toDigits_spec (k + 1)
    have hd' : 48 ≤ d ∧ d ≤ 57 := by simpa [isDigit] using hd
    have hk : k + 1 ≤ 9223372036854775808 := by
      have : -9223372036854775808 ≤ Int.negSucc k := hlo
      rw [Int.negSucc_eq] at this
      omega
    have hall : (d :: ds).all isDigit = true := by
      simp only [List.all_cons, hd, Bool.true_and, List.all_eq_true]
      exact hds
    have hparse : parseInt64 (45 :: d :: ds) = some (Int.negSucc k) := by
      have hneg : ((45 :: d :: ds).head? == some 45) = true := by simp
      simp [parseInt64, hall, hval, hk, Int.negSucc_eq]
    show decodeInt cur (45 :: (Nat.toDigits 10 (k + 1)).map Char.toNat)
      = .ok (Int.negSucc k)
    rw [hD]
    unfold decodeInt
    split
    · next heq => cases heq
    · next c cs hne heq =>
      cases heq
      rw [if_pos (Or.inl rfl), hparse]
    · next heq => cases heq

theorem tight_true (n : Nat) : Tight n (goStr "true") := by
  have h : goStr "true" = [116, 114, 117, 101] := by decide
  rw [h]
  refine ⟨⟨116, _, rfl, rfl, by decide⟩, ?_⟩
  intro f d r hf _ _
  obtain ⟨f, rfl⟩ : ∃ g, f = g + 1 := ⟨f - 1, by simp at hf; omega⟩
  rw [List.cons_append, scanValue_atom f d 116 _ (by decide) (by decide)]
  simp [scanLiteral]

theorem tight_null (n : Nat) : Tight n (goStr "null") := by
  have h : goStr "null" = [110, 117, 108, 108] := by decide
  rw [h]
  refine ⟨⟨110, _, rfl, rfl, by decide⟩, ?_⟩
  intro f d r hf _ _
  obtain ⟨f, rfl⟩ : ∃ g, f = g + 1 := ⟨f - 1, by simp at hf; omega⟩
  rw [List.cons_append, scanValue_atom f d 110 _ (by decide) (by decide)]
  simp [scanLiteral]

theorem tight_empty_object (n : Nat) (hn : n < maxNestingDepth) : Tight n [123, 125] := by
  refine ⟨⟨123, _, rfl, rfl, by decide⟩, ?_⟩
  intro f d r hf hd _
  obtain ⟨f, rfl⟩ : ∃ g, f = g + 1 := ⟨f - 1, by simp at hf; omega⟩
  have hdepth : ¬ maxNestingDepth ≤ d := by omega
  rw [List.cons_append, scanValue_object, if_neg hdepth]
  simp [skipSpace, isSpace]

theorem decodeBool_true (cur : Bool) : decodeBool cur (goStr "true") = .ok true := by
  cases cur <;> decide

end Json

/-! ## Maps, encoded and decoded -/

namespace Json

theorem mem_sortedEntries {α : Type} (m : GoMap α) (kv : GoString × α) :
    kv ∈ sortedEntries m ↔ kv ∈ m :=
  (List.perm_insertionSort _ m).mem_iff

theorem sortedEntries_ne_nil {α : Type} (m : GoMap α) (h : m ≠ []) : sortedEntries m ≠ [] := by
  intro hs
  have := (List.perm_insertionSort (fun a b : GoString × α => stringLe a.1 b.1) m).length_eq
  unfold sortedEntries at hs
  rw [hs] at this
  exact h (List.eq_nil_of_length_eq_zero this.symm)

theorem numbersFit_nil (f : Nat) : numbersFit f [] = true := by
  cases f <;> rfl

/-- A string literal written by the encoder holds no number. -/
theorem numbersLocal_appendString (s : GoString) : NumbersLocal (appendString s) :=
  ⟨1, by simp [appendString], fun f r _ => numbersFit_appendString f s r⟩

/-- The check of the numbers passes over the members the encoder wrote for an object. -/
theorem numbersLocal_entries :
    ∀ (ms : List (GoString × GoBytes)), ms ≠ [] → (∀ m ∈ ms, NumbersLocal m.2) →
      ∃ k, k ≤ (joinComma (ms.map entry)).length ∧ ∀ f r,
        numbersFit (f + k) (joinComma (ms.map entry) ++ 125 :: r) = numbersFit f (125 :: r) := by
  intro ms
  induction ms with
  | nil => intro h; exact absurd rfl h
  | cons kv ms ih =>
    intro _ hl
    obtain ⟨kv1, hkv1, hloc⟩ := hl kv (List.mem_cons_self _ _)
    have hlen := length_joinComma_entries kv ms
    have hle := length_entry kv
    by_cases hms : ms = []
    · subst hms
      refine ⟨kv1 + 2, by simp only [if_true] at hlen; omega, ?_⟩
      intro f r
      have happ : joinComma ([kv].map entry) ++ 125 :: r
          = appendString kv.1 ++ 58 :: (kv.2 ++ 125 :: r) := by
        simp [joinComma, entry]
      have hf : f + (kv1 + 2) = ((f + kv1) + 1) + 1 := by omega
      rw [happ, hf, numbersFit_appendString,
        numbersFit_skip _ 58 _ (by decide) (by decide) rfl, hloc f _ (ends_brace r)]
    · obtain ⟨k, hk, hrest⟩ := ih hms (fun x hx => hl x (List.mem_cons_of_mem _ hx))
      rw [if_neg hms] at hlen
      refine ⟨k + 1 + kv1 + 2, by omega, ?_⟩
      intro f r
      obtain ⟨tail, happ, -, hcons⟩ := joinComma_entries_cons kv ms (125 :: r)
      have happ2 : entry kv ++ tail = appendString kv.1 ++ 58 :: (kv.2 ++ tail) := by
        simp [entry]
      have hf : f + (k + 1 + kv1 + 2) = ((((f + k) + 1) + kv1) + 1) + 1 := by omega
      rw [happ, happ2, hf, numbersFit_appendString,
        numbersFit_skip _ 58 _ (by decide) (by decide) rfl, hcons hms,
        hloc _ _ (ends_comma _), numbersFit_skip _ 44 _ (by decide) (by decide) rfl]
      exact hrest f r

/-- The check of the numbers passes over an object the encoder wrote. -/
theorem numbersLocal_object (ms : List (GoString × GoBytes)) (hne : ms ≠ [])
    (hl : ∀ m ∈ ms, NumbersLocal m.2) :
    NumbersLocal (123 :: joinComma (ms.map entry) ++ [125]) := by
  obtain ⟨k, hk, hrest⟩ := numbersLocal_entries ms hne hl
  refine ⟨k + 2, by simp; omega, ?_⟩
  intro f r _
  have happ : (123 :: joinComma (ms.map entry) ++ [125]) ++ r
      = 123 :: (joinComma (ms.map entry) ++ 125 :: r) := by simp
  have hf : f + (k + 2) = ((f + 1) + k) + 1 := by omega
  rw [happ, hf, numbersFit_skip _ 123 _ (by decide) (by decide) rfl, hrest,
    numbersFit_skip _ 125 _ (by decide) (by decide) rfl]

theorem numbersFit_of_local (v : GoBytes) (h : NumbersLocal v) :
    numbersFit v.length v = true := by
  obtain ⟨k, hk, hloc⟩ := h
  have := hloc (v.length - k) [] ends_nil
  rw [List.append_nil, Nat.sub_add_cancel hk] at this
  rw [this, numbersFit_nil]

/-! ### A `map[string]string` -/

theorem marshalStringMap_entries (m : GoMap GoString) :
    marshalStringMap m
      = 123 :: joinComma (((sortedEntries m).map fun (kv : GoString × GoString) =>
          (kv.1, appendString kv.2)).map entry) ++ [125] := by
  simp [marshalStringMap, List.map_map, entry, Function.comp_def]

/-- The encoding of a `map[string]string` that is not empty is read as one value. -/
theorem tight_stringMap (n : Nat) (hn : n < maxNestingDepth) (m : GoMap GoString)
    (hne : m ≠ []) : Tight n (marshalStringMap m) := by
  rw [marshalStringMap_entries]
  apply tight_object n _ (by simpa using sortedEntries_ne_nil m hne) hn
  intro x hx
  obtain ⟨kv, -, rfl⟩ := List.mem_map.1 hx
  exact tight_appendString _ _

theorem decodeStringEntries_strings :
    ∀ (S : List (GoString × GoString)), (∀ kv ∈ S, Utf8.ValidString kv.2 = true) →
      decodeStringEntries (S.map fun (kv : GoString × GoString) => (kv.1, appendString kv.2))
        = .ok S := by
  intro S
  induction S with
  | nil => intro _; rfl
  | cons kv S ih =>
    intro h
    simp only [List.map_cons, decodeStringEntries,
      decodeString_appendString [] kv.2 (h kv (List.mem_cons_self _ _)),
      ih (fun x hx => h x (List.mem_cons_of_mem _ hx))]

/-- The decoder reads from the encoding of a `map[string]string` the entries of the map,
sorted by key. -/
theorem decodeStringMap_marshalStringMap (m : GoMap GoString) (hne : m ≠ [])
    (hv : ∀ kv ∈ m, Utf8.ValidString kv.1 = true ∧ Utf8.ValidString kv.2 = true) :
    decodeStringMap none (marshalStringMap m) = .ok (some (sortedEntries m)) := by
  have hmem := membersOf_object
    ((sortedEntries m).map fun (kv : GoString × GoString) => (kv.1, appendString kv.2))
    (by simpa using sortedEntries_ne_nil m hne)
    (by
      intro x hx
      obtain ⟨kv, hkv, rfl⟩ := List.mem_map.1 hx
      exact ⟨(hv kv ((mem_sortedEntries m kv).1 hkv)).1, tight_appendString _ _⟩)
  have hdec := decodeStringEntries_strings (sortedEntries m)
    (fun kv hkv => (hv kv ((mem_sortedEntries m kv).1 hkv)).2)
  rw [marshalStringMap_entries]
  rw [List.cons_append] at hmem ⊢
  simp only [decodeStringMap, hmem, hdec, Option.getD_none, List.nil_append]

/-! ### A `map[string]interface{}` -/

theorem collect_encodings :
    ∀ (S : List (GoString × AnyValue)), (∀ kv ∈ S, kv.2.Encodable) →
      collect (S.map fun (kv : GoString × AnyValue) =>
          kv.2.encoding.map fun v => appendString kv.1 ++ 58 :: v)
        = some ((S.map fun (kv : GoString × AnyValue) =>
            (kv.1, kv.2.encoding.getD [])).map entry) := by
  intro S
  induction S with
  | nil => intro _; rfl
  | cons kv S ih =>
    intro h
    obtain ⟨text, htext, -, -⟩ := h kv (List.mem_cons_self _ _)
    simp only [List.map_cons, collect, htext, Option.map_some', Option.getD_some,
      ih (fun x hx => h x (List.mem_cons_of_mem _ hx)), entry]

/-- The encoding of a `map[string]interface{}` whose values can be encoded: the object of
its entries, sorted by key. -/
theorem marshalBind_entries (m : Bind) (hv : ∀ kv ∈ m, kv.2.Encodable) :
    marshalBind m
      = some (123 :: joinComma (((sortedEntries m).map fun (kv : GoString × AnyValue) =>
          (kv.1, kv.2.encoding.getD [])).map entry) ++ [125]) := by
  unfold marshalBind
  rw [collect_encodings _ (fun kv hkv => hv kv ((mem_sortedEntries m kv).1 hkv))]
  rfl

theorem tight_bind (n : Nat) (hn : n ≤ 2) (m : Bind) (hne : m ≠ [])
    (hv : ∀ kv ∈ m, kv.2.Encodable) :
    Tight n (123 :: joinComma (((sortedEntries m).map fun (kv : GoString × AnyValue) =>
      (kv.1, kv.2.encoding.getD [])).map entry) ++ [125]) := by
  apply tight_object n _ (by simpa using sortedEntries_ne_nil m hne)
    (by unfold maxNestingDepth; omega)
  intro x hx
  obtain ⟨kv, hkv, rfl⟩ := List.mem_map.1 hx
  obtain ⟨text, htext, htight, -⟩ := hv kv ((mem_sortedEntries m kv).1 hkv)
  simp only [htext, Option.getD_some]
  exact tight_mono htight (by omega)

/-- The decoder reads from the encoding of a `map[string]interface{}` the keys of the map,
sorted, each with the encoding of its value. -/
theorem decodeMap_marshalBind (m : Bind) (hne : m ≠ [])
    (hv : ∀ kv ∈ m, Utf8.ValidString kv.1 = true ∧ kv.2.Encodable) :
    decodeMap none (123 :: joinComma (((sortedEntries m).map
        fun (kv : GoString × AnyValue) => (kv.1, kv.2.encoding.getD [])).map entry) ++ [125])
      = .ok (some ((sortedEntries m).map fun (kv : GoString × AnyValue) =>
          (kv.1, kv.2.encoding.getD []))) := by
  have hS := sortedEntries_ne_nil m hne
  have hmem := membersOf_object
    ((sortedEntries m).map fun (kv : GoString × AnyValue) => (kv.1, kv.2.encoding.getD []))
    (by simpa using hS)
    (by
      intro x hx
      obtain ⟨kv, hkv, rfl⟩ := List.mem_map.1 hx
      obtain ⟨hkey, text, htext, htight, -⟩ := hv kv ((mem_sortedEntries m kv).1 hkv)
      refine ⟨hkey, ?_⟩
      simp only [htext, Option.getD_some]
      exact tight_mono htight (by omega))
  have hfit := numbersFit_of_local _ (numbersLocal_object
    ((sortedEntries m).map fun (kv : GoString × AnyValue) => (kv.1, kv.2.encoding.getD []))
    (by simpa using hS)
    (by
      intro x hx
      obtain ⟨kv, hkv, rfl⟩ := List.mem_map.1 hx
      obtain ⟨-, text, htext, -, hloc⟩ := hv kv ((mem_sortedEntries m kv).1 hkv)
      simp only [htext, Option.getD_some]
      exact hloc))
  rw [List.cons_append] at hmem hfit ⊢
  simp only [decodeMap, hfit, if_true, hmem, Option.getD_none, List.nil_append]

end Json

/-! ## The arguments of a request, encoded and decoded -/

namespace Json

theorem marshalBind_bindText (m : Bind) (hv : ∀ kv ∈ m, kv.2.Encodable) :
    marshalBind m = some (bindText m) :=
  marshalBind_entries m hv

/-- The encoding of arguments that JSON can carry: the object of their members. -/
theorem marshalRequestArgs_members (a : RequestArgs) (h : a.Carried) :
    marshalRequestArgs a = some (123 :: joinComma ((argsMembers a).map entry) ++ [125]) := by
  obtain ⟨-, -, -, -, hb, hr, -, -, -⟩ := h
  have h1 : (if a.Bindings = [] then some []
      else (marshalBind a.Bindings).map fun v => [member "bindings" v])
      = some (if a.Bindings = [] then [] else [member "bindings" (bindText a.Bindings)]) := by
    by_cases hnil : a.Bindings = []
    · simp [hnil]
    · simp [hnil, marshalBind_bindText a.Bindings (fun kv hkv => (hb kv hkv).2)]
  have h2 : (if a.Rebindings = [] then some []
      else (marshalBind a.Rebindings).map fun v => [member "rebindings" v])
      = some (if a.Rebindings = [] then [] else [member "rebindings" (bindText a.Rebindings)]) := by
    by_cases hnil : a.Rebindings = []
    · simp [hnil]
    · simp [hnil, marshalBind_bindText a.Rebindings (fun kv hkv => (hr kv hkv).2)]
  unfold marshalRequestArgs
  rw [h1, h2]
  simp only [argsMembers, List.map_append, apply_ite (List.map entry), List.map_cons,
    List.map_nil, member_eq_entry]

theorem mem_argsMembers (a : RequestArgs) (m : GoString × GoBytes) (h : m ∈ argsMembers a) :
    (a.Gremlin ≠ [] ∧ m = (goStr "gremlin", appendString a.Gremlin))
    ∨ (a.Session ≠ [] ∧ m = (goStr "session", appendString a.Session))
    ∨ (a.Bindings ≠ [] ∧ m = (goStr "bindings", bindText a.Bindings))
    ∨ (a.Language ≠ [] ∧ m = (goStr "language", appendString a.Language))
    ∨ (a.Rebindings ≠ [] ∧ m = (goStr "rebindings", bindText a.Rebindings))
    ∨ (a.Sasl ≠ [] ∧ m = (goStr "sasl", appendString a.Sasl))
    ∨ (a.BatchSize ≠ 0 ∧ m = (goStr "batchSize", appendInt a.BatchSize))
    ∨ (a.ManageTransaction = true ∧ m = (goStr "manageTransaction", goStr "true"))
    ∨ (a.Aliases ≠ [] ∧ m = (goStr "aliases", marshalStringMap a.Aliases)) := by
  simp only [argsMembers, List.mem_append] at h
  rcases h with (((((((h | h) | h) | h) | h) | h) | h) | h) | h
  · by_cases c : a.Gremlin = []
    · simp [c] at h
    · simp [c] at h; exact Or.inl ⟨c, h⟩
  · by_cases c : a.Session = []
    · simp [c] at h
    · simp [c] at h; exact Or.inr (Or.inl ⟨c, h⟩)
  · by_cases c : a.Bindings = []
    · simp [c] at h
    · simp [c] at h; exact Or.inr (Or.inr (Or.inl ⟨c, h⟩))
  · by_cases c : a.Language = []
    · simp [c] at h
    · simp [c] at h; exact Or.inr (Or.inr (Or.inr (Or.inl ⟨c, h⟩)))
  · by_cases c : a.Rebindings = []
    · simp [c] at h
    · simp [c] at h; exact Or.inr (Or.inr (Or.inr (Or.inr (Or.inl ⟨c, h⟩))))
  · by_cases c : a.Sasl = []
    · simp [c] at h
    · simp [c] at h; exact Or.inr (Or.inr (Or.inr (Or.inr (Or.inr (Or.inl ⟨c, h⟩)))))
  · by_cases c : a.BatchSize = 0
    · simp [c] at h
    · simp [c] at h
      exact Or.inr (Or.inr (Or.inr (Or.inr (Or.inr (Or.inr (Or.inl ⟨c, h⟩))))))
  · by_cases c : a.ManageTransaction = true
    · simp [c] at h
      exact Or.inr (Or.inr (Or.inr (Or.inr (Or.inr (Or.inr (Or.inr (Or.inl ⟨c, h⟩)))))))
    · simp [c] at h
  · by_cases c : a.Aliases = []
    · simp [c] at h
    · simp [c] at h
      exact Or.inr (Or.inr (Or.inr (Or.inr (Or.inr (Or.inr (Or.inr (Or.inr ⟨c, h⟩)))))))

/-- Every member of the encoded arguments has a key of valid UTF-8 and a value that is read
as one value. -/
theorem argsMembers_tight (a : RequestArgs) (h : a.Carried) :
    ∀ m ∈ argsMembers a, Utf8.ValidString m.1 = true ∧ Tight 2 m.2 := by
  obtain ⟨-, -, -, -, hb, hr, -, -, -⟩ := h
  have v0 : Utf8.ValidString (goStr "gremlin") = true := by decide
  have v1 : Utf8.ValidString (goStr "session") = true := by decide
  have v2 : Utf8.ValidString (goStr "bindings") = true := by decide
  have v3 : Utf8.ValidString (goStr "language") = true := by decide
  have v4 : Utf8.ValidString (goStr "rebindings") = true := by decide
  have v5 : Utf8.ValidString (goStr "sasl") = true := by decide
  have v6 : Utf8.ValidString (goStr "batchSize") = true := by decide
  have v7 : Utf8.ValidString (goStr "manageTransaction") = true := by decide
  have v8 : Utf8.ValidString (goStr "aliases") = true := by decide
  intro m hm
  rcases mem_argsMembers a m hm with ⟨_, rfl⟩ | ⟨_, rfl⟩ | ⟨c, rfl⟩ | ⟨_, rfl⟩ | ⟨c, rfl⟩
    | ⟨_, rfl⟩ | ⟨_, rfl⟩ | ⟨_, rfl⟩ | ⟨c, rfl⟩
  · exact ⟨v0, tight_appendString _ _⟩
  · exact ⟨v1, tight_appendString _ _⟩
  · exact ⟨v2, tight_bind 2 (Nat.le_refl _) _ c (fun kv hkv => (hb kv hkv).2)⟩
  · exact ⟨v3, tight_appendString _ _⟩
  · exact ⟨v4, tight_bind 2 (Nat.le_refl _) _ c (fun kv hkv => (hr kv hkv).2)⟩
  · exact ⟨v5, tight_appendString _ _⟩
  · exact ⟨v6, tight_appendInt _ _⟩
  · exact ⟨v7, tight_true _⟩
  · exact ⟨v8, tight_stringMap 2 (by decide) _ c⟩

end Json

namespace Json

theorem keyMatches_gremlin_gremlin : keyMatches "gremlin" (goStr "gremlin") = true := by
  decide

theorem keyMatches_gremlin_session : keyMatches "gremlin" (goStr "session") = false := by
  decide

theorem keyMatches_session_session : keyMatches "session" (goStr "session") = true := by
  decide

theorem keyMatches_gremlin_bindings : keyMatches "gremlin" (goStr "bindings") = false := by
  decide

theorem keyMatches_session_bindings : keyMatches "session" (goStr "bindings") = false := by
  decide

theorem keyMatches_bindings_bindings : keyMatches "bindings" (goStr "bindings") = true := by
  decide

theorem keyMatches_gremlin_language : keyMatches "gremlin" (goStr "language") = false := by
  decide

theorem keyMatches_session_language : keyMatches "session" (goStr "language") = false := by
  decide

theorem keyMatches_bindings_language : keyMatches "bindings" (goStr "language") = false := by
  decide

theorem keyMatches_language_language : keyMatches "language" (goStr "language") = true := by
  decide

theorem keyMatches_gremlin_rebindings : keyMatches "gremlin" (goStr "rebindings") = false := by
  decide

theorem keyMatches_session_rebindings : keyMatches "session" (goStr "rebindings") = false := by
  decide

theorem keyMatches_bindings_rebindings : keyMatches "bindings" (goStr "rebindings") = false := by
  decide

theorem keyMatches_language_rebindings : keyMatches "language" (goStr "rebindings") = false := by
  decide

theorem keyMatches_rebindings_rebindings : keyMatches "rebindings" (goStr "rebindings") = true := by
  decide

theorem keyMatches_gremlin_sasl : keyMatches "gremlin" (goStr "sasl") = false := by
  decide

theorem keyMatches_session_sasl : keyMatches "session" (goStr "sasl") = false := by
  decide

theorem keyMatches_bindings_sasl : keyMatches "bindings" (goStr "sasl") = false := by
  decide

theorem keyMatches_language_sasl : keyMatches "language" (goStr "sasl") = false := by
  decide

theorem keyMatches_rebindings_sasl : keyMatches "rebindings" (goStr "sasl") = false := by
  decide

theorem keyMatches_sasl_sasl : keyMatches "sasl" (goStr "sasl") = true := by
  decide

theorem keyMatches_gremlin_batchSize : keyMatches "gremlin" (goStr "batchSize") = false := by
  decide

theorem keyMatches_session_batchSize : keyMatches "session" (goStr "batchSize") = false := by
  decide

theorem keyMatches_bindings_batchSize : keyMatches "bindings" (goStr "batchSize") = false := by
  decide

theorem keyMatches_language_batchSize : keyMatches "language" (goStr "batchSize") = false := by
  decide

theorem keyMatches_rebindings_batchSize : keyMatches "rebindings" (goStr "batchSize") = false := by
  decide

theorem keyMatches_sasl_batchSize : keyMatches "sasl" (goStr "batchSize") = false := by
  decide

theorem keyMatches_batchSize_batchSize : keyMatches "batchSize" (goStr "batchSize") = true := by
  decide

theorem keyMatches_gremlin_manageTransaction : keyMatches "gremlin" (goStr "manageTransaction") = false := by
  decide

theorem keyMatches_session_manageTransaction : keyMatches "session" (goStr "manageTransaction") = false := by
  decide

theorem keyMatches_bindings_manageTransaction : keyMatches "bindings" (goStr "manageTransaction") = false := by
  decide

theorem keyMatches_language_manageTransaction : keyMatches "language" (goStr "manageTransaction") = false := by
  decide

theorem keyMatches_rebindings_manageTransaction : keyMatches "rebindings" (goStr "manageTransaction") = false := by
  decide

theorem keyMatches_sasl_manageTransaction : keyMatches "sasl" (goStr "manageTransaction") = false := by
  decide

theorem keyMatches_batchSize_manageTransaction : keyMatches "batchSize" (goStr "manageTransaction") = false := by
  decide

theorem keyMatches_manageTransaction_manageTransaction : keyMatches "manageTransaction" (goStr "manageTransaction") = true := by
  decide

theorem keyMatches_gremlin_aliases : keyMatches "gremlin" (goStr "aliases") = false := by
  decide

theorem keyMatches_session_aliases : keyMatches "session" (goStr "aliases") = false := by
  decide

theorem keyMatches_bindings_aliases : keyMatches "bindings" (goStr "aliases") = false := by
  decide

theorem keyMatches_language_aliases : keyMatches "language" (goStr "aliases") = false := by
  decide

theorem keyMatches_rebindings_aliases : keyMatches "rebindings" (goStr "aliases") = false := by
  decide

theorem keyMatches_sasl_aliases : keyMatches "sasl" (goStr "aliases") = false := by
  decide

theorem keyMatches_batchSize_aliases : keyMatches "batchSize" (goStr "aliases") = false := by
  decide

theorem keyMatches_manageTransaction_aliases : keyMatches "manageTransaction" (goStr "aliases") = false := by
  decide

theorem keyMatches_aliases_aliases : keyMatches "aliases" (goStr "aliases") = true := by
  decide

theorem decodeFields_gremlin (acc : DecodedRequestArgs) (a : RequestArgs)
    (rest : List (GoString × GoBytes)) (hacc : acc.Gremlin = [])
    (hv : Utf8.ValidString a.Gremlin = true) :
    decodeRequestArgsFields acc ((if a.Gremlin = [] then [] else [(goStr "gremlin", appendString a.Gremlin)]) ++ rest)
      = decodeRequestArgsFields { acc with Gremlin := a.Gremlin } rest := by
  by_cases c : a.Gremlin = []
  · have hsame : ({ acc with Gremlin := a.Gremlin } : DecodedRequestArgs) = acc := by
      rw [c, ← hacc]
    rw [hsame]
    simp [c]
  · simp only [c, if_false, if_true, List.cons_append, List.nil_append, decodeRequestArgsFields,
      keyMatches_gremlin_gremlin, Bool.false_eq_true, decodeString_appendString acc.Gremlin a.Gremlin hv]

theorem decodeFields_session (acc : DecodedRequestArgs) (a : RequestArgs)
    (rest : List (GoString × GoBytes)) (hacc : acc.Session = [])
    (hv : Utf8.ValidString a.Session = true) :
    decodeRequestArgsFields acc ((if a.Session = [] then [] else [(goStr "session", appendString a.Session)]) ++ rest)
      = decodeRequestArgsFields { acc with Session := a.Session } rest := by
  by_cases c : a.Session = []
  · have hsame : ({ acc with Session := a.Session } : DecodedRequestArgs) = acc := by
      rw [c, ← hacc]
    rw [hsame]
    simp [c]
  · simp only [c, if_false, if_true, List.cons_append, List.nil_append, decodeRequestArgsFields,
      keyMatches_gremlin_session, keyMatches_session_session, Bool.false_eq_true, decodeString_appendString acc.Session a.Session hv]

theorem decodeFields_bindings (acc : DecodedRequestArgs) (a : RequestArgs)
    (rest : List (GoString × GoBytes)) (hacc : acc.Bindings = none)
    (hv : ∀ kv ∈ a.Bindings, Utf8.ValidString kv.1 = true ∧ kv.2.Encodable) :
    decodeRequestArgsFields acc ((if a.Bindings = [] then [] else [(goStr "bindings", bindText a.Bindings)]) ++ rest)
      = decodeRequestArgsFields { acc with Bindings := decodedBind a.Bindings } rest := by
  by_cases c : a.Bindings = []
  · have hsame : ({ acc with Bindings := decodedBind a.Bindings } : DecodedRequestArgs) = acc := by
      rw [c]
      show ({ acc with Bindings := none } : DecodedRequestArgs) = acc
      rw [← hacc]
    rw [hsame]
    simp [c]
  · have hd : decodedBind a.Bindings = some ((sortedEntries a.Bindings).map
        fun (kv : GoString × AnyValue) => (kv.1, kv.2.encoding.getD [])) := by
      simp [decodedBind, c]
    have hdm := decodeMap_marshalBind a.Bindings c hv
    rw [List.cons_append] at hdm
    simp only [c, if_false, List.cons_append, List.nil_append, decodeRequestArgsFields,
      keyMatches_gremlin_bindings, keyMatches_session_bindings, keyMatches_bindings_bindings, Bool.false_eq_true, if_true, hacc, bindText,
      hdm, hd]

theorem decodeFields_language (acc : DecodedRequestArgs) (a : RequestArgs)
    (rest : List (GoString × GoBytes)) (hacc : acc.Language = [])
    (hv : Utf8.ValidString a.Language = true) :
    decodeRequestArgsFields acc ((if a.Language = [] then [] else [(goStr "language", appendString a.Language)]) ++ rest)
      = decodeRequestArgsFields { acc with Language := a.Language } rest := by
  by_cases c : a.Language = []
  · have hsame : ({ acc with Language := a.Language } : DecodedRequestArgs) = acc := by
      rw [c, ← hacc]
    rw [hsame]
    simp [c]
  · simp only [c, if_false, if_true, List.cons_append, List.nil_append, decodeRequestArgsFields,
      keyMatches_gremlin_language, keyMatches_session_language, keyMatches_bindings_language, keyMatches_language_language, Bool.false_eq_true, decodeString_appendString acc.Language a.Language hv]

theorem decodeFields_rebindings (acc : DecodedRequestArgs) (a : RequestArgs)
    (rest : List (GoString × GoBytes)) (hacc : acc.Rebindings = none)
    (hv : ∀ kv ∈ a.Rebindings, Utf8.ValidString kv.1 = true ∧ kv.2.Encodable) :
    decodeRequestArgsFields acc ((if a.Rebindings = [] then [] else [(goStr "rebindings", bindText a.Rebindings)]) ++ rest)
      = decodeRequestArgsFields { acc with Rebindings := decodedBind a.Rebindings } rest := by
  by_cases c : a.Rebindings = []
  · have hsame : ({ acc with Rebindings := decodedBind a.Rebindings } : DecodedRequestArgs) = acc := by
      rw [c]
      show ({ acc with Rebindings := none } : DecodedRequestArgs) = acc
      rw [← hacc]
    rw [hsame]
    simp [c]
  · have hd : decodedBind a.Rebindings = some ((sortedEntries a.Rebindings).map
        fun (kv : GoString × AnyValue) => (kv.1, kv.2.encoding.getD [])) := by
      simp [decodedBind, c]
    have hdm := decodeMap_marshalBind a.Rebindings c hv
    rw [List.cons_append] at hdm
    simp only [c, if_false, List.cons_append, List.nil_append, decodeRequestArgsFields,
      keyMatches_gremlin_rebindings, keyMatches_session_rebindings, keyMatches_bindings_rebindings, keyMatches_language_rebindings, keyMatches_rebindings_rebindings, Bool.false_eq_true, if_true, hacc, bindText,
      hdm, hd]

theorem decodeFields_sasl (acc : DecodedRequestArgs) (a : RequestArgs)
    (rest : List (GoString × GoBytes)) (hacc : acc.Sasl = [])
    (hv : Utf8.ValidString a.Sasl = true) :
    decodeRequestArgsFields acc ((if a.Sasl = [] then [] else [(goStr "sasl", appendString a.Sasl)]) ++ rest)
      = decodeRequestArgsFields { acc with Sasl := a.Sasl } rest := by
  by_cases c : a.Sasl = []
  · have hsame : ({ acc with Sasl := a.Sasl } : DecodedRequestArgs) = acc := by
      rw [c, ← hacc]
    rw [hsame]
    simp [c]
  · simp only [c, if_false, if_true, List.cons_append, List.nil_append, decodeRequestArgsFields,
      keyMatches_gremlin_sasl, keyMatches_session_sasl, keyMatches_bindings_sasl, keyMatches_language_sasl, keyMatches_rebindings_sasl, keyMatches_sasl_sasl, Bool.false_eq_true, decodeString_appendString acc.Sasl a.Sasl hv]

theorem decodeFields_batchSize (acc : DecodedRequestArgs) (a : RequestArgs)
    (rest : List (GoString × GoBytes)) (hacc : acc.BatchSize = 0)
    (hlo : -9223372036854775808 ≤ a.BatchSize) (hhi : a.BatchSize ≤ 9223372036854775807) :
    decodeRequestArgsFields acc
        ((if a.BatchSize = 0 then [] else [(goStr "batchSize", appendInt a.BatchSize)]) ++ rest)
      = decodeRequestArgsFields { acc with BatchSize := a.BatchSize } rest := by
  by_cases c : a.BatchSize = 0
  · have hsame : ({ acc with BatchSize := a.BatchSize } : DecodedRequestArgs) = acc := by
      rw [c, ← hacc]
    rw [hsame]
    simp [c]
  · simp only [c, if_false, List.cons_append, List.nil_append, decodeRequestArgsFields,
      keyMatches_gremlin_batchSize, keyMatches_session_batchSize, keyMatches_bindings_batchSize, keyMatches_language_batchSize, keyMatches_rebindings_batchSize, keyMatches_sasl_batchSize, keyMatches_batchSize_batchSize, Bool.false_eq_true, if_true,
      decodeInt_appendInt acc.BatchSize a.BatchSize hlo hhi]

theorem decodeFields_manageTransaction (acc : DecodedRequestArgs) (a : RequestArgs)
    (rest : List (GoString × GoBytes)) (hacc : acc.ManageTransaction = false) :
    decodeRequestArgsFields acc
        ((if a.ManageTransaction then [(goStr "manageTransaction", goStr "true")] else [])
          ++ rest)
      = decodeRequestArgsFields { acc with ManageTransaction := a.ManageTransaction } rest := by
  by_cases c : a.ManageTransaction = true
  · simp only [c, if_true, List.cons_append, List.nil_append, decodeRequestArgsFields,
      keyMatches_gremlin_manageTransaction, keyMatches_session_manageTransaction, keyMatches_bindings_manageTransaction, keyMatches_language_manageTransaction, keyMatches_rebindings_manageTransaction, keyMatches_sasl_manageTransaction, keyMatches_batchSize_manageTransaction, keyMatches_manageTransaction_manageTransaction, Bool.false_eq_true, if_false, decodeBool_true]
  · have c' : a.ManageTransaction = false := by simpa using c
    have hsame : ({ acc with ManageTransaction := a.ManageTransaction } : DecodedRequestArgs)
        = acc := by
      rw [c', ← hacc]
    rw [hsame]
    simp [c']

theorem decodeFields_aliases (acc : DecodedRequestArgs) (a : RequestArgs)
    (rest : List (GoString × GoBytes)) (hacc : acc.Aliases = none)
    (hv : ∀ kv ∈ a.Aliases, Utf8.ValidString kv.1 = true ∧ Utf8.ValidString kv.2 = true) :
    decodeRequestArgsFields acc
        ((if a.Aliases = [] then [] else [(goStr "aliases", marshalStringMap a.Aliases)]) ++ rest)
      = decodeRequestArgsFields { acc with Aliases := decodedAliases a.Aliases } rest := by
  by_cases c : a.Aliases = []
  · have hsame : ({ acc with Aliases := decodedAliases a.Aliases } : DecodedRequestArgs)
        = acc := by
      rw [c]
      show ({ acc with Aliases := none } : DecodedRequestArgs) = acc
      rw [← hacc]
    rw [hsame]
    simp [c]
  · have hd : decodedAliases a.Aliases = some (sortedEntries a.Aliases) := by
      simp [decodedAliases, c]
    simp only [c, if_false, List.cons_append, List.nil_append, decodeRequestArgsFields,
      keyMatches_gremlin_aliases, keyMatches_session_aliases, keyMatches_bindings_aliases, keyMatches_language_aliases, keyMatches_rebindings_aliases, keyMatches_sasl_aliases, keyMatches_batchSize_aliases, keyMatches_manageTransaction_aliases, keyMatches_aliases_aliases, Bool.false_eq_true, if_true, hacc,
      decodeStringMap_marshalStringMap a.Aliases c hv, hd]

/-- The decoder fills a fresh `RequestArgs` from the members the encoder wrote with the
arguments that were encoded. -/
theorem decodeRequestArgsFields_argsMembers (a : RequestArgs) (h : a.Carried) :
    decodeRequestArgsFields {} (argsMembers a) = .ok a.decoded := by
  obtain ⟨h1, h2, h4, h6, h3, h5, h9, hlo, hhi⟩ := h
  have hassoc : argsMembers a
      = (if a.Gremlin = [] then [] else [(goStr "gremlin", appendString a.Gremlin)])
        ++ ((if a.Session = [] then [] else [(goStr "session", appendString a.Session)])
        ++ ((if a.Bindings = [] then [] else [(goStr "bindings", bindText a.Bindings)])
        ++ ((if a.Language = [] then [] else [(goStr "language", appendString a.Language)])
        ++ ((if a.Rebindings = [] then [] else [(goStr "rebindings", bindText a.Rebindings)])
        ++ ((if a.Sasl = [] then [] else [(goStr "sasl", appendString a.Sasl)])
        ++ ((if a.BatchSize = 0 then [] else [(goStr "batchSize", appendInt a.BatchSize)])
        ++ ((if a.ManageTransaction then [(goStr "manageTransaction", goStr "true")] else [])
        ++ ((if a.Aliases = [] then [] else [(goStr "aliases", marshalStringMap a.Aliases)])
        ++ [])))))))) := by
    simp only [argsMembers, List.append_assoc, List.append_nil]
  rw [hassoc, decodeFields_gremlin _ a _ rfl h1, decodeFields_session _ a _ rfl h2,
    decodeFields_bindings _ a _ rfl h3, decodeFields_language _ a _ rfl h4,
    decodeFields_rebindings _ a _ rfl h5, decodeFields_sasl _ a _ rfl h6,
    decodeFields_batchSize _ a _ rfl hlo hhi, decodeFields_manageTransaction _ a _ rfl,
    decodeFields_aliases _ a _ rfl h9]
  rfl

/-- The arguments of a request that JSON can carry, encoded and decoded: the text the
encoder writes is read as one value, and the decoder finds the arguments in it. -/
theorem decodeRequestArgs_marshalArgs (args : Option RequestArgs)
    (h : ∀ a, args = some a → a.Carried) :
    ∃ text, marshalArgs args = some text ∧ Tight 1 text
      ∧ decodeRequestArgs none text = .ok (args.map RequestArgs.decoded) := by
  cases args with
  | none => exact ⟨goStr "null", rfl, tight_null 1, by decide⟩
  | some a =>
    have ha := h a rfl
    have hdec := decodeRequestArgsFields_argsMembers a ha
    have hmt := argsMembers_tight a ha
    refine ⟨123 :: joinComma ((argsMembers a).map entry) ++ [125],
      marshalRequestArgs_members a ha, ?_, ?_⟩
    · by_cases hnil : argsMembers a = []
      · rw [hnil]
        exact tight_empty_object 1 (by decide)
      · exact tight_object 1 _ hnil (by decide) (fun m hm => (hmt m hm).2)
    · by_cases hnil : argsMembers a = []
      · rw [hnil] at hdec ⊢
        have hm : membersOf (123 :: joinComma (([] : List (GoString × GoBytes)).map entry)
            ++ [125]) = some [] := by decide
        rw [List.cons_append] at hm ⊢
        simp only [decodeRequestArgs, hm, Option.getD_none, hdec, Option.map_some']
      · have hm := membersOf_object _ hnil
          (fun m hm => ⟨(hmt m hm).1, tight_mono (hmt m hm).2 (by decide)⟩)
        rw [List.cons_append] at hm ⊢
        simp only [decodeRequestArgs, hm, Option.getD_none, hdec, Option.map_some']

end Json

/-! ## A request, encoded and decoded -/

namespace Json

/-- The body of the message for a request, decoded: the operation, the identifier map, the
arguments and the processor, for strings of valid UTF-8 and arguments that decode. -/
theorem UnmarshalFormattedReq_body (op id proc : GoString) (args : GoBytes)
    (decoded : Option DecodedRequestArgs)
    (hop : Utf8.ValidString op = true) (hproc : Utf8.ValidString proc = true)
    (hargs : Tight 1 args) (hdec : decodeRequestArgs none args = .ok decoded) :
    UnmarshalFormattedReq (123 :: joinComma [member "op" (appendString op),
        member "requestId"
          (marshalStringMap [(goStr "@type", goStr "g:UUID"), (goStr "@value", id)]),
        member "args" args, member "processor" (appendString proc)] ++ [125])
      = .ok { Op := op,
              RequestID := some
                (marshalStringMap [(goStr "@type", goStr "g:UUID"), (goStr "@value", id)]),
              Args := decoded,
              Processor := proc } := by
  have hlist : [member "op" (appendString op),
        member "requestId"
          (marshalStringMap [(goStr "@type", goStr "g:UUID"), (goStr "@value", id)]),
        member "args" args, member "processor" (appendString proc)]
      = [(goStr "op", appendString op),
          (goStr "requestId",
            marshalStringMap [(goStr "@type", goStr "g:UUID"), (goStr "@value", id)]),
          (goStr "args", args), (goStr "processor", appendString proc)].map entry := rfl
  have htight : ∀ m ∈ [(goStr "op", appendString op),
      (goStr "requestId",
        marshalStringMap [(goStr "@type", goStr "g:UUID"), (goStr "@value", id)]),
      (goStr "args", args), (goStr "processor", appendString proc)], Tight 1 m.2 := by
    intro m hm
    simp only [List.mem_cons, List.mem_singleton, List.not_mem_nil, or_false] at hm
    rcases hm with rfl | rfl | rfl | rfl
    · exact tight_appendString _ _
    · exact tight_uuid 1 (by decide) id
    · exact hargs
    · exact tight_appendString _ _
  have hkeys : ∀ m ∈ [(goStr "op", appendString op),
      (goStr "requestId",
        marshalStringMap [(goStr "@type", goStr "g:UUID"), (goStr "@value", id)]),
      (goStr "args", args), (goStr "processor", appendString proc)],
      Utf8.ValidString m.1 = true ∧ Tight 0 m.2 := by
    intro m hm
    refine ⟨?_, tight_mono (htight m hm) (by decide)⟩
    simp only [List.mem_cons, List.mem_singleton, List.not_mem_nil, or_false] at hm
    rcases hm with rfl | rfl | rfl | rfl
    · show Utf8.ValidString (goStr "op") = true
      decide
    · show Utf8.ValidString (goStr "requestId") = true
      decide
    · show Utf8.ValidString (goStr "args") = true
      decide
    · show Utf8.ValidString (goStr "processor") = true
      decide
  have hvalid := valid_object _ (by simp) htight
  have hmem := membersOf_object _ (by simp) hkeys
  rw [hlist]
  rw [List.cons_append] at hvalid hmem ⊢
  have k1 : keyMatches "op" (goStr "op") = true := by decide
  have k2 : keyMatches "op" (goStr "requestId") = false := by decide
  have k3 : keyMatches "requestId" (goStr "requestId") = true := by decide
  have k4 : keyMatches "op" (goStr "args") = false := by decide
  have k5 : keyMatches "requestId" (goStr "args") = false := by decide
  have k6 : keyMatches "args" (goStr "args") = true := by decide
  have k7 : keyMatches "op" (goStr "processor") = false := by decide
  have k8 : keyMatches "requestId" (goStr "processor") = false := by decide
  have k9 : keyMatches "args" (goStr "processor") = false := by decide
  have k10 : keyMatches "processor" (goStr "processor") = true := by decide
  simp only [UnmarshalFormattedReq, hvalid, if_true, skipSpace_cons 123 _ rfl, hmem,
    decodeFormattedReqFields, k1, k2, k3, k4, k5, k6, k7, k8, k9, k10,
    decodeString_appendString [] op hop, decodeString_appendString [] proc hproc,
    decodeAny_uuid, hdec, if_false, Bool.false_eq_true]

/-- The identifier map of a message, decoded as a `map[string]string`: the type tag
`g:UUID` and the identifier of the request. -/
theorem decodeStringMap_uuid (id : GoString) (hid : Utf8.ValidString id = true) :
    decodeStringMap none
        (marshalStringMap [(goStr "@type", goStr "g:UUID"), (goStr "@value", id)])
      = .ok (some [(goStr "@type", goStr "g:UUID"), (goStr "@value", id)]) := by
  have hsort : sortedEntries [(goStr "@type", goStr "g:UUID"), (goStr "@value", id)]
      = [(goStr "@type", goStr "g:UUID"), (goStr "@value", id)] := by
    have hle : stringLe (goStr "@type") (goStr "@value") = true := by decide
    simp only [sortedEntries, List.insertionSort, List.orderedInsert, hle, if_true]
  have h := decodeStringMap_marshalStringMap
    [(goStr "@type", goStr "g:UUID"), (goStr "@value", id)] (by simp)
    (by
      intro kv hkv
      simp only [List.mem_cons, List.mem_singleton, List.not_mem_nil, or_false] at hkv
      have v1 : Utf8.ValidString (goStr "@type") = true := by decide
      have v2 : Utf8.ValidString (goStr "g:UUID") = true := by decide
      have v3 : Utf8.ValidString (goStr "@value") = true := by decide
      rcases hkv with rfl | rfl
      · exact ⟨v1, v2⟩
      · exact ⟨v3, hid⟩)
  rw [hsort] at h
  exact h

end Json

/-- The message of a request that JSON can carry, and its body decoded again. -/
theorem GraphSONSerializer_carried (req : Request) (h : req.Carried) :
    ∃ body, GraphSONSerializer req
        = .ok ([0x21] ++ goStr "application/vnd.gremlin-v2.0+json" ++ body)
      ∧ Json.UnmarshalFormattedReq body
        = .ok { Op := req.Op,
                RequestID := some (Json.marshalStringMap
                  [(goStr "@type", goStr "g:UUID"), (goStr "@value", req.RequestID)]),
                Args := req.Args.map RequestArgs.decoded,
                Processor := req.Processor } := by
  obtain ⟨hop, hproc, -, hargs⟩ := h
  obtain ⟨text, htext, htight, hdec⟩ := Json.decodeRequestArgs_marshalArgs req.Args hargs
  refine ⟨_, ?_, Json.UnmarshalFormattedReq_body req.Op req.RequestID req.Processor text _
    hop hproc htight hdec⟩
  simp only [GraphSONSerializer, NewFormattedReq, Json.MarshalFormattedReq, htext]

namespace Json

/-- The check of the numbers passes over a run of digits that a `float64` can hold. -/
theorem numbersLocal_of_digits (d : Nat) (ds : GoBytes) (hd : isDigit d = true)
    (hds : ∀ c ∈ ds, isDigit c = true) (hzero : d = 48 → ds = [])
    (hfit : floatOverflows (d :: ds) = false) : NumbersLocal (d :: ds) := by
  have hd' : 48 ≤ d ∧ d ≤ 57 := by simpa [isDigit] using hd
  refine ⟨1, by simp, ?_⟩
  intro f r hr
  have hscan := scanNumber_digits d ds r hd hds hzero hr
  have hcons : consumed (d :: (ds ++ r)) r = d :: ds := by
    have := consumed_append (d :: ds) r
    simpa using this
  have h34 : d ≠ 34 := by omega
  rw [List.cons_append, numbersFit]
  simp only [h34, if_false, hd, or_true, if_true, hscan, hcons, hfit, Bool.not_false,
    Bool.true_and]

end Json

theorem sampleRequest_carried : sampleRequest.Carried := by
  have hname : goStr "\"marko\"" = Json.appendString (goStr "marko") := by decide
  have hage : goStr "29" = [50, 57] := by decide
  refine ⟨by decide, by decide, by decide, ?_⟩
  intro a ha
  have ha' : a = sampleArgs := by
    have : some a = some sampleArgs := ha.symm
    exact Option.some.inj this
  subst ha'
  refine ⟨by decide, by decide, by decide, by decide, ?_, ?_, ?_, by decide, by decide⟩
  · intro kv hkv
    simp only [sampleArgs, List.mem_cons, List.mem_singleton, List.not_mem_nil, or_false] at hkv
    rcases hkv with rfl | rfl
    · refine ⟨by decide, goStr "\"marko\"", rfl, ?_, ?_⟩
      · rw [hname]; exact Json.tight_appendString _ _
      · rw [hname]; exact Json.numbersLocal_appendString _
    · refine ⟨by decide, goStr "29", rfl, ?_, ?_⟩
      · rw [hage]
        exact Json.tight_of_digits 3 50 [57] (by decide) (by decide) (by decide)
      · rw [hage]
        exact Json.numbersLocal_of_digits 50 [57] (by decide) (by decide) (by decide)
          (by decide!)
  · intro kv hkv
    simp [sampleArgs] at hkv
  · intro kv hkv
    simp only [sampleArgs, List.mem_singleton] at hkv
    subst hkv
    exact ⟨by decide, by decide⟩

/-! ## C1: batch reassembly -/

/-- C1: batch reassembly breaks down when no fragment holds an element. A `PartialContent`
frame with data `[]` followed by a `Success` frame with data `[]` makes `ReadResponse` return
the text `null`, not the encoding `[]` of the flat array: `dataItems` is still the nil
slice when it is encoded. -/
theorem ReadResponse_batch_of_empty_fragments :
    IsArrayFrame (frame "r" 206 "[]") tinkerpop.StatusPartialContent []
      ∧ IsArrayFrame (frame "r" 200 "[]") tinkerpop.StatusSuccess []
      ∧ ReadResponse tinkerpop emptyEnv {}
          ⟨[.message (frame "r" 206 "[]"), .message (frame "r" 200 "[]")], [], []⟩
        = .returned (goStr "null") none ⟨[], [], []⟩
      ∧ goStr "null" ≠ goStr "[]" := by
  decide!

/-! ## C2: a single `Success` frame -/

/-- C2: when the first frame read has status code `Success` and `result.data = d`,
`ReadResponse` returns exactly `d` with no error, and one frame has been read. -/
theorem ReadResponse_success_verbatim (t : StatusTable) (env : Env) (c : Client)
    (message : GoBytes) (d : GoBytes) (rest : List ReadEvent)
    (writeResults : List (Option GoError)) (sent : List GoBytes)
    (hframe : IsDataFrame message t.StatusSuccess d) :
    ReadResponse t env c ⟨.message message :: rest, writeResults, sent⟩
      = .returned d none ⟨rest, writeResults, sent⟩ := by
  obtain ⟨res, status, result, hdec, hstatus, hcode, hresult, hd⟩ := isDataFrame_decoded hframe
  rw [← hd]
  exact ReadResponse.loop_success_single t env c message rest writeResults sent none res status
    result hdec hstatus hcode hresult

/-- C2, on the frame `Success(data=[1,2,3])` followed by another frame, which stays unread. -/
theorem ReadResponse_success_verbatim_witness :
    IsDataFrame (frame "r" 200 "[1,2,3]") tinkerpop.StatusSuccess (goStr "[1,2,3]")
      ∧ ReadResponse tinkerpop emptyEnv {}
          ⟨[.message (frame "r" 200 "[1,2,3]"), .message (frame "r" 200 "[9]")], [], []⟩
        = .returned (goStr "[1,2,3]") none ⟨[.message (frame "r" 200 "[9]")], [], []⟩ :=
  ⟨by decide!, ReadResponse_success_verbatim tinkerpop emptyEnv {} _ _ _ _ _ (by decide!)⟩

/-! ## C3: `NoContent` -/

/-- C3: in every state of the read loop, a frame with status code `NoContent` makes
`ReadResponse` return an empty payload and no error; the frames behind it stay unread. -/
theorem ReadResponse_noContent_terminal (t : StatusTable) (env : Env) (c : Client)
    (message : GoBytes) (rest : List ReadEvent) (writeResults : List (Option GoError))
    (sent : List GoBytes) (dataItems : GoSlice RawMessage) (inBatchMode : Bool)
    (hframe : HasCode message t.StatusNoContent) :
    ∃ payload,
      ReadResponse.loop t env c (.message message :: rest) writeResults sent dataItems
          inBatchMode
        = .returned payload none ⟨rest, writeResults, sent⟩ ∧ payload.length = 0 := by
  obtain ⟨res, status, hdec, hstatus, hcode⟩ := hasCode_decoded hframe
  exact ⟨[], ReadResponse.loop_noContent t env c message rest writeResults sent dataItems
    inBatchMode res status hdec hstatus hcode, rfl⟩

/-- C3, in batch mode with two fragments accumulated. -/
theorem ReadResponse_noContent_terminal_witness :
    HasCode (frame "r" 204 "null") tinkerpop.StatusNoContent
      ∧ ∃ payload,
        ReadResponse.loop tinkerpop emptyEnv {}
            [.message (frame "r" 204 "null"), .message (frame "r" 200 "[9]")] [] []
            (some [goStr "1", goStr "2"]) true
          = .returned payload none ⟨[.message (frame "r" 200 "[9]")], [], []⟩
          ∧ payload.length = 0 :=
  ⟨by decide!, ReadResponse_noContent_terminal tinkerpop emptyEnv {} _ _ _ _ _ _ (by decide!)⟩

/-! ## C4: the authentication request -/

/-- C4: the request that `Authenticate` writes for the challenge `R` and the credentials
`u`, `p` has `requestId` `R`, `op` `authentication` and a `sasl` argument whose base64
decoding is the byte `0`, the bytes of `u`, the byte `0`, the bytes of `p`; no other argument
is set. -/
theorem Authenticate_request_contents (t : StatusTable) (env : Env) (c : Client)
    (challenge u p : GoString) (auth : AuthInfo)
    (hauth : NewAuthInfo env c.Auth = .ok auth) (hu : auth.User = u) (hp : auth.Pass = p)
    (hbu : IsBytes u) (hbp : IsBytes p) :
    ∃ (req : Request) (sasl : GoString) (msg : GoBytes),
      GraphSONSerializer req = .ok msg
      ∧ (∀ incoming writeResults sent,
          Authenticate t env c challenge ⟨incoming, none :: writeResults, sent⟩
            = ReadResponse t env c ⟨incoming, writeResults, sent ++ [msg]⟩)
      ∧ req.RequestID = challenge
      ∧ req.Op = goStr "authentication"
      ∧ req.Args = some { Sasl := sasl }
      ∧ StdEncoding.DecodeString sasl = some ([0] ++ u ++ [0] ++ p) := by
  refine ⟨Authenticate.authReq auth challenge,
    StdEncoding.EncodeToString ([0] ++ auth.User ++ [0] ++ auth.Pass),
    Authenticate.message auth challenge, GraphSONSerializer_authReq auth challenge,
    fun incoming writeResults sent =>
      Authenticate_sends t env c auth challenge incoming writeResults sent hauth,
    rfl, rfl, rfl, ?_⟩
  rw [hu, hp]
  apply StdEncoding.DecodeString_EncodeToString
  intro b hb
  simp only [List.mem_append, List.mem_singleton] at hb
  rcases hb with ((rfl | hb) | rfl) | hb
  · decide
  · exact hbu b hb
  · decide
  · exact hbp b hb

/-- C4, for the challenge `R` and the credentials `user`, `secret`. -/
theorem Authenticate_request_contents_witness :
    NewAuthInfo emptyEnv [OptAuthUserPass (goStr "user") (goStr "secret")]
        = .ok { User := goStr "user", Pass := goStr "secret" }
      ∧ IsBytes (goStr "user") ∧ IsBytes (goStr "secret")
      ∧ ∃ (req : Request) (sasl : GoString) (msg : GoBytes),
        GraphSONSerializer req = .ok msg
        ∧ (∀ incoming writeResults sent,
            Authenticate tinkerpop emptyEnv
                ⟨[OptAuthUserPass (goStr "user") (goStr "secret")]⟩ (goStr "R")
                ⟨incoming, none :: writeResults, sent⟩
              = ReadResponse tinkerpop emptyEnv
                  ⟨[OptAuthUserPass (goStr "user") (goStr "secret")]⟩
                  ⟨incoming, writeResults, sent ++ [msg]⟩)
        ∧ req.RequestID = goStr "R"
        ∧ req.Op = goStr "authentication"
        ∧ req.Args = some { Sasl := sasl }
        ∧ StdEncoding.DecodeString sasl = some ([0] ++ goStr "user" ++ [0] ++ goStr "secret") :=
  ⟨by decide!, by decide!, by decide!,
    Authenticate_request_contents tinkerpop emptyEnv
      ⟨[OptAuthUserPass (goStr "user") (goStr "secret")]⟩ (goStr "R") (goStr "user")
      (goStr "secret") { User := goStr "user", Pass := goStr "secret" } (by decide!) rfl rfl
      (by decide!) (by decide!)⟩

/-! ## C5: unrecognized status codes -/

/-- C5, as stated, fails: the unrecognized codes 998 and 999 give one and the same error,
whose message holds no digit. -/
theorem ReadResponse_unknown_codes_same_error :
    ReadResponse tinkerpop emptyEnv {} ⟨[.message (frame "r" 998 "null")], [], []⟩
        = .returned [] (some (.new (goStr "An unknown error occured"))) ⟨[], [], []⟩
      ∧ ReadResponse tinkerpop emptyEnv {} ⟨[.message (frame "r" 999 "null")], [], []⟩
        = .returned [] (some (.new (goStr "An unknown error occured"))) ⟨[], [], []⟩
      ∧ ∀ b ∈ goStr "An unknown error occured", Json.isDigit b = false := by
  decide!

/-- C5: a frame whose status code is none of `NoContent`, `Authenticate`, `PartialContent`,
`Success` and is not a key of `ErrorMsg` makes `ReadResponse` fail with the error
`An unknown error occured`, the same for every such code. -/
theorem ReadResponse_unknown_code_generic (t : StatusTable) (env : Env) (c : Client)
    (message : GoBytes) (code : Int) (rest : List ReadEvent)
    (writeResults : List (Option GoError)) (sent : List GoBytes)
    (dataItems : GoSlice RawMessage) (inBatchMode : Bool)
    (hframe : HasCode message code)
    (h1 : code ≠ t.StatusNoContent) (h2 : code ≠ t.StatusAuthenticate)
    (h3 : code ≠ t.StatusPartialContent) (h4 : code ≠ t.StatusSuccess)
    (h5 : t.ErrorMsg.lookup code = none) :
    ReadResponse.loop t env c (.message message :: rest) writeResults sent dataItems inBatchMode
      = .returned [] (some (.new (goStr "An unknown error occured")))
          ⟨rest, writeResults, sent⟩ := by
  obtain ⟨res, status, hdec, hstatus, hcode⟩ := hasCode_decoded hframe
  subst hcode
  simp [ReadResponse.loop, hdec, hstatus, h1, h2, h3, h4, h5]

/-- C5, for the code 999. -/
theorem ReadResponse_unknown_code_generic_witness :
    HasCode (frame "r" 999 "null") 999
      ∧ (999 : Int) ≠ tinkerpop.StatusNoContent ∧ (999 : Int) ≠ tinkerpop.StatusAuthenticate
      ∧ (999 : Int) ≠ tinkerpop.StatusPartialContent ∧ (999 : Int) ≠ tinkerpop.StatusSuccess
      ∧ tinkerpop.ErrorMsg.lookup 999 = none
      ∧ ReadResponse.loop tinkerpop emptyEnv {} [.message (frame "r" 999 "null")] [] [] none
          false
        = .returned [] (some (.new (goStr "An unknown error occured"))) ⟨[], [], []⟩ :=
  ⟨by decide!, by decide, by decide, by decide, by decide, by decide!,
    ReadResponse_unknown_code_generic tinkerpop emptyEnv {} _ 999 [] [] [] none false
      (by decide!) (by decide) (by decide) (by decide) (by decide) (by decide!)⟩

/-! ## C6: the wire format -/

/-- C6, as stated: a counterexample. The request with the operation of the one byte `0xff`,
which is a Go string but not valid UTF-8, and no arguments is serialised without error;
the body of the message decodes with the `op` member `EF BF BD`, which is not the operation
of the request. -/
theorem GraphSONSerializer_op_not_carried :
    decodeMessage { RequestID := goStr "R", Op := [255], Processor := [], Args := none }
      = .ok { Op := [239, 191, 189],
              RequestID := some (goStr "\x7b\"@type\":\"g:UUID\",\"@value\":\"R\"\x7d"),
              Args := none, Processor := [] }
    ∧ ([239, 191, 189] : GoString) ≠ [255] := by
  decide!

/-- C6, amended. For every request whose strings are valid UTF-8, whose `BatchSize` is in
the range of a 64-bit `int` and whose binding values have an encoding that is one JSON
value with numbers a `float64` can hold: the output of `GraphSONSerializer` is the length
byte `0x21`, which is the length 33 of the mime type, then the bytes of the mime type, then
a body; `json.Unmarshal` of the body into a `FormattedReq` succeeds and gives the `op` and
the `processor` of the request, the arguments of the request (nil for nil) and a
`requestId` whose text decodes to the map with `@type` `g:UUID` and `@value` the
`RequestID` of the request. -/
theorem GraphSONSerializer_body_decodes (req : Request) (h : req.Carried) :
    ∃ (body uuid : GoBytes),
      GraphSONSerializer req
        = .ok ([0x21] ++ goStr "application/vnd.gremlin-v2.0+json" ++ body)
      ∧ (goStr "application/vnd.gremlin-v2.0+json").length = 0x21
      ∧ (goStr "application/vnd.gremlin-v2.0+json").length = 33
      ∧ Json.UnmarshalFormattedReq body
        = .ok { Op := req.Op, RequestID := some uuid,
                Args := req.Args.map RequestArgs.decoded, Processor := req.Processor }
      ∧ Json.decodeStringMap none uuid
        = .ok (some [(goStr "@type", goStr "g:UUID"), (goStr "@value", req.RequestID)]) := by
  obtain ⟨body, hser, hdec⟩ := GraphSONSerializer_carried req h
  exact ⟨body, _, hser, by decide, by decide, hdec, Json.decodeStringMap_uuid _ h.2.2.1⟩

/-- C6, amended, for a request with a session, two bindings, a batch size, the transaction
flag and an alias: what the decoder finds in the body. -/
theorem GraphSONSerializer_body_decodes_witness :
    decodeMessage sampleRequest
      = .ok { Op := goStr "eval",
              RequestID := some (goStr "\x7b\"@type\":\"g:UUID\",\"@value\":\"R\"\x7d"),
              Args := some
                { Gremlin := goStr "g.V().has(\"name\", name).has(\"age\", age)",
                  Session := goStr "s-1",
                  Bindings := some [(goStr "age", goStr "29"),
                    (goStr "name", goStr "\"marko\"")],
                  Language := goStr "gremlin-groovy",
                  BatchSize := 64,
                  ManageTransaction := true,
                  Aliases := some [(goStr "g", goStr "g<é>")] },
              Processor := goStr "session" }
    ∧ ∃ (body uuid : GoBytes),
      GraphSONSerializer sampleRequest
        = .ok ([0x21] ++ goStr "application/vnd.gremlin-v2.0+json" ++ body)
      ∧ (goStr "application/vnd.gremlin-v2.0+json").length = 0x21
      ∧ (goStr "application/vnd.gremlin-v2.0+json").length = 33
      ∧ Json.UnmarshalFormattedReq body
        = .ok { Op := sampleRequest.Op, RequestID := some uuid,
                Args := sampleRequest.Args.map RequestArgs.decoded,
                Processor := sampleRequest.Processor }
      ∧ Json.decodeStringMap none uuid
        = .ok (some [(goStr "@type", goStr "g:UUID"),
            (goStr "@value", sampleRequest.RequestID)]) :=
  ⟨by decide!, GraphSONSerializer_body_decodes sampleRequest sampleRequest_carried⟩

/-! ## C7: repeated challenges -/

/-- C7, as stated, fails: after the first authentication request a second `Authenticate`
frame is answered by a second authentication request, and the exchange ends with the
payload of the `Success` frame and no error. -/
theorem ReadResponse_second_challenge_answered :
    ReadResponse tinkerpop emptyEnv ⟨[OptAuthUserPass (goStr "u") (goStr "p")]⟩
        ⟨[.message (frame "R" 407 "null"), .message (frame "R" 407 "null"),
          .message (frame "R" 200 "[1]")], [none, none], []⟩
      = .returned (goStr "[1]") none
          ⟨[], [], [Authenticate.message { User := goStr "u", Pass := goStr "p" } (goStr "R"),
            Authenticate.message { User := goStr "u", Pass := goStr "p" } (goStr "R")]⟩
    ∧ Authenticate.message { User := goStr "u", Pass := goStr "p" } (goStr "R")
      = [0x21] ++ goStr "application/vnd.gremlin-v2.0+json"
        ++ goStr "\x7b\"op\":\"authentication\",\"requestId\":\x7b\"@type\":\"g:UUID\",\"@value\":\"R\"\x7d,\"args\":\x7b\"sasl\":\"AHUAcA==\"\x7d,\"processor\":\"trasversal\"\x7d" := by
  decide!

/-- C7: every `Authenticate` frame is answered by an authentication request. When the
frames read are `n` challenges in a row, whether or not an authentication request was sent
before, the client writes `n` authentication requests, one for the request identifier of
each frame, and goes on reading. -/
theorem ReadResponse_answers_every_challenge (t : StatusTable) (env : Env) (c : Client)
    (auth : AuthInfo) (challenges : List (GoBytes × GoString)) (rest : List ReadEvent)
    (writeResults : List (Option GoError)) (sent : List GoBytes)
    (hauth : NewAuthInfo env c.Auth = .ok auth)
    (hchallenges : ∀ p ∈ challenges, IsChallenge p.1 t.StatusAuthenticate p.2) :
    ReadResponse t env c
        ⟨challenges.map (fun p => ReadEvent.message p.1) ++ rest,
          List.replicate challenges.length none ++ writeResults, sent⟩
      = ReadResponse t env c
          ⟨rest, writeResults,
            sent ++ challenges.map fun p => Authenticate.message auth p.2⟩ := by
  induction challenges generalizing sent with
  | nil => simp
  | cons p challenges ih =>
    obtain ⟨res, status, hdec, hstatus, hcode, hid⟩ :=
      isChallenge_decoded (hchallenges p (List.mem_cons_self _ _))
    have hstep : ReadResponse t env c
        ⟨ReadEvent.message p.1 :: (challenges.map (fun p => ReadEvent.message p.1) ++ rest),
          none :: (List.replicate challenges.length none ++ writeResults), sent⟩
        = Authenticate t env c p.2
          ⟨challenges.map (fun p => ReadEvent.message p.1) ++ rest,
            none :: (List.replicate challenges.length none ++ writeResults), sent⟩ := by
      rw [← hid]
      exact ReadResponse.loop_authenticate t env c p.1 _ _ _ none false res status hdec hstatus
        hcode
    simp only [List.map_cons, List.cons_append, List.length_cons, List.replicate_succ]
    rw [hstep, Authenticate_sends t env c auth p.2 _ _ _ hauth,
      ih _ (fun q hq => hchallenges q (List.mem_cons_of_mem _ hq))]
    simp [List.append_assoc]

/-- C7, for two challenges in a row followed by a `Success` frame. -/
theorem ReadResponse_answers_every_challenge_witness :
    NewAuthInfo emptyEnv [OptAuthUserPass (goStr "u") (goStr "p")]
        = .ok { User := goStr "u", Pass := goStr "p" }
      ∧ (∀ p ∈ [(frame "R" 407 "null", goStr "R"), (frame "S" 407 "null", goStr "S")],
          IsChallenge p.1 tinkerpop.StatusAuthenticate p.2)
      ∧ ReadResponse tinkerpop emptyEnv ⟨[OptAuthUserPass (goStr "u") (goStr "p")]⟩
          ⟨[(frame "R" 407 "null", goStr "R"), (frame "S" 407 "null", goStr "S")].map
              (fun p => ReadEvent.message p.1) ++ [.message (frame "R" 200 "[1]")],
            List.replicate
              [(frame "R" 407 "null", goStr "R"), (frame "S" 407 "null", goStr "S")].length
              none ++ [], []⟩
        = ReadResponse tinkerpop emptyEnv ⟨[OptAuthUserPass (goStr "u") (goStr "p")]⟩
            ⟨[.message (frame "R" 200 "[1]")], [],
              [] ++ [(frame "R" 407 "null", goStr "R"), (frame "S" 407 "null", goStr "S")].map
                fun p => Authenticate.message { User := goStr "u", Pass := goStr "p" } p.2⟩ :=
  ⟨by decide!, by decide!,
    ReadResponse_answers_every_challenge tinkerpop emptyEnv
      ⟨[OptAuthUserPass (goStr "u") (goStr "p")]⟩ { User := goStr "u", Pass := goStr "p" }
      [(frame "R" 407 "null", goStr "R"), (frame "S" 407 "null", goStr "S")]
      [.message (frame "R" 200 "[1]")] [] [] (by decide!) (by decide!)⟩

/-! ## C8: missing credentials -/

/-- C8, as stated, fails: with no credential option at all `Authenticate` reports no error
and sends the request whose `sasl` argument `AAA=` is the blob of an empty user and an
empty password. -/
theorem Authenticate_without_options_sends_empty_credentials :
    Authenticate tinkerpop emptyEnv ⟨[]⟩ (goStr "R")
        ⟨[.message (frame "R" 200 "[1]")], [none], []⟩
      = .returned (goStr "[1]") none
          ⟨[], [], [[0x21] ++ goStr "application/vnd.gremlin-v2.0+json"
            ++ goStr "\x7b\"op\":\"authentication\",\"requestId\":\x7b\"@type\":\"g:UUID\",\"@value\":\"R\"\x7d,\"args\":\x7b\"sasl\":\"AAA=\"\x7d,\"processor\":\"trasversal\"\x7d"]⟩
    ∧ StdEncoding.DecodeString (goStr "AAA=") = some [0, 0] := by
  decide!

/-- C8: `Authenticate` fails when `NewAuthInfo` does, that is, when a credential option
returns an error, with that error, and then leaves the connection as it was: no
authentication request is sent. When no option fails, the empty list included, it writes the
authentication request and reads the response. -/
theorem Authenticate_fails_with_option_error (t : StatusTable) (env : Env) (c : Client)
    (requestID : GoString) (incoming : List ReadEvent) (writeResults : List (Option GoError))
    (sent : List GoBytes) :
    match NewAuthInfo env c.Auth with
    | .error err =>
      Authenticate t env c requestID ⟨incoming, writeResults, sent⟩
        = .returned [] (some err) ⟨incoming, writeResults, sent⟩
    | .ok auth =>
      Authenticate t env c requestID ⟨incoming, none :: writeResults, sent⟩
        = ReadResponse t env c
            ⟨incoming, writeResults, sent ++ [Authenticate.message auth requestID]⟩ := by
  cases hauth : NewAuthInfo env c.Auth with
  | error err => exact Authenticate_fails t env c err requestID _ hauth
  | ok auth => exact Authenticate_sends t env c auth requestID incoming writeResults sent hauth

/-- The environment option with no variable set: `Authenticate` returns the error of the
option and writes nothing. -/
theorem Authenticate_unset_environment :
    Authenticate tinkerpop emptyEnv ⟨[OptAuthEnv]⟩ (goStr "R")
        ⟨[.message (frame "R" 200 "[1]")], [none], []⟩
      = .returned [] (some (.new (goStr "Variable GREMLIN_USER is not set")))
          ⟨[.message (frame "R" 200 "[1]")], [none], []⟩ := by
  decide!

/-! ## C9: the order of the credential options -/

/-- C9, as stated, fails on its own example: with the options `[explicit(u, p), environment]`
and no variable set the construction fails, and of two explicit options the second one
sets the result. -/
theorem NewAuthInfo_first_option_does_not_win :
    NewAuthInfo emptyEnv [OptAuthUserPass (goStr "u") (goStr "p"), OptAuthEnv]
        = .error (.new (goStr "Variable GREMLIN_USER is not set"))
      ∧ NewAuthInfo emptyEnv
          [OptAuthUserPass (goStr "u") (goStr "p"), OptAuthUserPass (goStr "v") (goStr "q")]
        = .ok { User := goStr "v", Pass := goStr "q" } := by
  decide!

/-- C9: `NewAuthInfo` applies every option of the list in turn. An explicit user and
password at the end of the list replace what the options before it have set, and the
environment option fails the construction when a variable is not set, wherever it stands in
the list and whatever the options before it have set. -/
theorem NewAuthInfo_applies_every_option (env : Env) (options more : List OptAuth)
    (u p : GoString) :
    NewAuthInfo env (options ++ [OptAuthUserPass u p])
        = (match NewAuthInfo env options with
          | .error err => .error err
          | .ok auth => .ok { auth with User := u, Pass := p })
      ∧ NewAuthInfo env (options ++ OptAuthEnv :: more)
        = (match NewAuthInfo env options with
          | .error err => .error err
          | .ok auth =>
            match env (goStr "GREMLIN_USER"), env (goStr "GREMLIN_PASS") with
            | none, _ => .error (.new (goStr "Variable GREMLIN_USER is not set"))
            | some _, none => .error (.new (goStr "Variable GREMLIN_PASS is not set"))
            | some user, some pass =>
              NewAuthInfo.loop env { auth with User := user, Pass := pass } more) := by
  constructor
  · unfold NewAuthInfo
    rw [NewAuthInfo.loop_append]
    cases NewAuthInfo.loop env {} options <;> simp [OptAuthUserPass, NewAuthInfo.loop]
  · unfold NewAuthInfo
    rw [NewAuthInfo.loop_append]
    cases NewAuthInfo.loop env {} options with
    | error err => rfl
    | ok auth =>
      simp only [OptAuthEnv]
      cases env (goStr "GREMLIN_USER") with
      | none => rfl
      | some user =>
        cases env (goStr "GREMLIN_PASS") with
        | none => rfl
        | some pass => rfl

/-! ## C10: messages without the shape of a response -/

/-- C10: a message that is valid JSON without the shape of a `Response` is not rejected as
a decoding error. On the text `null`, on the object without members and on a `Success`
frame without a `result` member the decoder reports no error and `ReadResponse` then
dereferences the nil pointer: the call panics. -/
theorem ReadResponse_panics_on_absent_members :
    Json.UnmarshalResponse (goStr "null") = .ok none
      ∧ ReadResponse tinkerpop emptyEnv {} ⟨[.message (goStr "null")], [], []⟩
        = .panicked ⟨[], [], []⟩
      ∧ ReadResponse tinkerpop emptyEnv {} ⟨[.message (goStr "\x7b\x7d")], [], []⟩
        = .panicked ⟨[], [], []⟩
      ∧ ReadResponse tinkerpop emptyEnv {}
          ⟨[.message (goStr "\x7b\"requestId\":\"r\",\"status\":\x7b\"code\":200\x7d\x7d")],
            [], []⟩
        = .panicked ⟨[], [], []⟩ := by
  decide!

/-! ## C11: CreateConnection returns the first server that can be reached -/

/-- C11. Whatever the configured servers and the outcomes of the dial attempts:
if the attempts on the servers before `s` fail and the attempt on `s` succeeds with `c`,
`CreateConnection` returns `c` and `s` with a nil error, having dialled the servers up to
`s` in list order and none after it; and `CreateConnection` returns an error exactly when
every attempt fails, which is so for the empty list. -/
theorem CreateConnection_first_reachable (dial : Dialer) (servers : List Url.URL) :
    (∀ (pre post : List Url.URL) (s : Url.URL) (c : NetConn),
      servers = pre ++ s :: post →
      (∀ (i : Nat) (h : i < pre.length), ∃ e, dial i (pre.get ⟨i, h⟩).Host = .error e) →
      dial pre.length s.Host = .ok c →
      CreateConnection dial servers
        = ⟨some c, some s, none, (pre ++ [s]).map (fun u => u.Host)⟩)
    ∧ ((CreateConnection dial servers).err ≠ none ↔
        ∀ (i : Nat) (h : i < servers.length),
          ∃ e, dial i (servers.get ⟨i, h⟩).Host = .error e) := by
  constructor
  · intro pre post s c hs hpre hc
    subst hs
    have h := CreateConnection.loop_first dial post s c pre []
      (by simpa using hpre) (by simpa using hc)
    simp only [CreateConnection, h, List.nil_append]
  · rw [CreateConnection_err, CreateConnection.loop_none]
    simp

/-- The servers `ws://a:1` and `ws://b:2` of the example. -/
theorem CreateConnection_first_reachable_witness :
    CreateConnection
        (fun _ host => if host = goStr "b:2" then .ok 7 else .error (.custom (goStr "refused")))
        [{ Scheme := goStr "ws", Host := goStr "a:1" }, { Scheme := goStr "ws", Host := goStr "b:2" }]
      = ⟨some 7, some { Scheme := goStr "ws", Host := goStr "b:2" }, none,
          [goStr "a:1", goStr "b:2"]⟩ :=
  (CreateConnection_first_reachable _ _).1
    [{ Scheme := goStr "ws", Host := goStr "a:1" }] []
    { Scheme := goStr "ws", Host := goStr "b:2" } 7 rfl
    (by
      intro i h
      have hi : i = 0 := by simpa using h
      subst hi
      exact ⟨.custom (goStr "refused"), rfl⟩)
    (by decide!)

/-! ## C12: NewCluster without an address -/

/-- C12. With no explicit address and `GREMLIN_SERVERS` set to a single comma, which holds
no address, `NewCluster` does not fail, whatever the URL parser does on texts that are not
empty: it returns a nil error and configures two endpoints, each the empty URL. -/
theorem NewCluster_accepts_separators_only (parseText : Url.TextParser) :
    NewCluster parseText (serversEnv (goStr ",")) [] = ([{}, {}], none) := by
  rfl

/-! ## C13: SplitServers splits at the commas and trims -/

/-- C13. For pieces `p1 .. pn`, `n ≥ 1`, none containing a comma (byte 44), each an endpoint
string with optional white space around it: when every trimmed piece parses, `SplitServers`
on the pieces joined by commas returns no error and exactly `n` endpoints, the i-th being
the parse of `strings.TrimSpace pi`, in the order of the string. -/
theorem SplitServers_splits_and_trims (parseText : Url.TextParser) (pieces : List GoString)
    (u : GoString → Url.URL) (hne : pieces ≠ []) (hsep : ∀ p ∈ pieces, 44 ∉ p)
    (hparse : ∀ p ∈ pieces, Url.Parse parseText (Strings.TrimSpace p) = .ok (u p)) :
    SplitServers parseText (Strings.Join pieces 44) = (pieces.map u, none)
    ∧ (SplitServers parseText (Strings.Join pieces 44)).1.length = pieces.length := by
  have hsplit := Strings.Split_Join 44 pieces hne hsep
  have hlen : ¬ pieces.length < 1 := by
    cases pieces with
    | nil => exact absurd rfl hne
    | cons p ps => simp
  have h : SplitServers parseText (Strings.Join pieces 44) = (pieces.map u, none) := by
    simp only [SplitServers, hsplit, hlen, if_false]
    simpa using SplitServers.loop_parsed parseText u pieces [] hparse
  exact ⟨h, by simp [h]⟩

/-- Two pieces with white space around them, and a parser that keeps the text as it is. -/
theorem SplitServers_splits_and_trims_witness :
    SplitServers (fun t => .ok { Opaque := t }) (goStr " ws://a:1 ,\tws://b:2")
      = ([{ Opaque := goStr "ws://a:1" }, { Opaque := goStr "ws://b:2" }], none) :=
  (SplitServers_splits_and_trims (fun t => .ok { Opaque := t })
    [goStr " ws://a:1 ", goStr "\tws://b:2"] (fun p => { Opaque := Strings.TrimSpace p })
    (by simp) (by decide!)
    (by
      intro p hp
      simp only [List.mem_cons, List.mem_singleton, List.not_mem_nil, or_false] at hp
      rcases hp with rfl | rfl <;> rfl)).1

/-! ## C14: the round trip of a request -/

/-- C14, as stated: a counterexample. The query text of the one byte `0xff`, which is a Go
string but not valid UTF-8, is written by the encoder as the escape of U+FFFD; the body of
the message decodes with the operation and the processor of the request, but with the
`gremlin` argument `EF BF BD`, not the text that was given. -/
theorem invalid_bytes_do_not_round_trip :
    BuildQuery (.ok (goStr "id")) [255]
      = .ok ⟨goStr "id", goStr "eval", [],
          some { Gremlin := [255], Language := goStr "gremlin-groovy" }⟩
    ∧ GraphSONSerializer ⟨goStr "id", goStr "eval", [],
          some { Gremlin := [255], Language := goStr "gremlin-groovy" }⟩
      = .ok ([0x21] ++ goStr "application/vnd.gremlin-v2.0+json"
          ++ goStr ("\x7b\"op\":\"eval\",\"requestId\":\x7b\"@type\":\"g:UUID\",\"@value\":\"id\"\x7d,"
            ++ "\"args\":\x7b\"gremlin\":\"\\ufffd\",\"language\":\"gremlin-groovy\"\x7d,"
            ++ "\"processor\":\"\"\x7d"))
    ∧ Json.UnmarshalFormattedReq
        (goStr ("\x7b\"op\":\"eval\",\"requestId\":\x7b\"@type\":\"g:UUID\",\"@value\":\"id\"\x7d,"
            ++ "\"args\":\x7b\"gremlin\":\"\\ufffd\",\"language\":\"gremlin-groovy\"\x7d,"
            ++ "\"processor\":\"\"\x7d"))
      = .ok { Op := goStr "eval",
              RequestID := some (goStr "\x7b\"@type\":\"g:UUID\",\"@value\":\"id\"\x7d"),
              Args := some { Gremlin := [239, 191, 189], Language := goStr "gremlin-groovy" },
              Processor := [] }
    ∧ ([239, 191, 189] : GoString) ≠ [255] := by
  decide!

/-- C14, amended. For every identifier and every query text `t` that is valid UTF-8,
`BuildQuery t` serialised by `GraphSONSerializer` is the length byte `0x21`, the mime type
and a JSON body; the body, which is the message without its first 34 bytes, decodes into a
`FormattedReq` without error, with `op` `eval`, the empty `processor` and arguments whose
`gremlin` is `t` (and whose `language` is `gremlin-groovy`). -/
theorem BuildQuery_round_trip (id t : GoString) (ht : Utf8.ValidString t = true) :
    ∃ (req : Request) (msg body : GoBytes),
      BuildQuery (.ok id) t = .ok req
      ∧ GraphSONSerializer req = .ok msg
      ∧ msg = [0x21] ++ goStr "application/vnd.gremlin-v2.0+json" ++ body
      ∧ messageBody msg = body
      ∧ Json.UnmarshalFormattedReq body
        = .ok { Op := goStr "eval",
                RequestID := some (Json.marshalStringMap
                  [(goStr "@type", goStr "g:UUID"), (goStr "@value", id)]),
                Args := some { Gremlin := t, Language := goStr "gremlin-groovy" },
                Processor := [] } := by
  obtain ⟨args, hargs, htight, hdec⟩ := Json.decodeRequestArgs_query t ht
  refine ⟨⟨id, goStr "eval", [], some { Gremlin := t, Language := goStr "gremlin-groovy" }⟩,
    _, _, rfl, ?_, rfl, messageBody_message _, Json.UnmarshalFormattedReq_query id t args
      htight hdec⟩
  simp only [GraphSONSerializer, NewFormattedReq, Json.MarshalFormattedReq, hargs]

/-- C14, amended, for a query text with quotes, an angle bracket, a line feed, a letter of
two bytes and the line separator U+2028. -/
theorem BuildQuery_round_trip_witness :
    ∃ (req : Request) (msg body : GoBytes),
      BuildQuery (.ok (goStr "id")) (goStr "g.V().has(\"name\", \"<é>\u2028\")\n") = .ok req
      ∧ GraphSONSerializer req = .ok msg
      ∧ msg = [0x21] ++ goStr "application/vnd.gremlin-v2.0+json" ++ body
      ∧ messageBody msg = body
      ∧ Json.UnmarshalFormattedReq body
        = .ok { Op := goStr "eval",
                RequestID := some (Json.marshalStringMap
                  [(goStr "@type", goStr "g:UUID"), (goStr "@value", goStr "id")]),
                Args := some { Gremlin := goStr "g.V().has(\"name\", \"<é>\u2028\")\n",
                               Language := goStr "gremlin-groovy" },
                Processor := [] } :=
  BuildQuery_round_trip (goStr "id") (goStr "g.V().has(\"name\", \"<é>\u2028\")\n") (by decide!)

/-! ## C15: the request BuildQuery returns -/

/-- C15. When the identifier `id` is generated, `BuildQuery t` returns the request with
`requestId` `id`, `op` `eval`, the empty `processor`, and arguments in which `gremlin` is
`t`, `language` is `gremlin-groovy` and every other field holds its zero value; the
encoding of the arguments has the member `language` and, unless `t` is empty, the member
`gremlin`, and no other member. -/
theorem BuildQuery_result_shape (id t : GoString) :
    BuildQuery (.ok id) t
        = .ok { RequestID := id, Op := goStr "eval", Processor := [],
                Args := some { Gremlin := t, Session := [], Bindings := [],
                               Language := goStr "gremlin-groovy", Rebindings := [],
                               Sasl := [], BatchSize := 0, ManageTransaction := false,
                               Aliases := [] } }
    ∧ Json.marshalArgs (some { Gremlin := t, Language := goStr "gremlin-groovy" })
        = some (if t = [] then goStr "\x7b\"language\":\"gremlin-groovy\"\x7d"
            else goStr "\x7b\"gremlin\":" ++ Json.appendString t
              ++ goStr ",\"language\":\"gremlin-groovy\"\x7d") := by
  refine ⟨rfl, ?_⟩
  have hl : Json.member "language" (Json.appendString (goStr "gremlin-groovy"))
      = goStr "\"language\":\"gremlin-groovy\"" := by decide!
  have hne : goStr "gremlin-groovy" ≠ [] := by decide!
  have hg : ∀ v, Json.member "gremlin" v = goStr "\"gremlin\":" ++ v := by
    intro v
    have : Json.appendString (goStr "gremlin") ++ [58] = goStr "\"gremlin\":" := by decide!
    simp only [Json.member]
    rw [← this]
    simp
  by_cases ht : t = []
  · subst ht
    simp only [Json.marshalArgs, Json.marshalRequestArgs, hl, hne, if_true, if_false,
      List.nil_append, List.append_nil, Json.joinComma]
    decide!
  · simp only [Json.marshalArgs, Json.marshalRequestArgs, hl, hne, ht, if_true, if_false,
      List.nil_append, List.append_nil, Json.joinComma, hg]
    have h1 : goStr "\x7b\"gremlin\":" = 123 :: goStr "\"gremlin\":" := by decide!
    have h2 : goStr ",\"language\":\"gremlin-groovy\"\x7d"
        = 44 :: goStr "\"language\":\"gremlin-groovy\"" ++ [125] := by decide!
    simp [h1, h2, List.append_assoc]

/-! ## C16: the setters change one field and return the request -/

/-- C16. For a request at `req` whose `Args` points to the arguments `args`: each of
`Bindings`, `ManageTransaction`, `Aliases`, `Session` and `SetProcessor` returns the pointer
`req` it was called on and leaves the memory as it was but for its own field, which holds
the value given, whatever that value is; read as a value, the request afterwards is what the
method on values gives; two setters on different fields give the same memory in either
order, and of two calls of the same setter the second one stays. -/
theorem setters_change_one_field (m : Memory) (req a : Addr) (cell : RequestCell)
    (args : RequestArgs) (hreq : m.requests[req]? = some cell) (hargs : cell.Args = some a)
    (ha : m.args[a]? = some args) :
    (∀ bindings, m.Bindings req bindings
      = some ({ m with args := m.args.set a { args with Bindings := bindings } }, req))
    ∧ (∀ flag, m.ManageTransaction req flag
      = some ({ m with args := m.args.set a { args with ManageTransaction := flag } }, req))
    ∧ (∀ aliases, m.Aliases req aliases
      = some ({ m with args := m.args.set a { args with Aliases := aliases } }, req))
    ∧ (∀ session, m.Session req session
      = some ({ m with args := m.args.set a { args with Session := session } }, req))
    ∧ (∀ processor, m.SetProcessor req processor
      = some ({ m with requests := m.requests.set req { cell with Processor := processor } },
          req))
    ∧ (∀ s : Setter,
        (match s.call m req with
          | none => none
          | some (m1, req1) => m1.read req1)
        = s.onValue ⟨cell.RequestID, cell.Op, cell.Processor, some args⟩)
    ∧ (∀ s1 s2 : Setter, s1.field ≠ s2.field → s1.chain s2 m req = s2.chain s1 m req)
    ∧ (∀ s1 s2 : Setter, s1.field = s2.field → s1.chain s2 m req = s2.call m req) :=
  ⟨fun _ => Memory.setArg_some m req a cell args _ hreq hargs ha,
    fun _ => Memory.setArg_some m req a cell args _ hreq hargs ha,
    fun _ => Memory.setArg_some m req a cell args _ hreq hargs ha,
    fun _ => Memory.setArg_some m req a cell args _ hreq hargs ha,
    fun _ => by simp [Memory.SetProcessor, hreq],
    Setter.call_read m req a cell args hreq hargs ha,
    Setter.chain_comm m req, Setter.chain_last m req⟩

/-- A memory with the request `BuildQuery` makes for `g.V()` at address 0 and its arguments
at address 0: the session is set, then the bindings. -/
theorem setters_change_one_field_witness :
    Setter.chain (.Session (goStr "s1")) (.Bindings [(goStr "x", ⟨some (goStr "1")⟩)])
        ⟨[{ RequestID := goStr "id", Op := goStr "eval", Args := some 0 }],
          [{ Gremlin := goStr "g.V()", Language := goStr "gremlin-groovy" }]⟩ 0
      = some (⟨[{ RequestID := goStr "id", Op := goStr "eval", Args := some 0 }],
          [{ Gremlin := goStr "g.V()", Language := goStr "gremlin-groovy",
             Session := goStr "s1", Bindings := [(goStr "x", ⟨some (goStr "1")⟩)] }]⟩, 0) :=
  ((setters_change_one_field
    ⟨[{ RequestID := goStr "id", Op := goStr "eval", Args := some 0 }],
      [{ Gremlin := goStr "g.V()", Language := goStr "gremlin-groovy" }]⟩ 0 0
    { RequestID := goStr "id", Op := goStr "eval", Args := some 0 }
    { Gremlin := goStr "g.V()", Language := goStr "gremlin-groovy" } rfl rfl rfl).2.2.2.2.2.2.1
      (.Bindings [(goStr "x", ⟨some (goStr "1")⟩)]) (.Session (goStr "s1"))
      (by decide)).symm.trans (by decide!)

/-! ## C17: the processor of the authentication request -/

/-- C17. Whatever the credentials and the challenge, the request that `Authenticate` builds
has the processor `trasversal`, which is not the string `traversal`, and the message
written for it ends with the member `"processor":"trasversal"`. -/
theorem Authenticate_processor_misspelt (auth : AuthInfo) (requestID : GoString) :
    (Authenticate.authReq auth requestID).Processor = goStr "trasversal"
    ∧ (Authenticate.authReq auth requestID).Processor ≠ goStr "traversal"
    ∧ ∃ front, Authenticate.message auth requestID
        = front ++ goStr ",\"processor\":\"trasversal\"\x7d" := by
  refine ⟨rfl, ?_, ?_⟩
  · show goStr "trasversal" ≠ goStr "traversal"
    decide!
  obtain ⟨text, htext⟩ := Json.marshalArgs_sasl
    (StdEncoding.EncodeToString ([0] ++ auth.User ++ [0] ++ auth.Pass))
  have hp : Json.member "processor" (Json.appendString (goStr "trasversal")) ++ [125]
      = goStr "\"processor\":\"trasversal\"\x7d" := by decide!
  have ht : goStr ",\"processor\":\"trasversal\"\x7d"
      = 44 :: goStr "\"processor\":\"trasversal\"\x7d" := by decide!
  simp only [Authenticate.message, GraphSONSerializer, NewFormattedReq,
    Json.MarshalFormattedReq, Authenticate.authReq, htext, Json.joinComma, ht]
  refine ⟨[0x21] ++ goStr "application/vnd.gremlin-v2.0+json"
    ++ (123 :: (Json.member "op" (Json.appendString (goStr "authentication"))
      ++ 44 :: (Json.member "requestId"
        (Json.marshalStringMap [(goStr "@type", goStr "g:UUID"), (goStr "@value", requestID)])
      ++ 44 :: Json.member "args" text))), ?_⟩
  simp only [List.append_assoc, List.cons_append, ← hp]

/-! ## C18: a batch without elements -/

/-- C18. After `k ≥ 1` `PartialContent` frames whose data are empty arrays, a `Success`
frame whose data is the empty array makes `ReadResponse` return, without error, the text
`null`, which is not the encoding `[]` of the empty array. -/
theorem ReadResponse_empty_batch_is_null (t : StatusTable) (env : Env) (c : Client)
    (parts : List GoBytes) (last : GoBytes) (rest : List ReadEvent)
    (writeResults : List (Option GoError)) (sent : List GoBytes)
    (hk : parts ≠ [])
    (hparts : ∀ p ∈ parts, IsArrayFrame p t.StatusPartialContent [])
    (hlast : IsArrayFrame last t.StatusSuccess []) :
    ReadResponse t env c
        ⟨parts.map ReadEvent.message ++ .message last :: rest, writeResults, sent⟩
      = .returned (goStr "null") none ⟨rest, writeResults, sent⟩
    ∧ goStr "null" ≠ goStr "[]" := by
  refine ⟨?_, by decide!⟩
  have h := ReadResponse_batch t env c (parts.map fun p => (p, [])) last [] rest writeResults
    sent (by simpa using hk)
    (by
      intro p hp
      obtain ⟨q, hq, rfl⟩ := List.mem_map.1 hp
      exact hparts q hq)
    hlast
  have hflat : ((parts.map fun p => (p, ([] : List RawMessage))).flatMap fun p => p.2) = [] := by
    induction parts with
    | nil => rfl
    | cons p ps ih =>
      simp [List.flatMap_cons]
  rw [hflat] at h
  simpa [List.map_map, Function.comp_def] using h

/-- Two empty fragments and an empty last array. -/
theorem ReadResponse_empty_batch_is_null_witness :
    ReadResponse tinkerpop emptyEnv {}
        ⟨[.message (frame "r" 206 "[]"), .message (frame "r" 206 " [ ] "),
          .message (frame "r" 200 "[]"), .message (frame "s" 200 "[1]")], [], []⟩
      = .returned (goStr "null") none ⟨[.message (frame "s" 200 "[1]")], [], []⟩
    ∧ goStr "null" ≠ goStr "[]" :=
  ReadResponse_empty_batch_is_null tinkerpop emptyEnv {}
    [frame "r" 206 "[]", frame "r" 206 " [ ] "] (frame "r" 200 "[]")
    [.message (frame "s" 200 "[1]")] [] [] (by simp) (by decide!) (by decide!)

/-- Fragments that are `null` give `null` as well. -/
theorem ReadResponse_null_batch_example :
    ReadResponse tinkerpop emptyEnv {}
        ⟨[.message (frame "r" 206 "null"), .message (frame "r" 200 "null")], [], []⟩
      = .returned (goStr "null") none ⟨[], [], []⟩ := by
  decide!

/-! ## C19: a challenge in the middle of a batch -/

/-- C19, as stated: a counterexample. With credentials at hand, a `PartialContent` frame
with `[1,2]`, then an `Authenticate` frame, then a `Success` frame with `[3]`: `ReadResponse`
returns no error but the payload `[3]`, having written one authentication request; the
fragment `[1,2]` is gone. -/
theorem ReadResponse_mid_batch_challenge_answered :
    ReadResponse tinkerpop emptyEnv ⟨[OptAuthUserPass (goStr "user") (goStr "secret")]⟩
        ⟨[.message (frame "r" 206 "[1,2]"), .message (frame "r" 407 "[]"),
          .message (frame "r" 200 "[3]")], [none], []⟩
      = .returned (goStr "[3]") none
          ⟨[], [], [Authenticate.message { User := goStr "user", Pass := goStr "secret" }
            (goStr "r")]⟩ := by
  decide!

/-- C19, amended. After any number of `PartialContent` frames with array data, so also after
one or more, a frame with the status code `Authenticate` and the request identifier `R`
makes `ReadResponse` continue as the call of `Authenticate` for `R` on the frames that
remain: the handshake is started, no protocol error is raised, and the result is the one
`ReadResponse` gives without the fragments received before, which are discarded. -/
theorem ReadResponse_challenge_mid_batch (t : StatusTable) (env : Env) (c : Client)
    (parts : List (GoBytes × List RawMessage)) (challenge : GoBytes) (R : GoString)
    (rest : List ReadEvent) (writeResults : List (Option GoError)) (sent : List GoBytes)
    (hparts : ∀ p ∈ parts, IsArrayFrame p.1 t.StatusPartialContent p.2)
    (hchallenge : IsChallenge challenge t.StatusAuthenticate R) :
    ReadResponse t env c
        ⟨parts.map (fun p => ReadEvent.message p.1) ++ .message challenge :: rest,
          writeResults, sent⟩
      = Authenticate t env c R ⟨rest, writeResults, sent⟩
    ∧ ReadResponse t env c
        ⟨parts.map (fun p => ReadEvent.message p.1) ++ .message challenge :: rest,
          writeResults, sent⟩
      = ReadResponse t env c ⟨.message challenge :: rest, writeResults, sent⟩ := by
  obtain ⟨res, status, hdec, hstatus, hcode, hid⟩ := isChallenge_decoded hchallenge
  have h0 : (none : GoSlice RawMessage) = accumulated [] := rfl
  have h1 : ReadResponse t env c
        ⟨parts.map (fun p => ReadEvent.message p.1) ++ .message challenge :: rest,
          writeResults, sent⟩
      = Authenticate t env c R ⟨rest, writeResults, sent⟩ := by
    unfold ReadResponse
    simp only []
    rw [h0, ReadResponse.loop_partials t env c parts _ _ _ [] false hparts,
      ReadResponse.loop_authenticate t env c challenge rest _ _ _ _ res status hdec hstatus
        hcode, hid]
  have h2 : ReadResponse t env c ⟨.message challenge :: rest, writeResults, sent⟩
      = Authenticate t env c R ⟨rest, writeResults, sent⟩ := by
    unfold ReadResponse
    simp only []
    rw [ReadResponse.loop_authenticate t env c challenge rest _ _ _ _ res status hdec hstatus
        hcode, hid]
  exact ⟨h1, h1.trans h2.symm⟩

/-- C19, amended, on the frames `[1,2]`, a challenge, then whatever follows. -/
theorem ReadResponse_challenge_mid_batch_witness :
    ReadResponse tinkerpop emptyEnv ⟨[OptAuthUserPass (goStr "user") (goStr "secret")]⟩
        ⟨[.message (frame "r" 206 "[1,2]"), .message (frame "r" 407 "[]"),
          .message (frame "r" 200 "[3]")], [none], []⟩
      = Authenticate tinkerpop emptyEnv ⟨[OptAuthUserPass (goStr "user") (goStr "secret")]⟩
          (goStr "r") ⟨[.message (frame "r" 200 "[3]")], [none], []⟩
    ∧ ReadResponse tinkerpop emptyEnv ⟨[OptAuthUserPass (goStr "user") (goStr "secret")]⟩
        ⟨[.message (frame "r" 206 "[1,2]"), .message (frame "r" 407 "[]"),
          .message (frame "r" 200 "[3]")], [none], []⟩
      = ReadResponse tinkerpop emptyEnv ⟨[OptAuthUserPass (goStr "user") (goStr "secret")]⟩
          ⟨[.message (frame "r" 407 "[]"), .message (frame "r" 200 "[3]")], [none], []⟩ :=
  ReadResponse_challenge_mid_batch tinkerpop emptyEnv
    ⟨[OptAuthUserPass (goStr "user") (goStr "secret")]⟩
    [(frame "r" 206 "[1,2]", [goStr "1", goStr "2"])] (frame "r" 407 "[]") (goStr "r")
    [.message (frame "r" 200 "[3]")] [none] [] (by decide!) (by decide!)

/-! ## C20: no payload with an error -/

/-- C20. Whatever the frames, the results of the writes and the credentials: when
`ReadResponse` returns an error, be it from the transport, from decoding a frame or a
fragment, from an error status code or from the authentication exchange it runs through
`Authenticate` and `Exec`, the payload returned with it has length 0. -/
theorem ReadResponse_error_without_payload (t : StatusTable) (env : Env) (c : Client)
    (conn : Conn) (data : GoBytes) (err : GoError) (after : Conn)
    (h : ReadResponse t env c conn = .returned data (some err) after) :
    data.length = 0 :=
  ReadResponse.loop_noPayload t env c _ _ _ _ _ data err after h

/-- A read error after a fragment `[1,2]`: the error comes with the empty payload. -/
theorem ReadResponse_error_without_payload_witness :
    ReadResponse tinkerpop emptyEnv {}
        ⟨[.message (frame "r" 206 "[1,2]"), .failure (.transport (goStr "closed"))], [], []⟩
      = .returned []
          (some (.wrapf (.transport (goStr "closed"))
            (goStr "failed to read message from websocket connection"))) ⟨[], [], []⟩
    ∧ ([] : GoBytes).length = 0 :=
  ⟨by decide!,
    ReadResponse_error_without_payload tinkerpop emptyEnv {}
      ⟨[.message (frame "r" 206 "[1,2]"), .failure (.transport (goStr "closed"))], [], []⟩
      [] (.wrapf (.transport (goStr "closed"))
        (goStr "failed to read message from websocket connection")) ⟨[], [], []⟩
      (by decide!)⟩

end Gremlin
